import Mathlib

/-!
VSFS journal (`project_journal.c`): staging and replay.

A shallow embedding of `cmd_create` (stage a file creation into the on-disk
journal) and `cmd_install` (replay the journal onto the image), followed by the
properties proved about them.

* The image file is a length together with its bytes (`Image`); a byte is a
  `Fin 256`.  Bytes past the end of the file read as zero, which is what a
  later write past the end makes of the gap.
* In-memory buffers (`uint8_t buf[N]`) are functions from an index to a byte.
* `uint32_t` arithmetic that can wrap is written with an explicit `% 2 ^ 32`.
* An access outside an array stops the run with `Err.outOfBounds`.  One access is
  treated in two ways: line 115 reads a 4096-byte block into the 128-byte
  `struct superblock`.  `cmd_create` follows the code past that overrun (the
  bytes stored past `sb` disturb nothing the function uses), `cmd_create_checked`
  stops there.  The general statements about `cmd_create` that settle a numbered
  property (as opposed to evaluations of the code at one input) hold as well of a
  call that stops at line 115 and writes nothing.
-/

namespace VSFS

/-! ## Constants (lines 13-32) -/

abbrev Byte := Fin 256

/-- An in-memory byte buffer, indexed from 0. -/
abbrev Buf := Nat → Byte

def FS_MAGIC : Nat := 0x56534653
def BLOCK_SIZE : Nat := 4096
def INODE_SIZE : Nat := 128
def SUPERBLOCK_IDX : Nat := 0
def JOURNAL_BLOCK_IDX : Nat := 1
def JOURNAL_BLOCKS : Nat := 16
def INODE_BMAP_IDX : Nat := 17
def DATA_BMAP_IDX : Nat := 18
def INODE_START_IDX : Nat := 19
def DATA_START_IDX : Nat := 21
def TOTAL_BLOCKS : Nat := 85
def ROOT_INODE_NUM : Nat := 0
def DIRECT_POINTERS : Nat := 8
def NAME_LEN : Nat := 28
def JOURNAL_MAGIC : Nat := 0x4A524E4C
def REC_DATA : Nat := 1
def REC_COMMIT : Nat := 2

/-- The value of `sizeof(struct journal_header)`. -/
def JH_SIZE : Nat := 8
/-- The value of `sizeof(struct rec_header)`. -/
def RH_SIZE : Nat := 4
/-- The value of `sizeof(struct dirent)`. -/
def DIRENT_SIZE : Nat := 32
/-- The modulus of `uint32_t` arithmetic. -/
def U32 : Nat := 4294967296

/-! ## Little-endian fields in a buffer -/

/-- Byte number `k` (little-endian) of the value `v`. -/
def byteOf (v k : Nat) : Byte := ⟨v / 256 ^ k % 256, Nat.mod_lt _ (by decide)⟩

/-- Read a `uint16_t` field at offset `o`. -/
def rd16 (b : Buf) (o : Nat) : Nat := (b o).val + 256 * (b (o + 1)).val

/-- Read a `uint32_t` field at offset `o`. -/
def rd32 (b : Buf) (o : Nat) : Nat :=
  (b o).val + 256 * (b (o + 1)).val + 65536 * (b (o + 2)).val + 16777216 * (b (o + 3)).val

/-- Store a `uint16_t` field at offset `o` (the value is truncated to 16 bits). -/
def wr16 (b : Buf) (o v : Nat) : Buf :=
  fun k => if o ≤ k ∧ k < o + 2 then byteOf v (k - o) else b k

/-- Store a `uint32_t` field at offset `o` (the value is truncated to 32 bits). -/
def wr32 (b : Buf) (o v : Nat) : Buf :=
  fun k => if o ≤ k ∧ k < o + 4 then byteOf v (k - o) else b k

/-- The effect of `memset(p + o, 0, n)`. -/
def memset0 (b : Buf) (o n : Nat) : Buf :=
  fun k => if o ≤ k ∧ k < o + n then 0 else b k

/-! ## The image file and positioned I/O -/

/-- The image file: its length and its bytes. -/
structure Image where
  size : Nat
  data : Nat → Byte
  beyond : ∀ p, size ≤ p → data p = 0

/-- The `count` bytes of the image at `off`, as a buffer. -/
def bufAt (img : Image) (count off : Nat) : Buf :=
  fun k => if k < count then img.data (off + k) else 0

/-- Positioned read of `count` bytes at `off`; `none` is a short read (which every caller
turns into `die`). -/
def pread (img : Image) (count off : Nat) : Option Buf :=
  if off + count ≤ img.size then some (bufAt img count off) else none

/-- Positioned write of the first `count` bytes of `src` at `off` (every call site has
`count > 0`); writing past the end grows the file. -/
def pwrite (img : Image) (src : Buf) (count off : Nat) : Image where
  size := max img.size (off + count)
  data := fun p => if off ≤ p ∧ p < off + count then src (p - off) else img.data p
  beyond := by
    intro p hp
    have h1 : img.size ≤ p := le_trans (le_max_left _ _) hp
    have h2 : off + count ≤ p := le_trans (le_max_right _ _) hp
    have h3 : ¬ (off ≤ p ∧ p < off + count) := by omega
    simp only [h3, if_false]
    exact img.beyond p h1

/-- Byte offset of block `block_idx`: `block_idx * BLOCK_SIZE` in `unsigned` arithmetic. -/
def blockOff (block_idx : Nat) : Nat := (block_idx * BLOCK_SIZE) % U32

/-- Lines 92-96: read one block; `none` stands for `die("pread block")`. -/
def read_block (img : Image) (block_idx : Nat) : Option Buf :=
  pread img BLOCK_SIZE (blockOff block_idx)

/-- Lines 98-100. -/
def is_bit_set (bitmap : Buf) (index : Nat) : Nat :=
  ((bitmap (index / 8)).val >>> (index % 8)) &&& 1

/-- Lines 102-104: the byte is a `uint8_t`, so the result is truncated to 8 bits. -/
def set_bit (bitmap : Buf) (index : Nat) : Buf :=
  fun k =>
    if k = index / 8 then
      ⟨((bitmap k).val ||| (1 <<< (index % 8))) % 256, Nat.mod_lt _ (by decide)⟩
    else bitmap k

/-! ## One positioned write, and sequences of them -/

/-- One `pwrite` call: the first `count` bytes of `src` go to offset `off`. -/
structure Write where
  src : Buf
  count : Nat
  off : Nat

def applyWrite (img : Image) (w : Write) : Image := pwrite img w.src w.count w.off

/-- Perform the writes in order. -/
def applyWrites (img : Image) (ws : List Write) : Image := ws.foldl applyWrite img

/-! ## Outcomes -/

/-- The ways an invocation stops without completing. -/
inductive Err where
  /-- Line 110: "Filename too long". -/
  | filenameTooLong
  /-- A failed `read_block`: `die("pread block")`. -/
  | preadBlock
  /-- Line 116: the superblock magic is wrong. -/
  | invalidMagic
  /-- Lines 119 and 252: the journal header cannot be read. -/
  | readJournalHeader
  /-- Line 132: "Journal full". -/
  | journalFull
  /-- Line 147: "No free inodes". -/
  | noFreeInodes
  /-- Line 156: the root inode has no data block. -/
  | rootNoDataBlock
  /-- Line 175: "Root directory full". -/
  | rootDirFull
  /-- Line 268: the journal region cannot be read. -/
  | readFullJournal
  /-- An access outside a fixed-size array (`inode_bitmap`, `journal_mem`, `pending`):
  the C program has no defined behaviour from here on. -/
  | outOfBounds
  /-- The replay scan was still running when the iteration budget ran out. -/
  | outOfFuel
  deriving DecidableEq, Repr

/-! ## `cmd_create` (lines 108-245) -/

/-- The value of `strlen`: the number of bytes before the first NUL. -/
def strlen (s : List Byte) : Nat := (s.takeWhile (fun c => c ≠ 0)).length

/-- The effect of `strncpy(dst + o, s, n)`: the string, then NULs up to `n` bytes. -/
def strncpy (dst : Buf) (o : Nat) (s : List Byte) (n : Nat) : Buf :=
  fun k => if o ≤ k ∧ k < o + n then (if k - o < strlen s then s.getD (k - o) 0 else 0) else dst k

/-- Result of the inode scan of lines 139-145. -/
inductive InodeScan where
  | found (i : Nat)
  | notFound
  /-- The scan ran past the 4096-byte `inode_bitmap` array. -/
  | overrun
  deriving DecidableEq, Repr

/-- Lines 140-145, `for (int i = ...; i < sb.inode_count; i++)`: `n` is the number of
indices still to visit, `i` the current one. -/
def scanInodes (bitmap : Buf) : Nat → Nat → InodeScan
  | 0, _ => .notFound
  | n + 1, i =>
    if BLOCK_SIZE ≤ i / 8 then .overrun
    else if is_bit_set bitmap i = 0 then .found i
    else scanInodes bitmap n (i + 1)

/-- Lines 166-172: first directory slot whose `name[0]` is NUL; `n` slots remain from `i`. -/
def scanDirents (entries : Buf) : Nat → Nat → Option Nat
  | 0, _ => none
  | n + 1, i =>
    if entries (i * DIRENT_SIZE + 4) = 0 then some i
    else scanDirents entries n (i + 1)

/-- Line 126: `data_rec_size`. -/
def data_rec_size : Nat := RH_SIZE + 4 + BLOCK_SIZE
/-- Line 127: `commit_rec_size`. -/
def commit_rec_size : Nat := RH_SIZE
/-- Line 128: `txn_size`. -/
def txn_size : Nat := 3 * data_rec_size + commit_rec_size
/-- Line 130: `journal_capacity`. -/
def journal_capacity : Nat := JOURNAL_BLOCKS * BLOCK_SIZE

/-- Lines 191-196: initialise the inode at byte offset `o` of its table block. -/
def initInode (blk : Buf) (o ctime mtime : Nat) : Buf :=
  wr32 (wr32 (wr32 (wr16 (wr16 (memset0 blk o INODE_SIZE) o 1) (o + 2) 1) (o + 4) 0)
    (o + 40) ctime) (o + 44) mtime

/-- Lines 202-208: grow the root inode's size when the target block is the first table block. -/
def growRoot (blk : Buf) (target_inode_blk_idx free_dirent_idx : Nat) : Buf :=
  if target_inode_blk_idx = INODE_START_IDX then
    let new_size := ((free_dirent_idx + 1) * DIRENT_SIZE) % U32
    if rd32 blk 4 < new_size then wr32 blk 4 new_size else blk
  else blk

/-- What `cmd_create` holds in memory at line 210, before its first write. -/
structure Staged where
  /-- The header's `nbytes_used` after lines 121-124. -/
  nbytes_used : Nat
  free_inode_idx : Nat
  free_dirent_idx : Nat
  inode_bitmap : Buf
  target_inode_blk_idx : Nat
  target_inode_block : Buf
  root_data_blk_idx : Nat
  root_data_block : Buf

/-- Lines 179-208: the new block images, built from the blocks read and the two indices
found.  `ctime` and `mtime` are the two values `time(NULL)` returns. -/
def buildStaged (filename : List Byte) (ctime mtime nbytes_used : Nat)
    (inode_bitmap target_inode_block root_data_block : Buf)
    (root_data_blk_idx free_inode_idx free_dirent_idx : Nat) : Staged :=
  let inodes_per_block := BLOCK_SIZE / INODE_SIZE
  let target_inode_blk_idx := (INODE_START_IDX + free_inode_idx / inodes_per_block) % U32
  { nbytes_used := nbytes_used
    free_inode_idx := free_inode_idx
    free_dirent_idx := free_dirent_idx
    inode_bitmap := set_bit inode_bitmap free_inode_idx
    target_inode_blk_idx := target_inode_blk_idx
    target_inode_block :=
      growRoot
        (initInode target_inode_block ((free_inode_idx % inodes_per_block) * INODE_SIZE)
          ctime mtime)
        target_inode_blk_idx free_dirent_idx
    root_data_blk_idx := root_data_blk_idx
    root_data_block :=
      strncpy (wr32 root_data_block (free_dirent_idx * DIRENT_SIZE) free_inode_idx)
        (free_dirent_idx * DIRENT_SIZE + 4) filename NAME_LEN }

/-- Lines 109-208: everything `cmd_create` does before its first write (reads and
in-memory updates only).

Line 115, `read_block(fd, SUPERBLOCK_IDX, &sb)`, stores `BLOCK_SIZE = 4096` bytes in the
128-byte `sb`: 3968 bytes land past the end of `sb` on the stack.  This definition follows
the execution in which those bytes disturb nothing the function uses afterwards: the fields
of `sb` are the first 128 bytes of block 0 and every other local is what the later lines
store in it.  `cmd_create_checked` below is the same code with this access checked against
its destination, the way the accesses to `inode_bitmap`, `journal_mem` and `pending` are
checked here; it stops at line 115. -/
def stage (img : Image) (filename : List Byte) (ctime mtime : Nat) : Except Err Staged :=
  if NAME_LEN ≤ strlen filename then .error .filenameTooLong else
  match read_block img SUPERBLOCK_IDX with
  | none => .error .preadBlock
  | some sb =>
  if rd32 sb 0 ≠ FS_MAGIC then .error .invalidMagic else
  match pread img JH_SIZE (JOURNAL_BLOCK_IDX * BLOCK_SIZE) with
  | none => .error .readJournalHeader
  | some jh =>
  let nbytes_used := if rd32 jh 0 ≠ JOURNAL_MAGIC then JH_SIZE else rd32 jh 4
  if journal_capacity < nbytes_used + txn_size then .error .journalFull else
  match read_block img INODE_BMAP_IDX with
  | none => .error .preadBlock
  | some inode_bitmap =>
  match scanInodes inode_bitmap (rd32 sb 12 - 1) 1 with
  | .overrun => .error .outOfBounds
  | .notFound => .error .noFreeInodes
  | .found free_inode_idx =>
  match read_block img INODE_START_IDX with
  | none => .error .preadBlock
  | some inode_table_block_raw =>
  let root_data_blk_idx := rd32 inode_table_block_raw 8
  if root_data_blk_idx = 0 then .error .rootNoDataBlock else
  match read_block img root_data_blk_idx with
  | none => .error .preadBlock
  | some root_data_block =>
  match scanDirents root_data_block (BLOCK_SIZE / DIRENT_SIZE) 0 with
  | none => .error .rootDirFull
  | some free_dirent_idx =>
  match read_block img ((INODE_START_IDX + free_inode_idx / (BLOCK_SIZE / INODE_SIZE)) % U32) with
  | none => .error .preadBlock
  | some target_inode_block =>
  .ok (buildStaged filename ctime mtime nbytes_used inode_bitmap target_inode_block
        root_data_block root_data_blk_idx free_inode_idx free_dirent_idx)

/-- The packed `struct data_record` built by `append_data_record` (lines 215-219). -/
def dataRecord (target_blk : Nat) (data : Buf) : Buf :=
  fun k =>
    if k < 2 then byteOf REC_DATA k
    else if k < 4 then byteOf data_rec_size (k - 2)
    else if k < 8 then byteOf target_blk (k - 4)
    else if k < 8 + BLOCK_SIZE then data (k - 8)
    else 0

/-- The `struct commit_record` of lines 231-233. -/
def commitRecord : Buf :=
  fun k =>
    if k < 2 then byteOf REC_COMMIT k
    else if k < 4 then byteOf RH_SIZE (k - 2)
    else 0

/-- The `struct journal_header` as written to disk. -/
def headerBytes (magic nbytes_used : Nat) : Buf :=
  fun k =>
    if k < 4 then byteOf magic k
    else if k < 8 then byteOf nbytes_used (k - 4)
    else 0

/-- Lines 212-241: the five writes of `cmd_create`, in program order: three DATA records,
the COMMIT record, the journal header. -/
def txnWrites (s : Staged) : List Write :=
  let current_offset := (JOURNAL_BLOCK_IDX * BLOCK_SIZE + s.nbytes_used) % U32
  [ ⟨dataRecord INODE_BMAP_IDX s.inode_bitmap, data_rec_size, current_offset⟩,
    ⟨dataRecord s.target_inode_blk_idx s.target_inode_block, data_rec_size,
      current_offset + data_rec_size⟩,
    ⟨dataRecord s.root_data_blk_idx s.root_data_block, data_rec_size,
      current_offset + 2 * data_rec_size⟩,
    ⟨commitRecord, RH_SIZE, current_offset + 3 * data_rec_size⟩,
    ⟨headerBytes JOURNAL_MAGIC ((s.nbytes_used + 3 * data_rec_size + RH_SIZE) % U32), JH_SIZE,
      JOURNAL_BLOCK_IDX * BLOCK_SIZE⟩ ]

/-- How an invocation ends, with the image it leaves behind. -/
inductive Outcome (α : Type) where
  /-- The command returned normally. -/
  | done (img : Image) (val : α)
  /-- The command stopped early for the reason `e`, having left `img` on disk. -/
  | failed (img : Image) (e : Err)

/-- The image an invocation leaves on disk. -/
def Outcome.image {α : Type} : Outcome α → Image
  | .done img _ => img
  | .failed img _ => img

/-- Whether the invocation returned normally. -/
def Outcome.isDone {α : Type} : Outcome α → Bool
  | .done _ _ => true
  | .failed _ _ => false

/-- The reason an invocation stopped early, if it did. -/
def Outcome.err {α : Type} : Outcome α → Option Err
  | .done _ _ => none
  | .failed _ e => some e

/-- `cmd_create`, with the overrun of `sb` at line 115 taken as in `stage`: on success the
allocated inode index and the chosen directory slot. -/
def cmd_create (img : Image) (filename : List Byte) (ctime mtime : Nat) : Outcome (Nat × Nat) :=
  match stage img filename ctime mtime with
  | .error e => .failed img e
  | .ok s => .done (applyWrites img (txnWrites s)) (s.free_inode_idx, s.free_dirent_idx)

/-- The size of the `journal_mem` buffer (line 264). -/
def JOURNAL_SIZE : Nat := JOURNAL_BLOCKS * BLOCK_SIZE

/-- The capacity of the `pending` array (line 278). -/
def PENDING_CAP : Nat := 200

/-- One `struct pending_write`; `data_ptr` is kept as its offset inside `journal_mem`. -/
structure PendingWrite where
  target_block : Nat
  data_off : Nat

/-- The local state of the replay scan, with the target-block writes issued so far
(oldest first). -/
structure Scan where
  scan_offset : Nat
  pending : List PendingWrite
  committed_txns : Nat
  writes : List Write

/-- The `BLOCK_SIZE` bytes of `journal_mem` that `data_ptr` points at. -/
def payloadAt (journal_mem : Buf) (data_off : Nat) : Buf :=
  fun k => if k < BLOCK_SIZE then journal_mem (data_off + k) else 0

/-- The `pwrite` of line 300 for one pending entry: the offset is
`target_block * BLOCK_SIZE` in `unsigned` arithmetic. -/
def pendingWrite (journal_mem : Buf) (p : PendingWrite) : Write :=
  ⟨payloadAt journal_mem p.data_off, BLOCK_SIZE, blockOff p.target_block⟩

/-- Lines 298-302: write the pending entries in insertion order.  An entry whose payload
range leaves `journal_mem` stops the loop with `outOfBounds`. -/
def flushPending (journal_mem : Buf) : List PendingWrite → List Write × Option Err
  | [] => ([], none)
  | p :: ps =>
    if JOURNAL_SIZE < p.data_off + BLOCK_SIZE then ([], some .outOfBounds)
    else ((pendingWrite journal_mem p) :: (flushPending journal_mem ps).1,
          (flushPending journal_mem ps).2)

/-- Lines 283-311: the scan loop.  `fuel` bounds the number of times the loop condition
is evaluated; the result is the state when the loop stops, and the reason when it did not
stop by itself. -/
def scanLoop (journal_mem : Buf) (nbytes_used : Nat) : Nat → Scan → Scan × Option Err
  | 0, s => (s, some .outOfFuel)
  | fuel + 1, s =>
    if ¬ s.scan_offset < nbytes_used then (s, none)
    else if nbytes_used < s.scan_offset + RH_SIZE then (s, none)
    else if JOURNAL_SIZE < s.scan_offset + RH_SIZE then (s, some .outOfBounds)
    else if nbytes_used < s.scan_offset + rd16 journal_mem (s.scan_offset + 2) then (s, none)
    else if rd16 journal_mem s.scan_offset = REC_DATA then
      if JOURNAL_SIZE < s.scan_offset + RH_SIZE + 4 then (s, some .outOfBounds)
      else if PENDING_CAP ≤ s.pending.length then (s, some .outOfBounds)
      else
        scanLoop journal_mem nbytes_used fuel
          { s with
            pending := s.pending ++
              [⟨rd32 journal_mem (s.scan_offset + RH_SIZE), s.scan_offset + RH_SIZE + 4⟩]
            scan_offset := s.scan_offset + rd16 journal_mem (s.scan_offset + 2) }
    else if rd16 journal_mem s.scan_offset = REC_COMMIT then
      match (flushPending journal_mem s.pending).2 with
      | some e => ({ s with writes := s.writes ++ (flushPending journal_mem s.pending).1 }, some e)
      | none =>
        scanLoop journal_mem nbytes_used fuel
          { scan_offset := s.scan_offset + rd16 journal_mem (s.scan_offset + 2)
            pending := []
            committed_txns := s.committed_txns + 1
            writes := s.writes ++ (flushPending journal_mem s.pending).1 }
    else (s, none)

/-- What `cmd_install` reports when it returns. -/
inductive Report where
  /-- Line 255: "Journal not initialized or corrupt". -/
  | notInitialized
  /-- Line 260: "Journal is empty". -/
  | empty
  /-- Line 322: "Install complete", with the number of transactions replayed. -/
  | replayed (committed_txns : Nat)
  deriving DecidableEq, Repr

/-- The header reset of lines 317-319. -/
def resetWrite : Write :=
  ⟨headerBytes JOURNAL_MAGIC JH_SIZE, JH_SIZE, JOURNAL_BLOCK_IDX * BLOCK_SIZE⟩

/-- Lines 264-311: read the whole journal region into `journal_mem` and scan it, from an
image whose header has already been found non-empty; `none` is the short read of line 267. -/
def replayScan (fuel : Nat) (img : Image) (nbytes_used : Nat) : Option (Scan × Option Err) :=
  match pread img JOURNAL_SIZE (JOURNAL_BLOCK_IDX * BLOCK_SIZE) with
  | none => none
  | some journal_mem => some (scanLoop journal_mem nbytes_used fuel ⟨JH_SIZE, [], 0, []⟩)

/-- `cmd_install`, with at most `fuel` evaluations of the scan loop's condition. -/
def cmd_install (fuel : Nat) (img : Image) : Outcome Report :=
  match pread img JH_SIZE (JOURNAL_BLOCK_IDX * BLOCK_SIZE) with
  | none => .failed img .readJournalHeader
  | some jh =>
  if rd32 jh 0 ≠ JOURNAL_MAGIC then .done img .notInitialized
  else if rd32 jh 4 = JH_SIZE then .done img .empty
  else
    match replayScan fuel img (rd32 jh 4) with
    | none => .failed img .readFullJournal
    | some (s, some e) => .failed (applyWrites img s.writes) e
    | some (s, none) =>
      .done (applyWrites img (s.writes ++ [resetWrite])) (.replayed s.committed_txns)

/-! ## The freshly formatted image -/

/-- Modelled from the spec: the formatting tool is not part of the sources.  The bytes it
leaves: a superblock for the 85-block layout with 64 inodes, inode bitmap and data bitmap
with only bit 0 set, the root inode (type 2, links 2, size 0, `direct[0] = 21`), and zeros
everywhere else (journal region and root data block included). -/
def mkfsBytes : Buf :=
  wr32 (wr16 (wr16
    (wr16 (wr16
      (wr32 (wr32 (wr32 (wr32 (wr32 (wr32 (wr32 (wr32 (wr32 (fun _ => 0)
        0 FS_MAGIC) 4 BLOCK_SIZE) 8 TOTAL_BLOCKS) 12 64) 16 JOURNAL_BLOCK_IDX)
        20 INODE_BMAP_IDX) 24 DATA_BMAP_IDX) 28 INODE_START_IDX) 32 DATA_START_IDX)
      (INODE_BMAP_IDX * BLOCK_SIZE) 1) (DATA_BMAP_IDX * BLOCK_SIZE) 1)
    (INODE_START_IDX * BLOCK_SIZE) 2) (INODE_START_IDX * BLOCK_SIZE + 2) 2)
    (INODE_START_IDX * BLOCK_SIZE + 8) DATA_START_IDX

/-- Modelled from the spec: the freshly formatted image of `TOTAL_BLOCKS` blocks. -/
def freshImage : Image where
  size := TOTAL_BLOCKS * BLOCK_SIZE
  data := fun p => if p < TOTAL_BLOCKS * BLOCK_SIZE then mkfsBytes p else 0
  beyond := by
    intro p hp
    have h : ¬ p < TOTAL_BLOCKS * BLOCK_SIZE := by omega
    simp only [h, if_false]

/-! ## Derived notions used in the statements -/

/-- Block `idx` of the image as a buffer (what a successful `read_block` returns). -/
def blockAt (img : Image) (idx : Nat) : Buf := bufAt img BLOCK_SIZE (blockOff idx)

/-- The journal header's `magic` field on disk. -/
def jhMagic (img : Image) : Nat := rd32 (bufAt img JH_SIZE (JOURNAL_BLOCK_IDX * BLOCK_SIZE)) 0

/-- The journal header's `nbytes_used` field on disk. -/
def jhUsed (img : Image) : Nat := rd32 (bufAt img JH_SIZE (JOURNAL_BLOCK_IDX * BLOCK_SIZE)) 4

/-- The `nbytes_used` that `cmd_create` works with after lines 121-124. -/
def effUsed (img : Image) : Nat := if jhMagic img ≠ JOURNAL_MAGIC then JH_SIZE else jhUsed img

/-- The superblock's `inode_count` field. -/
def inodeCount (img : Image) : Nat := rd32 (blockAt img SUPERBLOCK_IDX) 12

/-- The root inode's `direct[0]` as stored in the first inode-table block. -/
def rootBlk (img : Image) : Nat := rd32 (blockAt img INODE_START_IDX) 8

/-- The root inode's `size` as stored in the first inode-table block. -/
def rootSize (img : Image) : Nat := rd32 (blockAt img INODE_START_IDX) 4

/-- The inode-table block that holds inode `i`. -/
def inodeBlk (i : Nat) : Nat := (INODE_START_IDX + i / (BLOCK_SIZE / INODE_SIZE)) % U32

/-- The checks of lines 109-186 that `cmd_create` passes when it allocates inode `i` and
directory slot `sl`. -/
structure StageCond (img : Image) (filename : List Byte) (i sl : Nat) : Prop where
  name_ok : strlen filename < NAME_LEN
  sb_read : blockOff SUPERBLOCK_IDX + BLOCK_SIZE ≤ img.size
  sb_magic : rd32 (blockAt img SUPERBLOCK_IDX) 0 = FS_MAGIC
  jh_read : JOURNAL_BLOCK_IDX * BLOCK_SIZE + JH_SIZE ≤ img.size
  room : effUsed img + txn_size ≤ journal_capacity
  bm_read : blockOff INODE_BMAP_IDX + BLOCK_SIZE ≤ img.size
  inode_found : scanInodes (blockAt img INODE_BMAP_IDX) (inodeCount img - 1) 1 = .found i
  it_read : blockOff INODE_START_IDX + BLOCK_SIZE ≤ img.size
  root_ne : rootBlk img ≠ 0
  rd_read : blockOff (rootBlk img) + BLOCK_SIZE ≤ img.size
  slot_found : scanDirents (blockAt img (rootBlk img)) (BLOCK_SIZE / DIRENT_SIZE) 0 = some sl
  tb_read : blockOff (inodeBlk i) + BLOCK_SIZE ≤ img.size

/-- The in-memory state `cmd_create` reaches when it allocates inode `i` and slot `sl`. -/
def stagedOf (img : Image) (filename : List Byte) (ctime mtime i sl : Nat) : Staged :=
  buildStaged filename ctime mtime (effUsed img) (blockAt img INODE_BMAP_IDX)
    (blockAt img (inodeBlk i)) (blockAt img (rootBlk img)) (rootBlk img) i sl

/-- Byte offsets of the journal region: blocks 1 to 16. -/
def inJournal (p : Nat) : Prop :=
  JOURNAL_BLOCK_IDX * BLOCK_SIZE ≤ p ∧ p < (JOURNAL_BLOCK_IDX + JOURNAL_BLOCKS) * BLOCK_SIZE

instance (p : Nat) : Decidable (inJournal p) := by unfold inJournal; infer_instance

/-- Two images hold the same bytes outside the journal region (and have the same length). -/
def SameOutsideJournal (a b : Image) : Prop :=
  a.size = b.size ∧ ∀ p, ¬ inJournal p → a.data p = b.data p

/-- The filename "hello". -/
def fileHello : List Byte := [104, 101, 108, 108, 111]
/-- The filename "a". -/
def fileA : List Byte := [97]
/-- The filename "b". -/
def fileB : List Byte := [98]

/-- The description of the freshly formatted image the scenarios start from: a valid
superblock for 64 inodes, only inode-bitmap bit 0 set, root inode of size 0 with
`direct[0] = 21`, block 21 zeroed, journal region all zero. -/
structure Fresh (img : Image) : Prop where
  size_eq : img.size = TOTAL_BLOCKS * BLOCK_SIZE
  sb_magic : rd32 (blockAt img SUPERBLOCK_IDX) 0 = FS_MAGIC
  inode_count : inodeCount img = 64
  bitmap_first : img.data (INODE_BMAP_IDX * BLOCK_SIZE) = 1
  bitmap_rest : ∀ k, 0 < k → k < BLOCK_SIZE → img.data (INODE_BMAP_IDX * BLOCK_SIZE + k) = 0
  root_size : rootSize img = 0
  root_blk : rootBlk img = DATA_START_IDX
  root_data : ∀ k, k < BLOCK_SIZE → img.data (DATA_START_IDX * BLOCK_SIZE + k) = 0
  journal : ∀ k, k < JOURNAL_BLOCKS * BLOCK_SIZE → img.data (JOURNAL_BLOCK_IDX * BLOCK_SIZE + k) = 0

/-- A formatted image whose root inode points into the journal region: `direct[0] = 1`. -/
def rootInJournalImage : Image where
  size := TOTAL_BLOCKS * BLOCK_SIZE
  data := fun p =>
    if p < TOTAL_BLOCKS * BLOCK_SIZE then wr32 mkfsBytes (INODE_START_IDX * BLOCK_SIZE + 8) 1 p
    else 0
  beyond := by
    intro p hp
    have h : ¬ p < TOTAL_BLOCKS * BLOCK_SIZE := by omega
    simp only [h, if_false]

/-- What a completed invocation returned, if it completed. -/
def Outcome.val? {α : Type} : Outcome α → Option α
  | .done _ v => some v
  | .failed _ _ => none

/-- One `create` invocation: the filename and the two clock readings. -/
structure Call where
  filename : List Byte
  ctime : Nat
  mtime : Nat

/-- The image left by the first `n` of a series of `create` invocations run back to back
(without an install in between), failed ones included. -/
def stageN (calls : Nat → Call) : Nat → Image → Image
  | 0, img => img
  | n + 1, img =>
    (cmd_create (stageN calls n img) (calls n).filename (calls n).ctime (calls n).mtime).image

/-- The journal region of the image as `cmd_install` reads it into `journal_mem`. -/
def journalMem (img : Image) : Buf := bufAt img JOURNAL_SIZE (JOURNAL_BLOCK_IDX * BLOCK_SIZE)

/-- A record of the journal stream: a DATA record with its target block and the journal
offset of its payload, or a COMMIT record. -/
inductive Rec where
  | data (p : PendingWrite)
  | commit

/-- `framed jm nb off recs`: the bytes of `jm` from `off` up to exactly `nb` are the records
`recs`, back to back: every DATA record has type 1 and size 4 + 4 + 4096, every COMMIT
record has type 2 and size 4. -/
def framed (jm : Buf) (nb : Nat) : Nat → List Rec → Bool
  | off, [] => decide (off = nb)
  | off, .data p :: rs =>
    decide (rd16 jm off = REC_DATA ∧ rd16 jm (off + 2) = data_rec_size ∧
      p.target_block = rd32 jm (off + RH_SIZE) ∧ p.data_off = off + RH_SIZE + 4) &&
    framed jm nb (off + data_rec_size) rs
  | off, .commit :: rs =>
    decide (rd16 jm off = REC_COMMIT ∧ rd16 jm (off + 2) = RH_SIZE) &&
    framed jm nb (off + RH_SIZE) rs

def Rec.isCommit : Rec → Bool
  | .commit => true
  | .data _ => false

/-- The number of COMMIT records of a stream. -/
def commitCount (recs : List Rec) : Nat := (recs.filter Rec.isCommit).length

/-- The target blocks of the DATA records of a stream. -/
def dataTargets : List Rec → List Nat
  | [] => []
  | .data p :: rs => p.target_block :: dataTargets rs
  | .commit :: rs => dataTargets rs

/-- The DATA records that are followed by a later COMMIT record, in stream order. -/
def committedData : List Rec → List PendingWrite
  | [] => []
  | .data p :: rs => if rs.any Rec.isCommit then p :: committedData rs else committedData rs
  | .commit :: rs => committedData rs

/-- Writing a 4096-byte payload of the journal to block `target_block` of the image: byte
offset `target_block * 4096`. -/
def blockWrite (jm : Buf) (p : PendingWrite) : Write :=
  ⟨payloadAt jm p.data_off, BLOCK_SIZE, p.target_block * BLOCK_SIZE⟩

/-- The replay the specification describes: the payload of each DATA record that is
followed by a later COMMIT record is written to its target block, in stream order. -/
def specReplay (img : Image) (recs : List Rec) : Image :=
  applyWrites img ((committedData recs).map (blockWrite (journalMem img)))

/-- The target-block writes `cmd_install` performs before its header reset (none when it
returns or stops before the scan). -/
def installTargetWrites (fuel : Nat) (img : Image) : List Write :=
  match replayScan fuel img (jhUsed img) with
  | some (s, _) => s.writes
  | none => []

/-- The write sequence of `cmd_create` (none when it stops early). -/
def createWrites (img : Image) (filename : List Byte) (ctime mtime : Nat) : List Write :=
  match stage img filename ctime mtime with
  | .ok s => txnWrites s
  | .error _ => []

/-- The buffer `b` with the first `len` bytes of `src` stored at `off`. -/
def place (b : Buf) (off len : Nat) (src : Buf) : Buf :=
  fun k => if off ≤ k ∧ k < off + len then src (k - off) else b k

/-- The bytes of a list as a buffer (zero past its end). -/
def listBuf (l : List Byte) : Buf := fun k => l.getD k 0

/-- The freshly formatted image with its journal region replaced by the first 65536 bytes
of `jm`. -/
def journalImage (jm : Buf) : Image where
  size := TOTAL_BLOCKS * BLOCK_SIZE
  data := fun p =>
    if p < TOTAL_BLOCKS * BLOCK_SIZE then
      if 4096 ≤ p ∧ p < 69632 then jm (p - 4096) else mkfsBytes p
    else 0
  beyond := by
    intro p hp
    have h : ¬ p < TOTAL_BLOCKS * BLOCK_SIZE := by omega
    simp only [h, if_false]

/-- A journal whose only DATA record declares size 8 (type 1, size 8, target block 30),
followed by a COMMIT record; `nbytes_used = 20`. -/
def shortRecordImage : Image :=
  journalImage (place (headerBytes JOURNAL_MAGIC 20) 8 12
    (listBuf [1, 0, 8, 0, 30, 0, 0, 0, 2, 0, 4, 0]))

/-- A payload whose first byte is 0xAB and whose other bytes are zero. -/
def markedPayload : Buf := fun k => if k = 0 then 171 else 0

/-- A well-framed journal with one transaction: a DATA record for block
`2 ^ 20 + 21 = 1048597` carrying `markedPayload`, then a COMMIT record. -/
def farTargetImage : Image :=
  journalImage (place (place (headerBytes JOURNAL_MAGIC 4116)
    8 4104 (dataRecord 1048597 markedPayload)) 4112 4 commitRecord)

/-- A well-framed journal with two transactions: a DATA record for block
`2 ^ 20 + 1 = 1048577` with an all-zero payload and its COMMIT, then a DATA record for block
21 carrying `markedPayload` and its COMMIT. -/
def wrapIntoJournalImage : Image :=
  journalImage (place (place (place (place (headerBytes JOURNAL_MAGIC 8224)
    8 4104 (dataRecord 1048577 (fun _ => 0))) 4112 4 commitRecord)
    4116 4104 (dataRecord 21 markedPayload)) 8220 4 commitRecord)

/-- The pending list (first component) and the entries flushed so far, in order (second
component), after a scan that starts with `pend` pending has gone through `recs`. -/
def replayRecs : List Rec → List PendingWrite → List PendingWrite × List PendingWrite
  | [], pend => (pend, [])
  | .data p :: rs, pend => replayRecs rs (pend ++ [p])
  | .commit :: rs, pend => ((replayRecs rs []).1, pend ++ (replayRecs rs []).2)

/-- The end of the furthest write of a sequence. -/
def extent : List Write → Nat
  | [] => 0
  | w :: ws => max (w.off + w.count) (extent ws)

/-- The image after `cmd_create "hello"` on the freshly formatted image (clock readings 0). -/
def helloStagedImage : Image := (cmd_create freshImage fileHello 0 0).image

/-- The record stream `cmd_create "hello"` leaves in the journal of `helloStagedImage`. -/
def helloRecs : List Rec := [.data ⟨17, 16⟩, .data ⟨19, 4120⟩, .data ⟨21, 8224⟩, .commit]

/-- The bytes of one staged transaction, as laid out in the journal: three DATA records
and the COMMIT record. -/
def txnBytes (s : Staged) : Buf :=
  fun k =>
    if k < data_rec_size then dataRecord INODE_BMAP_IDX s.inode_bitmap k
    else if k < 2 * data_rec_size then
      dataRecord s.target_inode_blk_idx s.target_inode_block (k - data_rec_size)
    else if k < 3 * data_rec_size then
      dataRecord s.root_data_blk_idx s.root_data_block (k - 2 * data_rec_size)
    else commitRecord (k - 3 * data_rec_size)

/-- The record stream of one staged transaction that starts at journal offset `u`. -/
def txnRecs (s : Staged) (u : Nat) : List Rec :=
  [.data ⟨INODE_BMAP_IDX, u + 8⟩,
   .data ⟨s.target_inode_blk_idx, u + data_rec_size + 8⟩,
   .data ⟨s.root_data_blk_idx, u + 2 * data_rec_size + 8⟩,
   .commit]

/-- The image after `cmd_create "a"` then `cmd_create "b"` on the freshly formatted image. -/
def twoStagedImage : Image :=
  (cmd_create (cmd_create freshImage fileA 0 0).image fileB 0 0).image

/-- The image after `cmd_install` on `twoStagedImage`. -/
def twoInstalledImage : Image := (cmd_install 9 twoStagedImage).image

/-! ## Records as values -/

/-- A formatted image in which the inodes 0..31 of the first inode-table block are all in
use: the first four bytes of the inode bitmap are 0xFF. -/
def firstBlockFullImage : Image where
  size := TOTAL_BLOCKS * BLOCK_SIZE
  data := fun p =>
    if p < TOTAL_BLOCKS * BLOCK_SIZE then
      if INODE_BMAP_IDX * BLOCK_SIZE ≤ p ∧ p < INODE_BMAP_IDX * BLOCK_SIZE + 4 then 255
      else mkfsBytes p
    else 0
  beyond := by
    intro p hp
    have h : ¬ p < TOTAL_BLOCKS * BLOCK_SIZE := by omega
    simp only [h, if_false]

/-- A journal whose header holds the magic with `nbytes_used = 12` and whose only record is
a COMMIT record that declares size 0 (bytes `02 00 00 00` at journal offset 8). -/
def zeroSizeCommitImage : Image :=
  journalImage (place (headerBytes JOURNAL_MAGIC 12) 8 4 (listBuf [2, 0, 0, 0]))

/-- The image after `cmd_create ""` on the freshly formatted image followed by
`cmd_install`. -/
def emptyNameInstalledImage : Image :=
  (cmd_install 5 (cmd_create freshImage [] 0 0).image).image

/-- The replay scan of `cmd_install` from its initial state (cursor after the header, empty
pending list), run for at most `n` iterations: the state reached, and `outOfFuel` when the
scan is still running in that state. -/
def scanAfter (jm : Buf) (nb n : Nat) : Scan × Option Err :=
  scanLoop jm nb n ⟨JH_SIZE, [], 0, []⟩

/-- The DATA records of a stream, in stream order. -/
def dataRecs : List Rec → List PendingWrite
  | [] => []
  | .data p :: rs => p :: dataRecs rs
  | .commit :: rs => dataRecs rs

/-- A series of `create "hello"` invocations. -/
def helloCalls : Nat → Call := fun _ => ⟨fileHello, 0, 0⟩

/-- A formatted image whose root inode records size 96 (three entries) over an empty
directory block. -/
def rootSizedImage : Image where
  size := TOTAL_BLOCKS * BLOCK_SIZE
  data := fun p =>
    if p < TOTAL_BLOCKS * BLOCK_SIZE then wr32 mkfsBytes (INODE_START_IDX * BLOCK_SIZE + 4) 96 p
    else 0
  beyond := by
    intro p hp
    have h : ¬ p < TOTAL_BLOCKS * BLOCK_SIZE := by omega
    simp only [h, if_false]

/-! ## Basic facts about buffers and positioned I/O -/

theorem Image.eq_of_data {a b : Image} (hs : a.size = b.size) (hd : ∀ p, a.data p = b.data p) :
    a = b := by
  cases a with
  | mk sa da ba =>
    cases b with
    | mk sb db bb =>
      simp only at hs hd
      have hf : da = db := funext hd
      subst hs; subst hf; rfl

@[simp] theorem pwrite_size (img : Image) (src : Buf) (count off : Nat) :
    (pwrite img src count off).size = max img.size (off + count) := rfl

theorem pwrite_data (img : Image) (src : Buf) (count off p : Nat) :
    (pwrite img src count off).data p =
      if off ≤ p ∧ p < off + count then src (p - off) else img.data p := rfl

theorem pread_eq_some {img : Image} {count off : Nat} {b : Buf} :
    pread img count off = some b ↔ off + count ≤ img.size ∧ b = bufAt img count off := by
  unfold pread
  split
  · simp [*, eq_comm]
  · simp [*]

theorem pread_eq_none {img : Image} {count off : Nat} :
    pread img count off = none ↔ img.size < off + count := by
  unfold pread
  split
  · simp; omega
  · simp; omega

theorem read_block_some {img : Image} {idx : Nat} (h : blockOff idx + BLOCK_SIZE ≤ img.size) :
    read_block img idx = some (blockAt img idx) := by
  unfold read_block pread blockAt
  rw [if_pos h]

theorem read_block_none {img : Image} {idx : Nat} (h : ¬ blockOff idx + BLOCK_SIZE ≤ img.size) :
    read_block img idx = none := by
  unfold read_block pread
  rw [if_neg h]

theorem pread_some {img : Image} {count off : Nat} (h : off + count ≤ img.size) :
    pread img count off = some (bufAt img count off) := by
  unfold pread
  rw [if_pos h]

theorem pread_none {img : Image} {count off : Nat} (h : ¬ off + count ≤ img.size) :
    pread img count off = none := by
  unfold pread
  rw [if_neg h]

theorem stage_ok_iff {img : Image} {filename : List Byte} {ctime mtime : Nat} {s : Staged} :
    stage img filename ctime mtime = .ok s ↔
      ∃ i sl, StageCond img filename i sl ∧ s = stagedOf img filename ctime mtime i sl := by
  unfold stage
  by_cases h1 : NAME_LEN ≤ strlen filename
  · rw [if_pos h1]
    constructor
    · intro h; cases h
    · rintro ⟨i, sl, hc, -⟩; exact absurd hc.name_ok (by omega)
  rw [if_neg h1]
  by_cases h2 : blockOff SUPERBLOCK_IDX + BLOCK_SIZE ≤ img.size
  swap
  · rw [read_block_none h2]
    constructor
    · intro h; cases h
    · rintro ⟨i, sl, hc, -⟩; exact absurd hc.sb_read h2
  rw [read_block_some h2]
  simp only []
  by_cases h3 : rd32 (blockAt img SUPERBLOCK_IDX) 0 ≠ FS_MAGIC
  · rw [if_pos h3]
    constructor
    · intro h; cases h
    · rintro ⟨i, sl, hc, -⟩; exact absurd hc.sb_magic h3
  rw [if_neg h3]
  by_cases h4 : JOURNAL_BLOCK_IDX * BLOCK_SIZE + JH_SIZE ≤ img.size
  swap
  · rw [pread_none h4]
    constructor
    · intro h; cases h
    · rintro ⟨i, sl, hc, -⟩; exact absurd hc.jh_read h4
  rw [pread_some h4]
  simp only []
  rw [show (if rd32 (bufAt img JH_SIZE (JOURNAL_BLOCK_IDX * BLOCK_SIZE)) 0 ≠ JOURNAL_MAGIC
        then JH_SIZE else rd32 (bufAt img JH_SIZE (JOURNAL_BLOCK_IDX * BLOCK_SIZE)) 4)
      = effUsed img from rfl]
  by_cases h5 : journal_capacity < effUsed img + txn_size
  · rw [if_pos h5]
    constructor
    · intro h; cases h
    · rintro ⟨i, sl, hc, -⟩; exact absurd hc.room (by omega)
  rw [if_neg h5]
  by_cases h6 : blockOff INODE_BMAP_IDX + BLOCK_SIZE ≤ img.size
  swap
  · rw [read_block_none h6]
    constructor
    · intro h; cases h
    · rintro ⟨i, sl, hc, -⟩; exact absurd hc.bm_read h6
  rw [read_block_some h6]
  simp only []
  rw [show rd32 (blockAt img SUPERBLOCK_IDX) 12 = inodeCount img from rfl]
  rcases h7 : scanInodes (blockAt img INODE_BMAP_IDX) (inodeCount img - 1) 1 with i | _ | _
  rotate_left
  · simp only []
    constructor
    · intro h; cases h
    · rintro ⟨i, sl, hc, -⟩; rw [hc.inode_found] at h7; cases h7
  · simp only []
    constructor
    · intro h; cases h
    · rintro ⟨i, sl, hc, -⟩; rw [hc.inode_found] at h7; cases h7
  simp only []
  by_cases h8 : blockOff INODE_START_IDX + BLOCK_SIZE ≤ img.size
  swap
  · rw [read_block_none h8]
    constructor
    · intro h; cases h
    · rintro ⟨i, sl, hc, -⟩; exact absurd hc.it_read h8
  rw [read_block_some h8]
  simp only []
  rw [show rd32 (blockAt img INODE_START_IDX) 8 = rootBlk img from rfl]
  by_cases h9 : rootBlk img = 0
  · rw [if_pos h9]
    constructor
    · intro h; cases h
    · rintro ⟨i, sl, hc, -⟩; exact absurd h9 hc.root_ne
  rw [if_neg h9]
  by_cases h10 : blockOff (rootBlk img) + BLOCK_SIZE ≤ img.size
  swap
  · rw [read_block_none h10]
    constructor
    · intro h; cases h
    · rintro ⟨i, sl, hc, -⟩; exact absurd hc.rd_read h10
  rw [read_block_some h10]
  simp only []
  rcases h11 : scanDirents (blockAt img (rootBlk img)) (BLOCK_SIZE / DIRENT_SIZE) 0 with _ | sl
  · simp only []
    constructor
    · intro h; cases h
    · rintro ⟨i, sl, hc, -⟩; rw [hc.slot_found] at h11; cases h11
  simp only []
  rw [show (INODE_START_IDX + i / (BLOCK_SIZE / INODE_SIZE)) % U32 = inodeBlk i from rfl]
  by_cases h12 : blockOff (inodeBlk i) + BLOCK_SIZE ≤ img.size
  swap
  · rw [read_block_none h12]
    constructor
    · intro h; cases h
    · rintro ⟨i', sl', hc, -⟩
      have e := hc.inode_found
      rw [h7] at e
      cases e
      exact absurd hc.tb_read h12
  rw [read_block_some h12]
  simp only []
  constructor
  · intro h
    refine ⟨i, sl, ⟨by omega, h2, not_not.mp h3, h4, by omega, h6, h7, h8, h9, h10, h11, h12⟩, ?_⟩
    cases h
    rfl
  · rintro ⟨i', sl', hc, hs⟩
    have e := hc.inode_found
    rw [h7] at e
    cases e
    have e := hc.slot_found
    rw [h11] at e
    cases e
    rw [hs]
    rfl

theorem cmd_create_done_iff {img img' : Image} {filename : List Byte} {ctime mtime i sl : Nat} :
    cmd_create img filename ctime mtime = .done img' (i, sl) ↔
      StageCond img filename i sl ∧
        img' = applyWrites img (txnWrites (stagedOf img filename ctime mtime i sl)) := by
  unfold cmd_create
  cases h : stage img filename ctime mtime with
  | error e =>
    constructor
    · intro h1; cases h1
    · rintro ⟨hc, -⟩
      have h2 : stage img filename ctime mtime = .ok (stagedOf img filename ctime mtime i sl) :=
        stage_ok_iff.mpr ⟨i, sl, hc, rfl⟩
      rw [h] at h2
      cases h2
  | ok s =>
    obtain ⟨i', sl', hc, hs⟩ := stage_ok_iff.mp h
    subst hs
    simp only [Outcome.done.injEq, Prod.mk.injEq]
    constructor
    · rintro ⟨h1, h2, h3⟩
      have e1 : i' = i := h2
      have e2 : sl' = sl := h3
      subst e1; subst e2
      exact ⟨hc, h1.symm⟩
    · rintro ⟨hc', h1⟩
      have e := hc'.inode_found
      rw [hc.inode_found] at e
      cases e
      have e := hc'.slot_found
      rw [hc.slot_found] at e
      cases e
      exact ⟨h1.symm, rfl, rfl⟩

theorem cmd_create_failed {img img' : Image} {filename : List Byte} {ctime mtime : Nat} {e : Err}
    (h : cmd_create img filename ctime mtime = .failed img' e) : img' = img := by
  unfold cmd_create at h
  cases hs : stage img filename ctime mtime with
  | error e' => rw [hs] at h; cases h; rfl
  | ok s => rw [hs] at h; cases h

theorem applyWrites_nil (img : Image) : applyWrites img [] = img := rfl

theorem applyWrites_cons (img : Image) (w : Write) (ws : List Write) :
    applyWrites img (w :: ws) = applyWrites (applyWrite img w) ws := rfl

theorem applyWrites_append (img : Image) (ws vs : List Write) :
    applyWrites img (ws ++ vs) = applyWrites (applyWrites img ws) vs := by
  unfold applyWrites
  rw [List.foldl_append]

theorem applyWrites_data_of_not_covered {p : Nat} :
    ∀ (ws : List Write) (img : Image),
      (∀ w ∈ ws, ¬ (w.off ≤ p ∧ p < w.off + w.count)) →
        (applyWrites img ws).data p = img.data p
  | [], _, _ => rfl
  | w :: ws, img, h => by
    rw [applyWrites_cons, applyWrites_data_of_not_covered ws _
      (fun v hv => h v (List.mem_cons_of_mem _ hv))]
    unfold applyWrite
    rw [pwrite_data, if_neg (h w (List.mem_cons_self _ _))]

theorem applyWrites_size_of_within :
    ∀ (ws : List Write) (img : Image),
      (∀ w ∈ ws, w.off + w.count ≤ img.size) → (applyWrites img ws).size = img.size
  | [], _, _ => rfl
  | w :: ws, img, h => by
    have hw : (applyWrite img w).size = img.size := by
      unfold applyWrite
      rw [pwrite_size]
      exact max_eq_left (h w (List.mem_cons_self _ _))
    rw [applyWrites_cons, applyWrites_size_of_within ws _
      (fun v hv => by rw [hw]; exact h v (List.mem_cons_of_mem _ hv)), hw]

/-- Every write of a staged transaction lies inside the journal region. -/
theorem txnWrites_in_journal {s : Staged} (hroom : s.nbytes_used + txn_size ≤ journal_capacity) :
    ∀ w ∈ txnWrites s, JOURNAL_BLOCK_IDX * BLOCK_SIZE ≤ w.off ∧
      w.off + w.count ≤ (JOURNAL_BLOCK_IDX + JOURNAL_BLOCKS) * BLOCK_SIZE := by
  intro w hw
  simp only [txn_size, journal_capacity, data_rec_size, commit_rec_size, RH_SIZE, BLOCK_SIZE,
    JOURNAL_BLOCKS] at hroom
  have hmod : (JOURNAL_BLOCK_IDX * BLOCK_SIZE + s.nbytes_used) % U32
      = 4096 + s.nbytes_used := by
    simp only [JOURNAL_BLOCK_IDX, BLOCK_SIZE, U32]
    omega
  simp only [txnWrites, hmod, List.mem_cons, List.mem_singleton, List.not_mem_nil, or_false] at hw
  simp only [JOURNAL_BLOCK_IDX, BLOCK_SIZE, JOURNAL_BLOCKS]
  rcases hw with h | h | h | h | h <;> subst h <;>
    simp only [data_rec_size, RH_SIZE, BLOCK_SIZE, JH_SIZE, JOURNAL_BLOCK_IDX] <;> omega

theorem blockOff_mod (idx : Nat) : blockOff idx % 4096 = 0 := by
  unfold blockOff
  simp only [BLOCK_SIZE, U32]
  omega

theorem blockOff_small {idx : Nat} (h : idx < 1048576) : blockOff idx = idx * 4096 := by
  unfold blockOff
  simp only [BLOCK_SIZE, U32]
  omega

theorem not_inJournal_block {idx k : Nat} (h : ¬ inJournal (blockOff idx)) (hk : k < BLOCK_SIZE) :
    ¬ inJournal (blockOff idx + k) := by
  have hm := blockOff_mod idx
  unfold inJournal at *
  simp only [BLOCK_SIZE, JOURNAL_BLOCK_IDX, JOURNAL_BLOCKS] at *
  omega

theorem blockAt_congr {a b : Image} {idx : Nat}
    (h : ∀ k, k < BLOCK_SIZE → a.data (blockOff idx + k) = b.data (blockOff idx + k)) :
    blockAt a idx = blockAt b idx := by
  funext k
  unfold blockAt bufAt
  by_cases hk : k < BLOCK_SIZE
  · rw [if_pos hk, if_pos hk]; exact h k hk
  · rw [if_neg hk, if_neg hk]

theorem blockAt_eq_of_sameOutside {a b : Image} {idx : Nat} (h : SameOutsideJournal a b)
    (hidx : ¬ inJournal (blockOff idx)) : blockAt a idx = blockAt b idx :=
  blockAt_congr (fun _ hk => h.2 _ (not_inJournal_block hidx hk))

/-- A successful stage writes only inside the journal region. -/
theorem stage_sameOutside {img : Image} {filename : List Byte} {i sl : Nat} (ctime mtime : Nat)
    (hc : StageCond img filename i sl) :
    SameOutsideJournal (applyWrites img (txnWrites (stagedOf img filename ctime mtime i sl)))
      img := by
  have hroom : (stagedOf img filename ctime mtime i sl).nbytes_used + txn_size ≤
      journal_capacity := hc.room
  have hw := txnWrites_in_journal hroom
  have hsz : (JOURNAL_BLOCK_IDX + JOURNAL_BLOCKS) * BLOCK_SIZE ≤ img.size := by
    have h := hc.bm_read
    rw [blockOff_small (by simp only [INODE_BMAP_IDX]; omega)] at h
    simp only [INODE_BMAP_IDX, BLOCK_SIZE, JOURNAL_BLOCK_IDX, JOURNAL_BLOCKS] at *
    omega
  constructor
  · exact applyWrites_size_of_within _ _ (fun w hmem => le_trans (hw w hmem).2 hsz)
  · intro p hp
    apply applyWrites_data_of_not_covered
    intro w hmem hcov
    apply hp
    have h := hw w hmem
    unfold inJournal
    omega

theorem cmd_create_sameOutside (img : Image) (filename : List Byte) (ctime mtime : Nat) :
    SameOutsideJournal (cmd_create img filename ctime mtime).image img := by
  cases h : cmd_create img filename ctime mtime with
  | failed img' e =>
    rw [cmd_create_failed h]
    exact ⟨rfl, fun _ _ => rfl⟩
  | done img' r =>
    obtain ⟨i, sl⟩ := r
    obtain ⟨hc, himg⟩ := cmd_create_done_iff.mp h
    simp only [Outcome.image]
    rw [himg]
    exact stage_sameOutside ctime mtime hc

/-! ## Reading fields back -/

theorem byteOf_val (v k : Nat) : (byteOf v k).val = v / 256 ^ k % 256 := rfl

theorem rd32_of_bytes {b : Buf} {o v : Nat} (h : ∀ k, k < 4 → b (o + k) = byteOf v k) :
    rd32 b o = v % U32 := by
  unfold rd32
  have h0 := h 0 (by omega)
  have h1 := h 1 (by omega)
  have h2 := h 2 (by omega)
  have h3 := h 3 (by omega)
  rw [Nat.add_zero] at h0
  rw [h0, h1, h2, h3]
  simp only [byteOf_val, U32]
  norm_num
  omega

theorem rd16_of_bytes {b : Buf} {o v : Nat} (h : ∀ k, k < 2 → b (o + k) = byteOf v k) :
    rd16 b o = v % 65536 := by
  unfold rd16
  have h0 := h 0 (by omega)
  have h1 := h 1 (by omega)
  rw [Nat.add_zero] at h0
  rw [h0, h1]
  simp only [byteOf_val]
  norm_num
  omega

theorem rd32_lt (b : Buf) (o : Nat) : rd32 b o < U32 := by
  unfold rd32 U32
  have h0 := (b o).isLt
  have h1 := (b (o + 1)).isLt
  have h2 := (b (o + 2)).isLt
  have h3 := (b (o + 3)).isLt
  omega

theorem rd32_congr {a b : Buf} {o o' : Nat} (h : ∀ k, k < 4 → a (o + k) = b (o' + k)) :
    rd32 a o = rd32 b o' := by
  unfold rd32
  have h0 := h 0 (by omega)
  have h1 := h 1 (by omega)
  have h2 := h 2 (by omega)
  have h3 := h 3 (by omega)
  simp only [Nat.add_zero] at h0
  rw [h0, h1, h2, h3]

theorem rd16_congr {a b : Buf} {o o' : Nat} (h : ∀ k, k < 2 → a (o + k) = b (o' + k)) :
    rd16 a o = rd16 b o' := by
  unfold rd16
  have h0 := h 0 (by omega)
  have h1 := h 1 (by omega)
  simp only [Nat.add_zero] at h0
  rw [h0, h1]

/-- The bytes of the image after the five writes of a staged transaction, latest write
first. -/
theorem txn_data (img : Image) (s : Staged) (p : Nat) :
    (applyWrites img (txnWrites s)).data p =
      if 4096 ≤ p ∧ p < 4096 + 8 then
        headerBytes JOURNAL_MAGIC ((s.nbytes_used + 3 * data_rec_size + RH_SIZE) % U32) (p - 4096)
      else if (4096 + s.nbytes_used) % U32 + 3 * 4104 ≤ p ∧
          p < (4096 + s.nbytes_used) % U32 + 3 * 4104 + 4 then
        commitRecord (p - ((4096 + s.nbytes_used) % U32 + 3 * 4104))
      else if (4096 + s.nbytes_used) % U32 + 2 * 4104 ≤ p ∧
          p < (4096 + s.nbytes_used) % U32 + 2 * 4104 + 4104 then
        dataRecord s.root_data_blk_idx s.root_data_block
          (p - ((4096 + s.nbytes_used) % U32 + 2 * 4104))
      else if (4096 + s.nbytes_used) % U32 + 4104 ≤ p ∧
          p < (4096 + s.nbytes_used) % U32 + 4104 + 4104 then
        dataRecord s.target_inode_blk_idx s.target_inode_block
          (p - ((4096 + s.nbytes_used) % U32 + 4104))
      else if (4096 + s.nbytes_used) % U32 ≤ p ∧ p < (4096 + s.nbytes_used) % U32 + 4104 then
        dataRecord INODE_BMAP_IDX s.inode_bitmap (p - (4096 + s.nbytes_used) % U32)
      else img.data p := by
  simp only [txnWrites, applyWrites, List.foldl, applyWrite, pwrite_data, data_rec_size,
    RH_SIZE, BLOCK_SIZE, JH_SIZE, JOURNAL_BLOCK_IDX, Nat.one_mul, Nat.reduceAdd, Nat.reduceMul]

theorem jh_after_create {img img' : Image} {filename : List Byte} {ctime mtime i sl : Nat}
    (h : cmd_create img filename ctime mtime = .done img' (i, sl)) :
    jhMagic img' = JOURNAL_MAGIC ∧ jhUsed img' = effUsed img + txn_size := by
  obtain ⟨hc, himg⟩ := cmd_create_done_iff.mp h
  have hroom := hc.room
  simp only [txn_size, journal_capacity, data_rec_size, commit_rec_size, RH_SIZE, BLOCK_SIZE,
    JOURNAL_BLOCKS] at hroom
  have hd : ∀ k, k < 8 → img'.data (4096 + k) =
      headerBytes JOURNAL_MAGIC ((effUsed img + 3 * data_rec_size + RH_SIZE) % U32) k := by
    intro k hk
    rw [himg, txn_data, if_pos (by omega)]
    have e : 4096 + k - 4096 = k := by omega
    rw [e]
    rfl
  constructor
  · have e : jhMagic img' = JOURNAL_MAGIC % U32 := by
      unfold jhMagic
      apply rd32_of_bytes
      intro k hk
      simp only [bufAt, JH_SIZE, JOURNAL_BLOCK_IDX, BLOCK_SIZE, Nat.one_mul, Nat.zero_add]
      rw [if_pos (by omega), hd k (by omega)]
      simp only [headerBytes, if_pos hk]
    rw [e]
    decide
  · have e : jhUsed img' = ((effUsed img + 3 * data_rec_size + RH_SIZE) % U32) % U32 := by
      unfold jhUsed
      apply rd32_of_bytes
      intro k hk
      simp only [bufAt, JH_SIZE, JOURNAL_BLOCK_IDX, BLOCK_SIZE, Nat.one_mul]
      rw [if_pos (by omega), show 4096 + (4 + k) = 4096 + (4 + k) from rfl, hd (4 + k) (by omega)]
      simp only [headerBytes]
      rw [if_neg (by omega), if_pos (by omega)]
      have e : 4 + k - 4 = k := by omega
      rw [e]
    rw [e]
    simp only [txn_size, data_rec_size, commit_rec_size, RH_SIZE, BLOCK_SIZE, U32]
    omega

/-! ## The freshly formatted image -/

theorem fresh_jhMagic {img : Image} (hf : Fresh img) : jhMagic img = 0 := by
  have hj := hf.journal
  simp only [JOURNAL_BLOCKS, BLOCK_SIZE, JOURNAL_BLOCK_IDX, Nat.one_mul, Nat.reduceMul] at hj
  unfold jhMagic rd32 bufAt
  simp only [JH_SIZE, JOURNAL_BLOCK_IDX, BLOCK_SIZE, Nat.one_mul]
  have h0 := hj 0 (by omega)
  have h1 := hj 1 (by omega)
  have h2 := hj 2 (by omega)
  have h3 := hj 3 (by omega)
  simp only [Nat.zero_add, Nat.reduceAdd, Nat.reduceLT, if_true] at *
  rw [h0, h1, h2, h3]
  rfl

theorem fresh_effUsed {img : Image} (hf : Fresh img) : effUsed img = JH_SIZE := by
  unfold effUsed
  rw [fresh_jhMagic hf, if_pos (by decide)]

theorem fresh_stageCond {img : Image} (hf : Fresh img) {filename : List Byte}
    (hn : strlen filename < NAME_LEN) : StageCond img filename 1 0 := by
  have hsz := hf.size_eq
  simp only [TOTAL_BLOCKS, BLOCK_SIZE, Nat.reduceMul] at hsz
  have hb17 : blockOff INODE_BMAP_IDX = 69632 := by decide
  have hb19 : blockOff INODE_START_IDX = 77824 := by decide
  have hb21 : blockOff DATA_START_IDX = 86016 := by decide
  have hb0 : blockOff SUPERBLOCK_IDX = 0 := by decide
  have hib : inodeBlk 1 = INODE_START_IDX := by decide
  refine ⟨hn, ?_, hf.sb_magic, ?_, ?_, ?_, ?_, ?_, ?_, ?_, ?_, ?_⟩
  · rw [hb0, hsz]; decide
  · rw [hsz]; decide
  · rw [fresh_effUsed hf]; decide
  · rw [hb17, hsz]; decide
  · rw [hf.inode_count]
    have h0 : blockAt img INODE_BMAP_IDX 0 = 1 := by
      have := hf.bitmap_first
      simp only [blockAt, bufAt, hb17, BLOCK_SIZE, INODE_BMAP_IDX] at *
      simpa using this
    show scanInodes (blockAt img INODE_BMAP_IDX) (62 + 1) 1 = .found 1
    unfold scanInodes
    rw [if_neg (by decide)]
    have hbit : is_bit_set (blockAt img INODE_BMAP_IDX) 1 = 0 := by
      unfold is_bit_set
      rw [show (1 / 8 : Nat) = 0 from rfl, h0]
      decide
    rw [if_pos hbit]
  · rw [hb19, hsz]; decide
  · rw [hf.root_blk]; decide
  · rw [hf.root_blk, hb21, hsz]; decide
  · rw [hf.root_blk]
    show scanDirents (blockAt img DATA_START_IDX) (127 + 1) 0 = some 0
    unfold scanDirents
    have h4 : blockAt img DATA_START_IDX (0 * DIRENT_SIZE + 4) = 0 := by
      have := hf.root_data 4 (by decide)
      simp only [blockAt, bufAt, hb21, BLOCK_SIZE, DATA_START_IDX, DIRENT_SIZE] at *
      simpa using this
    rw [if_pos h4]
  · rw [hib, hb19, hsz]; decide

theorem wr32_of_not_covered {b : Buf} {o v k : Nat} (h : ¬ (o ≤ k ∧ k < o + 4)) :
    wr32 b o v k = b k := by
  unfold wr32
  rw [if_neg h]

theorem wr16_of_not_covered {b : Buf} {o v k : Nat} (h : ¬ (o ≤ k ∧ k < o + 2)) :
    wr16 b o v k = b k := by
  unfold wr16
  rw [if_neg h]

/-- The three ways `cmd_install` returns normally. -/
theorem cmd_install_done {fuel : Nat} {img img' : Image} {r : Report}
    (h : cmd_install fuel img = .done img' r) :
    JOURNAL_BLOCK_IDX * BLOCK_SIZE + JH_SIZE ≤ img.size ∧
    ((r = .notInitialized ∧ img' = img ∧ jhMagic img ≠ JOURNAL_MAGIC) ∨
     (r = .empty ∧ img' = img ∧ jhMagic img = JOURNAL_MAGIC ∧ jhUsed img = JH_SIZE) ∨
     (∃ s, r = .replayed s.committed_txns ∧ jhMagic img = JOURNAL_MAGIC ∧
        jhUsed img ≠ JH_SIZE ∧ replayScan fuel img (jhUsed img) = some (s, none) ∧
        img' = applyWrites img (s.writes ++ [resetWrite]))) := by
  unfold cmd_install at h
  by_cases hsz : JOURNAL_BLOCK_IDX * BLOCK_SIZE + JH_SIZE ≤ img.size
  swap
  · rw [pread_none hsz] at h; cases h
  rw [pread_some hsz] at h
  simp only [] at h
  rw [show rd32 (bufAt img JH_SIZE (JOURNAL_BLOCK_IDX * BLOCK_SIZE)) 0 = jhMagic img from rfl,
    show rd32 (bufAt img JH_SIZE (JOURNAL_BLOCK_IDX * BLOCK_SIZE)) 4 = jhUsed img from rfl] at h
  refine ⟨hsz, ?_⟩
  by_cases hm : jhMagic img ≠ JOURNAL_MAGIC
  · rw [if_pos hm] at h
    cases h
    exact Or.inl ⟨rfl, rfl, hm⟩
  rw [if_neg hm] at h
  by_cases hu : jhUsed img = JH_SIZE
  · rw [if_pos hu] at h
    cases h
    exact Or.inr (Or.inl ⟨rfl, rfl, not_not.mp hm, hu⟩)
  rw [if_neg hu] at h
  cases hr : replayScan fuel img (jhUsed img) with
  | none => rw [hr] at h; cases h
  | some x =>
    obtain ⟨s, oe⟩ := x
    rw [hr] at h
    cases oe with
    | some e => cases h
    | none =>
      simp only [] at h
      cases h
      exact Or.inr (Or.inr ⟨s, rfl, not_not.mp hm, hu, rfl, rfl⟩)

theorem cmd_install_of_absent {fuel : Nat} {img : Image}
    (hsz : JOURNAL_BLOCK_IDX * BLOCK_SIZE + JH_SIZE ≤ img.size)
    (hm : jhMagic img ≠ JOURNAL_MAGIC) : cmd_install fuel img = .done img .notInitialized := by
  unfold cmd_install
  rw [pread_some hsz]
  simp only []
  rw [show rd32 (bufAt img JH_SIZE (JOURNAL_BLOCK_IDX * BLOCK_SIZE)) 0 = jhMagic img from rfl,
    if_pos hm]

theorem cmd_install_of_empty {fuel : Nat} {img : Image}
    (hsz : JOURNAL_BLOCK_IDX * BLOCK_SIZE + JH_SIZE ≤ img.size)
    (hm : jhMagic img = JOURNAL_MAGIC) (hu : jhUsed img = JH_SIZE) :
    cmd_install fuel img = .done img .empty := by
  unfold cmd_install
  rw [pread_some hsz]
  simp only []
  rw [show rd32 (bufAt img JH_SIZE (JOURNAL_BLOCK_IDX * BLOCK_SIZE)) 0 = jhMagic img from rfl,
    show rd32 (bufAt img JH_SIZE (JOURNAL_BLOCK_IDX * BLOCK_SIZE)) 4 = jhUsed img from rfl,
    if_neg (not_not.mpr hm), if_pos hu]

theorem cmd_install_of_scan {fuel : Nat} {img : Image} {s : Scan}
    (hsz : JOURNAL_BLOCK_IDX * BLOCK_SIZE + JH_SIZE ≤ img.size)
    (hm : jhMagic img = JOURNAL_MAGIC) (hu : jhUsed img ≠ JH_SIZE)
    (hs : replayScan fuel img (jhUsed img) = some (s, none)) :
    cmd_install fuel img =
      .done (applyWrites img (s.writes ++ [resetWrite])) (.replayed s.committed_txns) := by
  unfold cmd_install
  rw [pread_some hsz]
  simp only []
  rw [show rd32 (bufAt img JH_SIZE (JOURNAL_BLOCK_IDX * BLOCK_SIZE)) 0 = jhMagic img from rfl,
    show rd32 (bufAt img JH_SIZE (JOURNAL_BLOCK_IDX * BLOCK_SIZE)) 4 = jhUsed img from rfl,
    if_neg (not_not.mpr hm), if_neg hu, hs]

theorem applyWrites_size_le (ws : List Write) (img : Image) :
    img.size ≤ (applyWrites img ws).size := by
  induction ws generalizing img with
  | nil => exact le_refl _
  | cons w ws ih =>
    rw [applyWrites_cons]
    refine le_trans ?_ (ih _)
    unfold applyWrite
    rw [pwrite_size]
    exact le_max_left _ _

/-- After the header reset the journal header on disk reads (JOURNAL_MAGIC, 8). -/
theorem jh_after_reset (img : Image) (ws : List Write) :
    jhMagic (applyWrites img (ws ++ [resetWrite])) = JOURNAL_MAGIC ∧
    jhUsed (applyWrites img (ws ++ [resetWrite])) = JH_SIZE := by
  have hd : ∀ k, k < 8 → (applyWrites img (ws ++ [resetWrite])).data (4096 + k) =
      headerBytes JOURNAL_MAGIC JH_SIZE k := by
    intro k hk
    rw [applyWrites_append, applyWrites_cons, applyWrites_nil]
    unfold applyWrite
    rw [pwrite_data, show resetWrite.off = 4096 from rfl, show resetWrite.count = 8 from rfl,
      show resetWrite.src = headerBytes JOURNAL_MAGIC JH_SIZE from rfl]
    rw [if_pos (by omega)]
    have e : 4096 + k - 4096 = k := by omega
    rw [e]
  constructor
  · have e : jhMagic (applyWrites img (ws ++ [resetWrite])) = JOURNAL_MAGIC % U32 := by
      unfold jhMagic
      apply rd32_of_bytes
      intro k hk
      simp only [bufAt, JH_SIZE, JOURNAL_BLOCK_IDX, BLOCK_SIZE, Nat.one_mul, Nat.zero_add]
      rw [if_pos (by omega), hd k (by omega)]
      simp only [headerBytes, if_pos hk]
    rw [e]
    decide
  · have e : jhUsed (applyWrites img (ws ++ [resetWrite])) = JH_SIZE % U32 := by
      unfold jhUsed
      apply rd32_of_bytes
      intro k hk
      simp only [bufAt, JOURNAL_BLOCK_IDX, BLOCK_SIZE, Nat.one_mul]
      rw [if_pos (by simp only [JH_SIZE]; omega), hd (4 + k) (by omega)]
      simp only [headerBytes]
      rw [if_neg (by omega), if_pos (by omega)]
      have e : 4 + k - 4 = k := by omega
      rw [e]
    rw [e]
    decide

theorem cmd_create_of_cond {img : Image} {filename : List Byte} {i sl : Nat}
    (ctime mtime : Nat) (hc : StageCond img filename i sl) :
    cmd_create img filename ctime mtime =
      .done (applyWrites img (txnWrites (stagedOf img filename ctime mtime i sl))) (i, sl) :=
  cmd_create_done_iff.mpr ⟨hc, rfl⟩

/-- A second replay right after a completed one returns at once. -/
theorem cmd_install_twice {fuel : Nat} (fuel' : Nat) {img img' : Image} {r : Report}
    (h : cmd_install fuel img = .done img' r) :
    (cmd_install fuel' img' = .done img' .notInitialized ∧ r = .notInitialized) ∨
    (cmd_install fuel' img' = .done img' .empty ∧ jhMagic img' = JOURNAL_MAGIC ∧
      jhUsed img' = JH_SIZE) := by
  obtain ⟨hsz, hcase⟩ := cmd_install_done h
  rcases hcase with ⟨hr, himg, hm⟩ | ⟨hr, himg, hm, hu⟩ | ⟨s, hr, hm, hu, hs, himg⟩
  · subst himg
    exact Or.inl ⟨cmd_install_of_absent hsz hm, hr⟩
  · subst himg
    exact Or.inr ⟨cmd_install_of_empty hsz hm hu, hm, hu⟩
  · have hj := jh_after_reset img s.writes
    rw [← himg] at hj
    have hsz' : JOURNAL_BLOCK_IDX * BLOCK_SIZE + JH_SIZE ≤ img'.size := by
      rw [himg]
      exact le_trans hsz (applyWrites_size_le _ _)
    exact Or.inr ⟨cmd_install_of_empty hsz' hj.1 hj.2, hj.1, hj.2⟩

theorem Outcome.eq_done_of_val {α : Type} {o : Outcome α} {v : α} (h : o.val? = some v) :
    o = .done o.image v := by
  cases o with
  | done img w =>
    simp only [Outcome.val?, Option.some.injEq] at h
    subst h
    rfl
  | failed img e => cases h

/-! ## C1: staging writes only inside the journal region -/

/-- C1 (as amended): for every image, filename and pair of clock readings, `cmd_create`
(whether it succeeds or stops early) leaves the length of the image and every byte outside
the journal region (byte offsets 4096..69631) unchanged; in particular the inode bitmap
block 17 and the inode table blocks 19 and 20 are byte-identical, and so is the root data
block whenever it lies outside the journal region. -/
theorem cmd_create_frame (img : Image) (filename : List Byte) (ctime mtime : Nat) :
    (cmd_create img filename ctime mtime).image.size = img.size ∧
    (∀ p, ¬ inJournal p → (cmd_create img filename ctime mtime).image.data p = img.data p) ∧
    blockAt (cmd_create img filename ctime mtime).image INODE_BMAP_IDX
      = blockAt img INODE_BMAP_IDX ∧
    blockAt (cmd_create img filename ctime mtime).image INODE_START_IDX
      = blockAt img INODE_START_IDX ∧
    blockAt (cmd_create img filename ctime mtime).image (INODE_START_IDX + 1)
      = blockAt img (INODE_START_IDX + 1) ∧
    (¬ inJournal (blockOff (rootBlk img)) →
      blockAt (cmd_create img filename ctime mtime).image (rootBlk img)
        = blockAt img (rootBlk img)) := by
  have h := cmd_create_sameOutside img filename ctime mtime
  refine ⟨h.1, h.2, ?_, ?_, ?_, ?_⟩
  · exact blockAt_eq_of_sameOutside h (by decide)
  · exact blockAt_eq_of_sameOutside h (by decide)
  · exact blockAt_eq_of_sameOutside h (by decide)
  · exact fun hr => blockAt_eq_of_sameOutside h hr

/-- C1, witness: on the freshly formatted image the root data block (block 21) lies outside
the journal region, and staging "hello" leaves it byte-identical. -/
theorem cmd_create_frame_witness :
    ¬ inJournal (blockOff (rootBlk freshImage)) ∧
    blockAt (cmd_create freshImage fileHello 0 0).image (rootBlk freshImage)
      = blockAt freshImage (rootBlk freshImage) :=
  ⟨by decide, (cmd_create_frame freshImage fileHello 0 0).2.2.2.2.2 (by decide)⟩

/-- C1, counterexample to the claim as written: on a formatted image whose root inode has
`direct[0] = 1`, `cmd_create "hello"` succeeds and the root data block (block 1, which
holds the journal header) is not byte-identical afterwards: its byte 0 changes. -/
theorem cmd_create_changes_root_block_in_journal :
    (cmd_create rootInJournalImage fileHello 0 0).isDone = true ∧
    rootBlk rootInJournalImage = 1 ∧
    blockAt (cmd_create rootInJournalImage fileHello 0 0).image (rootBlk rootInJournalImage) 0
      ≠ blockAt rootInJournalImage (rootBlk rootInJournalImage) 0 := by
  decide

/-! ## C10: a stage that stops early leaves the image alone -/

/-- C10: whenever `cmd_create` stops early, for whatever reason (filename too long, journal
full, no free inode, root directory full among them), the image it leaves, journal header and
journal region included, is the image before the call; and a filename of length 28 or more
always stops it with "filename too long". -/
theorem cmd_create_failure_atomic (img : Image) (filename : List Byte) (ctime mtime : Nat) :
    (∀ e, (cmd_create img filename ctime mtime).err = some e →
      (cmd_create img filename ctime mtime).image = img) ∧
    (NAME_LEN ≤ strlen filename →
      cmd_create img filename ctime mtime = .failed img .filenameTooLong) := by
  constructor
  · intro e he
    cases h : cmd_create img filename ctime mtime with
    | failed img' e' => rw [cmd_create_failed h]; rfl
    | done img' r => rw [h] at he; cases he
  · intro hlen
    unfold cmd_create stage
    rw [if_pos hlen]

/-- C10, witness: a 28-byte filename on the freshly formatted image stops `cmd_create` with
"filename too long" and the image is unchanged. -/
theorem cmd_create_failure_atomic_witness :
    (cmd_create freshImage (List.replicate 28 97) 0 0).err = some .filenameTooLong ∧
    (cmd_create freshImage (List.replicate 28 97) 0 0).image = freshImage :=
  ⟨by decide,
    (cmd_create_failure_atomic freshImage (List.replicate 28 97) 0 0).1 .filenameTooLong
      (by decide)⟩

/-! ## C9: the journal header after one stage -/

/-- C3: for every image on which `cmd_install` completes, running it a second time (with
any iteration budget) completes with the image byte-identical to the image after the first
run; the second run returns without writing, either because the journal is still not
initialised (when the first run found it so) or because the header now reads
`nbytes_used = 8`, which is what every run that replayed leaves behind. -/
theorem cmd_install_idempotent (fuel fuel' : Nat) (img img' : Image) (r : Report)
    (h : cmd_install fuel img = .done img' r) :
    (∃ r', cmd_install fuel' img' = .done img' r' ∧ (r' = .notInitialized ∨ r' = .empty)) ∧
    (cmd_install fuel' (cmd_install fuel img).image).image = (cmd_install fuel img).image ∧
    (r ≠ .notInitialized → jhMagic img' = JOURNAL_MAGIC ∧ jhUsed img' = JH_SIZE) := by
  have h2 := cmd_install_twice fuel' h
  refine ⟨?_, ?_, ?_⟩
  · rcases h2 with ⟨h3, -⟩ | ⟨h3, -⟩
    · exact ⟨_, h3, Or.inl rfl⟩
    · exact ⟨_, h3, Or.inr rfl⟩
  · rw [h]
    simp only [Outcome.image]
    rcases h2 with ⟨h3, -⟩ | ⟨h3, -⟩ <;> rw [h3]
  · intro hr
    rcases h2 with ⟨-, h3⟩ | ⟨-, h3⟩
    · exact absurd h3 hr
    · exact h3

/-- C3, witness: `cmd_install` completes on the image left by `cmd_create "hello"` on the
freshly formatted image, replaying one transaction; a second run (even with no iteration
budget at all) returns "empty" and leaves the image as it is. -/
theorem cmd_install_idempotent_witness :
    (cmd_install 5 helloStagedImage).val? = some (.replayed 1) ∧
    (cmd_install 0 (cmd_install 5 helloStagedImage).image).image
      = (cmd_install 5 helloStagedImage).image ∧
    jhUsed (cmd_install 5 helloStagedImage).image = JH_SIZE :=
  ⟨by decide,
    (cmd_install_idempotent 5 0 helloStagedImage (cmd_install 5 helloStagedImage).image
      (.replayed 1) (Outcome.eq_done_of_val (by decide))).2.1,
    ((cmd_install_idempotent 5 0 helloStagedImage (cmd_install 5 helloStagedImage).image
      (.replayed 1) (Outcome.eq_done_of_val (by decide))).2.2 (by decide)).2⟩

theorem stage_journalFull_iff {img : Image} {filename : List Byte} {ctime mtime : Nat} :
    stage img filename ctime mtime = .error .journalFull ↔
      strlen filename < NAME_LEN ∧ blockOff SUPERBLOCK_IDX + BLOCK_SIZE ≤ img.size ∧
      rd32 (blockAt img SUPERBLOCK_IDX) 0 = FS_MAGIC ∧
      JOURNAL_BLOCK_IDX * BLOCK_SIZE + JH_SIZE ≤ img.size ∧
      journal_capacity < effUsed img + txn_size := by
  unfold stage
  by_cases h1 : NAME_LEN ≤ strlen filename
  · rw [if_pos h1]
    constructor
    · intro h; cases h
    · rintro ⟨h, -⟩; omega
  rw [if_neg h1]
  by_cases h2 : blockOff SUPERBLOCK_IDX + BLOCK_SIZE ≤ img.size
  swap
  · rw [read_block_none h2]
    constructor
    · intro h; cases h
    · rintro ⟨-, h, -⟩; exact absurd h h2
  rw [read_block_some h2]
  simp only []
  by_cases h3 : rd32 (blockAt img SUPERBLOCK_IDX) 0 ≠ FS_MAGIC
  · rw [if_pos h3]
    constructor
    · intro h; cases h
    · rintro ⟨-, -, h, -⟩; exact absurd h h3
  rw [if_neg h3]
  by_cases h4 : JOURNAL_BLOCK_IDX * BLOCK_SIZE + JH_SIZE ≤ img.size
  swap
  · rw [pread_none h4]
    constructor
    · intro h; cases h
    · rintro ⟨-, -, -, h, -⟩; exact absurd h h4
  rw [pread_some h4]
  simp only []
  rw [show (if rd32 (bufAt img JH_SIZE (JOURNAL_BLOCK_IDX * BLOCK_SIZE)) 0 ≠ JOURNAL_MAGIC
        then JH_SIZE else rd32 (bufAt img JH_SIZE (JOURNAL_BLOCK_IDX * BLOCK_SIZE)) 4)
      = effUsed img from rfl]
  by_cases h5 : journal_capacity < effUsed img + txn_size
  · rw [if_pos h5]
    exact ⟨fun _ => ⟨by omega, h2, not_not.mp h3, h4, h5⟩, fun _ => rfl⟩
  rw [if_neg h5]
  constructor
  · intro h
    exfalso
    revert h
    repeat' split
    all_goals (intro h; cases h)
  · rintro ⟨-, -, -, -, h⟩; exact absurd h h5

theorem scanInodes_found {bitmap : Buf} :
    ∀ (n j : Nat) {i : Nat}, scanInodes bitmap n j = .found i →
      j ≤ i ∧ i < j + n ∧ i / 8 < BLOCK_SIZE ∧ is_bit_set bitmap i = 0 ∧
      ∀ k, j ≤ k → k < i → is_bit_set bitmap k ≠ 0
  | 0, _, _, h => by cases h
  | n + 1, j, i, h => by
    unfold scanInodes at h
    by_cases h1 : BLOCK_SIZE ≤ j / 8
    · rw [if_pos h1] at h; cases h
    rw [if_neg h1] at h
    by_cases h2 : is_bit_set bitmap j = 0
    · rw [if_pos h2] at h
      cases h
      exact ⟨le_refl _, by omega, by omega, h2, fun k hk1 hk2 => by omega⟩
    · rw [if_neg h2] at h
      obtain ⟨ha, hb, hc, hd, he⟩ := scanInodes_found n (j + 1) h
      refine ⟨by omega, by omega, hc, hd, ?_⟩
      intro k hk1 hk2
      by_cases hkj : k = j
      · rw [hkj]; exact h2
      · exact he k (by omega) hk2

theorem inodeBlk_not_inJournal {i : Nat} (h : i / 8 < BLOCK_SIZE) :
    ¬ inJournal (blockOff (inodeBlk i)) := by
  unfold inJournal blockOff inodeBlk
  simp only [BLOCK_SIZE, INODE_START_IDX, INODE_SIZE, JOURNAL_BLOCK_IDX, JOURNAL_BLOCKS, U32] at *
  omega

theorem effUsed_eq {img : Image} (hm : jhMagic img = JOURNAL_MAGIC) : effUsed img = jhUsed img := by
  unfold effUsed
  rw [if_neg (not_not.mpr hm)]

/-- The checks passed on one image are passed on any image that agrees with it outside the
journal region, provided the journal still has room and the root data block lies outside
the journal region. -/
theorem stageCond_transfer {img img' : Image} {filename filename' : List Byte} {i sl : Nat}
    (hc : StageCond img filename i sl) (hs : SameOutsideJournal img' img)
    (hroot : ¬ inJournal (blockOff (rootBlk img)))
    (hn : strlen filename' < NAME_LEN) (hroom : effUsed img' + txn_size ≤ journal_capacity) :
    StageCond img' filename' i sl := by
  have e0 : blockAt img' SUPERBLOCK_IDX = blockAt img SUPERBLOCK_IDX :=
    blockAt_eq_of_sameOutside hs (by decide)
  have e17 : blockAt img' INODE_BMAP_IDX = blockAt img INODE_BMAP_IDX :=
    blockAt_eq_of_sameOutside hs (by decide)
  have e19 : blockAt img' INODE_START_IDX = blockAt img INODE_START_IDX :=
    blockAt_eq_of_sameOutside hs (by decide)
  have er : rootBlk img' = rootBlk img := by unfold rootBlk; rw [e19]
  have ed : blockAt img' (rootBlk img) = blockAt img (rootBlk img) :=
    blockAt_eq_of_sameOutside hs hroot
  have ec : inodeCount img' = inodeCount img := by unfold inodeCount; rw [e0]
  refine ⟨hn, ?_, ?_, ?_, hroom, ?_, ?_, ?_, ?_, ?_, ?_, ?_⟩
  · rw [hs.1]; exact hc.sb_read
  · rw [e0]; exact hc.sb_magic
  · rw [hs.1]; exact hc.jh_read
  · rw [hs.1]; exact hc.bm_read
  · rw [e17, ec]; exact hc.inode_found
  · rw [hs.1]; exact hc.it_read
  · rw [er]; exact hc.root_ne
  · rw [er, hs.1]; exact hc.rd_read
  · rw [er, ed]; exact hc.slot_found
  · rw [hs.1]; exact hc.tb_read

theorem sameOutside_trans {a b c : Image} (h1 : SameOutsideJournal a b)
    (h2 : SameOutsideJournal b c) : SameOutsideJournal a c :=
  ⟨h1.1.trans h2.1, fun p hp => (h1.2 p hp).trans (h2.2 p hp)⟩

/-- Back-to-back stages on an image with an absent or empty journal: the first five all
succeed with the same inode and slot, and the header counts them. -/
theorem stageN_succeeds {img : Image} {calls : Nat → Call} {i sl : Nat}
    (hu : effUsed img = JH_SIZE) (hc : StageCond img (calls 0).filename i sl)
    (hn : ∀ n, strlen (calls n).filename < NAME_LEN)
    (hroot : ¬ inJournal (blockOff (rootBlk img))) :
    ∀ n, n ≤ 5 →
      SameOutsideJournal (stageN calls n img) img ∧
      effUsed (stageN calls n img) = JH_SIZE + n * txn_size ∧
      (∀ m, m < n →
        cmd_create (stageN calls m img) (calls m).filename (calls m).ctime (calls m).mtime
          = .done (stageN calls (m + 1) img) (i, sl) ∧
        jhUsed (stageN calls (m + 1) img) = JH_SIZE + (m + 1) * txn_size)
  | 0, _ => ⟨⟨rfl, fun _ _ => rfl⟩, by rw [Nat.zero_mul, Nat.add_zero]; exact hu,
      fun m hm => absurd hm (Nat.not_lt_zero m)⟩
  | n + 1, hle => by
    obtain ⟨hs, he, hprev⟩ := stageN_succeeds hu hc hn hroot n (by omega)
    have hroom : effUsed (stageN calls n img) + txn_size ≤ journal_capacity := by
      rw [he]
      simp only [JH_SIZE, txn_size, data_rec_size, commit_rec_size, RH_SIZE, BLOCK_SIZE,
        journal_capacity, JOURNAL_BLOCKS]
      omega
    have hc' : StageCond (stageN calls n img) (calls n).filename i sl :=
      stageCond_transfer hc hs hroot (hn n) hroom
    have hd := cmd_create_of_cond (calls n).ctime (calls n).mtime hc'
    have himg : stageN calls (n + 1) img =
        applyWrites (stageN calls n img)
          (txnWrites (stagedOf (stageN calls n img) (calls n).filename (calls n).ctime
            (calls n).mtime i sl)) := by
      show (cmd_create (stageN calls n img) (calls n).filename (calls n).ctime
        (calls n).mtime).image = _
      rw [hd]
      rfl
    rw [← himg] at hd
    have hj := jh_after_create hd
    have hs' : SameOutsideJournal (stageN calls (n + 1) img) img := by
      refine sameOutside_trans ?_ hs
      rw [himg]
      exact stage_sameOutside _ _ hc'
    have hu' : jhUsed (stageN calls (n + 1) img) = JH_SIZE + (n + 1) * txn_size := by
      rw [hj.2, he, Nat.add_mul, Nat.one_mul, Nat.add_assoc]
    refine ⟨hs', ?_, ?_⟩
    · rw [effUsed_eq hj.1, hu']
    · intro m hm
      by_cases hmn : m = n
      · subst hmn
        exact ⟨hd, hu'⟩
      · exact hprev m (by omega)

theorem cmd_create_journalFull_iff {img : Image} {filename : List Byte} {ctime mtime : Nat}
    (hn : strlen filename < NAME_LEN)
    (hsz : JOURNAL_BLOCK_IDX * BLOCK_SIZE + JH_SIZE ≤ img.size)
    (hm : rd32 (blockAt img SUPERBLOCK_IDX) 0 = FS_MAGIC) :
    cmd_create img filename ctime mtime = .failed img .journalFull ↔
      journal_capacity < effUsed img + txn_size := by
  have hsb : blockOff SUPERBLOCK_IDX + BLOCK_SIZE ≤ img.size := by
    rw [show blockOff SUPERBLOCK_IDX = 0 from by decide]
    simp only [JOURNAL_BLOCK_IDX, BLOCK_SIZE, JH_SIZE] at *
    omega
  constructor
  · intro h
    unfold cmd_create at h
    cases hs : stage img filename ctime mtime with
    | ok s => rw [hs] at h; cases h
    | error e =>
      rw [hs] at h
      cases h
      exact (stage_journalFull_iff.mp hs).2.2.2.2
  · intro h
    have hs : stage img filename ctime mtime = .error .journalFull :=
      stage_journalFull_iff.mpr ⟨hn, hsb, hm, hsz, h⟩
    unfold cmd_create
    rw [hs]

/-! ## C8: journal capacity -/

theorem flushPending_ok (jm : Buf) :
    ∀ pend : List PendingWrite, (∀ p ∈ pend, p.data_off + BLOCK_SIZE ≤ JOURNAL_SIZE) →
      flushPending jm pend = (pend.map (pendingWrite jm), none)
  | [], _ => rfl
  | p :: ps, h => by
    have hp := h p (List.mem_cons_self _ _)
    have ih := flushPending_ok jm ps (fun q hq => h q (List.mem_cons_of_mem _ hq))
    show (if JOURNAL_SIZE < p.data_off + BLOCK_SIZE then (([] : List Write), some Err.outOfBounds)
      else ((pendingWrite jm p) :: (flushPending jm ps).1, (flushPending jm ps).2)) = _
    rw [if_neg (Nat.not_lt.mpr hp), ih]
    rfl

theorem framed_le {jm : Buf} {nb : Nat} :
    ∀ (recs : List Rec) (off : Nat), framed jm nb off recs = true → off ≤ nb
  | [], off, h => by
    unfold framed at h
    exact le_of_eq (of_decide_eq_true h)
  | .data p :: rs, off, h => by
    unfold framed at h
    rw [Bool.and_eq_true] at h
    have := framed_le rs _ h.2
    omega
  | .commit :: rs, off, h => by
    unfold framed at h
    rw [Bool.and_eq_true] at h
    have := framed_le rs _ h.2
    omega

theorem replayRecs_flushed :
    ∀ (recs : List Rec) (pend : List PendingWrite),
      (replayRecs recs pend).2 =
        (if recs.any Rec.isCommit then pend else []) ++ committedData recs
  | [], pend => by simp [replayRecs, committedData]
  | .data p :: rs, pend => by
    unfold replayRecs committedData
    rw [replayRecs_flushed rs (pend ++ [p])]
    simp only [List.any_cons, Rec.isCommit, Bool.false_or]
    by_cases h : rs.any Rec.isCommit = true
    · simp [h]
    · simp [h]
  | .commit :: rs, pend => by
    unfold replayRecs committedData
    rw [replayRecs_flushed rs []]
    simp [Rec.isCommit]

theorem replayRecs_nil_flushed (recs : List Rec) :
    (replayRecs recs []).2 = committedData recs := by
  rw [replayRecs_flushed]
  simp

theorem commitCount_data (p : PendingWrite) (rs : List Rec) :
    commitCount (.data p :: rs) = commitCount rs := by
  simp [commitCount, Rec.isCommit]

theorem commitCount_commit (rs : List Rec) :
    commitCount (.commit :: rs) = commitCount rs + 1 := by
  simp [commitCount, Rec.isCommit]

/-- On a well-framed stream that fits the journal buffer, the scan reaches `nbytes_used`
without a fault, having flushed exactly what `replayRecs` says. -/
theorem scanLoop_framed {jm : Buf} {nb : Nat} (hnb : nb ≤ JOURNAL_SIZE) :
    ∀ (recs : List Rec) (fuel : Nat) (s : Scan),
      framed jm nb s.scan_offset recs = true → recs.length < fuel →
      (∀ p ∈ s.pending, p.data_off + BLOCK_SIZE ≤ JOURNAL_SIZE) →
      JH_SIZE + s.pending.length * data_rec_size ≤ s.scan_offset →
      scanLoop jm nb fuel s =
        (⟨nb, (replayRecs recs s.pending).1, s.committed_txns + commitCount recs,
          s.writes ++ ((replayRecs recs s.pending).2).map (pendingWrite jm)⟩, none)
  | [], fuel, s, hfr, hfuel, _, _ => by
    unfold framed at hfr
    have hoff : s.scan_offset = nb := of_decide_eq_true hfr
    obtain ⟨f, rfl⟩ : ∃ f, fuel = f + 1 := ⟨fuel - 1, by simp at hfuel; omega⟩
    unfold scanLoop
    rw [if_pos (by omega)]
    cases s
    simp only at hoff
    subst hoff
    simp [replayRecs, commitCount]
  | .data p :: rs, fuel, s, hfr, hfuel, hpend, hlen => by
    unfold framed at hfr
    rw [Bool.and_eq_true] at hfr
    obtain ⟨h1, hrest⟩ := hfr
    obtain ⟨ht, hsz, hpt, hpd⟩ := of_decide_eq_true h1
    have hle := framed_le rs _ hrest
    obtain ⟨f, rfl⟩ : ∃ f, fuel = f + 1 := ⟨fuel - 1, by simp at hfuel; omega⟩
    simp only [JOURNAL_SIZE, JOURNAL_BLOCKS, BLOCK_SIZE, data_rec_size, RH_SIZE, JH_SIZE,
      List.length_cons] at *
    unfold scanLoop
    simp only [JOURNAL_SIZE, JOURNAL_BLOCKS, BLOCK_SIZE, RH_SIZE, PENDING_CAP, hsz, ht]
    rw [if_neg (by omega), if_neg (by omega), if_neg (by omega), if_neg (by omega),
      if_pos trivial, if_neg (by omega), if_neg (by omega)]
    have hp : p = ⟨rd32 jm (s.scan_offset + 4), s.scan_offset + 4 + 4⟩ := by
      cases p
      simp only at hpt hpd
      rw [hpt, hpd]
    rw [scanLoop_framed hnb rs f _ hrest (by omega) ?_ ?_]
    · rw [commitCount_data]
      simp only [replayRecs, hp]
    · intro q hq
      rw [List.mem_append, List.mem_singleton] at hq
      rcases hq with hq | hq
      · have := hpend q hq
        simp only [JOURNAL_SIZE, JOURNAL_BLOCKS, BLOCK_SIZE] at *
        omega
      · subst hq
        simp only [JOURNAL_SIZE, JOURNAL_BLOCKS, BLOCK_SIZE] at *
        omega
    · simp only [List.length_append, List.length_singleton, JH_SIZE, data_rec_size, RH_SIZE,
        BLOCK_SIZE]
      omega
  | .commit :: rs, fuel, s, hfr, hfuel, hpend, hlen => by
    unfold framed at hfr
    rw [Bool.and_eq_true] at hfr
    obtain ⟨h1, hrest⟩ := hfr
    obtain ⟨ht, hsz⟩ := of_decide_eq_true h1
    have hle := framed_le rs _ hrest
    obtain ⟨f, rfl⟩ : ∃ f, fuel = f + 1 := ⟨fuel - 1, by simp at hfuel; omega⟩
    have hfl := flushPending_ok jm s.pending hpend
    simp only [JOURNAL_SIZE, JOURNAL_BLOCKS, BLOCK_SIZE, data_rec_size, RH_SIZE, JH_SIZE,
      List.length_cons] at *
    unfold scanLoop
    simp only [JOURNAL_SIZE, JOURNAL_BLOCKS, BLOCK_SIZE, RH_SIZE, PENDING_CAP, hsz, ht, hfl]
    rw [if_neg (by omega), if_neg (by omega), if_neg (by omega), if_neg (by omega),
      if_neg (by decide), if_pos trivial]
    rw [scanLoop_framed hnb rs f _ hrest (by omega) ?_ ?_]
    · rw [commitCount_commit]
      simp only [replayRecs, List.map_append, List.append_assoc, Nat.add_assoc]
      rw [Nat.add_comm 1]
    · intro q hq
      cases hq
    · simp only [List.length_nil, JH_SIZE]
      omega

/-! ## Sequences of writes: the last writer wins -/

theorem applyWrites_size (ws : List Write) (img : Image) :
    (applyWrites img ws).size = max img.size (extent ws) := by
  induction ws generalizing img with
  | nil => simp [applyWrites_nil, extent]
  | cons w ws ih =>
    rw [applyWrites_cons, ih]
    show max (pwrite img w.src w.count w.off).size (extent ws)
      = max img.size (max (w.off + w.count) (extent ws))
    rw [pwrite_size, max_assoc]

theorem extent_le_of_mem {w : Write} {ws : List Write} (h : w ∈ ws) :
    w.off + w.count ≤ extent ws := by
  induction ws with
  | nil => cases h
  | cons v vs ih =>
    show w.off + w.count ≤ max (v.off + v.count) (extent vs)
    rcases List.mem_cons.mp h with h | h
    · subst h; exact le_max_left _ _
    · exact le_trans (ih h) (le_max_right _ _)

/-- The byte at `p` after a sequence of writes depends only on the byte at `p` before. -/
theorem applyWrites_data_congr {p : Nat} (ws : List Write) {a b : Image}
    (h : a.data p = b.data p) : (applyWrites a ws).data p = (applyWrites b ws).data p := by
  induction ws generalizing a b with
  | nil => exact h
  | cons w ws ih =>
    rw [applyWrites_cons, applyWrites_cons]
    apply ih
    unfold applyWrite
    rw [pwrite_data, pwrite_data, h]

/-- A byte covered by one of the writes does not depend on the image before. -/
theorem applyWrites_data_covered {p : Nat} {w : Write} (ws : List Write) (a b : Image)
    (hw : w ∈ ws) (hcov : w.off ≤ p ∧ p < w.off + w.count) :
    (applyWrites a ws).data p = (applyWrites b ws).data p := by
  induction ws generalizing a b with
  | nil => cases hw
  | cons v vs ih =>
    rw [applyWrites_cons, applyWrites_cons]
    rcases List.mem_cons.mp hw with h | h
    · subst h
      apply applyWrites_data_congr
      unfold applyWrite
      rw [pwrite_data, pwrite_data, if_pos hcov, if_pos hcov]
    · exact ih _ _ h

/-- Doing one of the writes of a sequence beforehand changes nothing. -/
theorem applyWrites_absorb {w : Write} {ws : List Write} (img : Image) (hw : w ∈ ws) :
    applyWrites (applyWrite img w) ws = applyWrites img ws := by
  apply Image.eq_of_data
  · rw [applyWrites_size, applyWrites_size]
    unfold applyWrite
    rw [pwrite_size]
    have := extent_le_of_mem hw
    omega
  · intro p
    by_cases hcov : w.off ≤ p ∧ p < w.off + w.count
    · exact applyWrites_data_covered ws _ _ hw hcov
    · apply applyWrites_data_congr
      unfold applyWrite
      rw [pwrite_data, if_neg hcov]

/-- Redoing a sequence of writes after some of them have already been done gives the same
image as doing the sequence once. -/
theorem applyWrites_redo (vs ws : List Write) (img : Image) (h : ∀ v ∈ vs, v ∈ ws) :
    applyWrites (applyWrites img vs) ws = applyWrites img ws := by
  induction vs generalizing img with
  | nil => rfl
  | cons v vs ih =>
    rw [applyWrites_cons, ih _ (fun u hu => h u (List.mem_cons_of_mem _ hu)),
      applyWrites_absorb _ (h v (List.mem_cons_self _ _))]

/-- The same writes applied to two images that agree outside the journal region give images
that agree outside the journal region. -/
theorem applyWrites_sameOutside (ws : List Write) {a b : Image} (h : SameOutsideJournal a b) :
    SameOutsideJournal (applyWrites a ws) (applyWrites b ws) := by
  constructor
  · rw [applyWrites_size, applyWrites_size, h.1]
  · intro p hp
    exact applyWrites_data_congr ws (h.2 p hp)

theorem sameOutside_refl (a : Image) : SameOutsideJournal a a := ⟨rfl, fun _ _ => rfl⟩

theorem sameOutside_symm {a b : Image} (h : SameOutsideJournal a b) : SameOutsideJournal b a :=
  ⟨h.1.symm, fun p hp => (h.2 p hp).symm⟩

/-- A sequence of writes that all lie inside the journal region, on an image that contains
the region, changes nothing outside it. -/
theorem applyWrites_in_journal_sameOutside (ws : List Write) (img : Image)
    (hsz : (JOURNAL_BLOCK_IDX + JOURNAL_BLOCKS) * BLOCK_SIZE ≤ img.size)
    (hw : ∀ w ∈ ws, JOURNAL_BLOCK_IDX * BLOCK_SIZE ≤ w.off ∧
      w.off + w.count ≤ (JOURNAL_BLOCK_IDX + JOURNAL_BLOCKS) * BLOCK_SIZE) :
    SameOutsideJournal (applyWrites img ws) img := by
  constructor
  · exact applyWrites_size_of_within _ _ (fun w hmem => le_trans (hw w hmem).2 hsz)
  · intro p hp
    apply applyWrites_data_of_not_covered
    intro w hmem hcov
    apply hp
    have h := hw w hmem
    unfold inJournal
    omega

/-! ## Replay of a well-framed journal -/

theorem replayScan_eq {fuel : Nat} {img : Image} {nb : Nat}
    (hsz : JOURNAL_BLOCK_IDX * BLOCK_SIZE + JOURNAL_SIZE ≤ img.size) :
    replayScan fuel img nb = some (scanLoop (journalMem img) nb fuel ⟨JH_SIZE, [], 0, []⟩) := by
  unfold replayScan
  rw [pread_some hsz]
  rfl

theorem framed_self_nil {jm : Buf} {nb : Nat} :
    ∀ recs : List Rec, framed jm nb nb recs = true → recs = []
  | [], _ => rfl
  | .data p :: rs, h => by
    unfold framed at h
    rw [Bool.and_eq_true] at h
    have := framed_le rs _ h.2
    simp only [data_rec_size, RH_SIZE, BLOCK_SIZE] at this
    omega
  | .commit :: rs, h => by
    unfold framed at h
    rw [Bool.and_eq_true] at h
    have := framed_le rs _ h.2
    simp only [RH_SIZE] at this
    omega

/-- The scan of a well-framed journal. -/
theorem replayScan_framed {fuel : Nat} {img : Image} {recs : List Rec}
    (hsz : JOURNAL_BLOCK_IDX * BLOCK_SIZE + JOURNAL_SIZE ≤ img.size)
    (hnb : jhUsed img ≤ JOURNAL_SIZE)
    (hfr : framed (journalMem img) (jhUsed img) JH_SIZE recs = true)
    (hfuel : recs.length < fuel) :
    replayScan fuel img (jhUsed img) =
      some (⟨jhUsed img, (replayRecs recs []).1, commitCount recs,
        (committedData recs).map (pendingWrite (journalMem img))⟩, none) := by
  rw [replayScan_eq hsz, scanLoop_framed hnb recs fuel _ hfr hfuel
    (fun p hp => by cases hp) (by simp only [List.length_nil]; omega)]
  simp only [replayRecs_nil_flushed, List.nil_append, Nat.zero_add]

theorem installTargetWrites_framed {fuel : Nat} {img : Image} {recs : List Rec}
    (hsz : JOURNAL_BLOCK_IDX * BLOCK_SIZE + JOURNAL_SIZE ≤ img.size)
    (hnb : jhUsed img ≤ JOURNAL_SIZE)
    (hfr : framed (journalMem img) (jhUsed img) JH_SIZE recs = true)
    (hfuel : recs.length < fuel) :
    installTargetWrites fuel img = (committedData recs).map (pendingWrite (journalMem img)) := by
  unfold installTargetWrites
  rw [replayScan_framed hsz hnb hfr hfuel]

theorem jh_read_of_journal {img : Image}
    (hsz : JOURNAL_BLOCK_IDX * BLOCK_SIZE + JOURNAL_SIZE ≤ img.size) :
    JOURNAL_BLOCK_IDX * BLOCK_SIZE + JH_SIZE ≤ img.size := by
  simp only [JOURNAL_BLOCK_IDX, BLOCK_SIZE, JOURNAL_SIZE, JOURNAL_BLOCKS, JH_SIZE] at *
  omega

/-- `cmd_install` on a well-framed journal: it completes, having written the committed
payloads and, unless the journal was empty, reset the header. -/
theorem cmd_install_framed {fuel : Nat} {img : Image} {recs : List Rec}
    (hsz : JOURNAL_BLOCK_IDX * BLOCK_SIZE + JOURNAL_SIZE ≤ img.size)
    (hm : jhMagic img = JOURNAL_MAGIC) (hnb : jhUsed img ≤ JOURNAL_SIZE)
    (hfr : framed (journalMem img) (jhUsed img) JH_SIZE recs = true)
    (hfuel : recs.length < fuel) :
    (jhUsed img ≠ JH_SIZE ∧
      cmd_install fuel img =
        .done (applyWrites img
          ((committedData recs).map (pendingWrite (journalMem img)) ++ [resetWrite]))
          (.replayed (commitCount recs))) ∨
    (jhUsed img = JH_SIZE ∧ recs = [] ∧ cmd_install fuel img = .done img .empty) := by
  by_cases hu : jhUsed img = JH_SIZE
  · right
    refine ⟨hu, ?_, cmd_install_of_empty (jh_read_of_journal hsz) hm hu⟩
    rw [hu] at hfr
    exact framed_self_nil recs hfr
  · left
    refine ⟨hu, ?_⟩
    rw [cmd_install_of_scan (jh_read_of_journal hsz) hm hu
      (replayScan_framed hsz hnb hfr hfuel)]

theorem committedData_targets :
    ∀ (recs : List Rec) (p : PendingWrite), p ∈ committedData recs →
      p.target_block ∈ dataTargets recs
  | [], _, h => by cases h
  | .data q :: rs, p, h => by
    unfold committedData at h
    unfold dataTargets
    by_cases hc : rs.any Rec.isCommit = true
    · rw [if_pos hc] at h
      rcases List.mem_cons.mp h with h | h
      · subst h; exact List.mem_cons_self _ _
      · exact List.mem_cons_of_mem _ (committedData_targets rs p h)
    · rw [if_neg hc] at h
      exact List.mem_cons_of_mem _ (committedData_targets rs p h)
  | .commit :: rs, p, h => by
    unfold committedData at h
    unfold dataTargets
    exact committedData_targets rs p h

theorem pendingWrite_eq_blockWrite (jm : Buf) {p : PendingWrite}
    (h : p.target_block < 1048576) : pendingWrite jm p = blockWrite jm p := by
  unfold pendingWrite blockWrite
  rw [blockOff_small h]
  rfl

theorem map_pendingWrite_eq (jm : Buf) {recs : List Rec}
    (h : ∀ t ∈ dataTargets recs, t < 1048576) :
    (committedData recs).map (pendingWrite jm) = (committedData recs).map (blockWrite jm) := by
  apply List.map_congr_left
  intro p hp
  exact pendingWrite_eq_blockWrite jm (h _ (committedData_targets recs p hp))

/-- The header reset changes nothing outside the journal region. -/
theorem reset_sameOutside (img : Image)
    (hsz : JOURNAL_BLOCK_IDX * BLOCK_SIZE + JH_SIZE ≤ img.size) :
    SameOutsideJournal (applyWrites img [resetWrite]) img := by
  constructor
  · show max img.size (JOURNAL_BLOCK_IDX * BLOCK_SIZE + JH_SIZE) = img.size
    exact max_eq_left hsz
  · intro p hp
    show (if JOURNAL_BLOCK_IDX * BLOCK_SIZE ≤ p ∧ p < JOURNAL_BLOCK_IDX * BLOCK_SIZE + JH_SIZE
      then _ else img.data p) = img.data p
    rw [if_neg]
    intro hcov
    apply hp
    unfold inJournal
    simp only [JOURNAL_BLOCK_IDX, BLOCK_SIZE, JOURNAL_BLOCKS, JH_SIZE] at *
    omega

theorem committedData_nil_of_no_commit :
    ∀ recs : List Rec, commitCount recs = 0 → committedData recs = []
  | [], _ => rfl
  | .data p :: rs, h => by
    rw [commitCount_data] at h
    unfold committedData
    have hany : ¬ rs.any Rec.isCommit = true := by
      intro ha
      obtain ⟨r, hr, hc⟩ := List.any_eq_true.mp ha
      have : r ∈ rs.filter Rec.isCommit := List.mem_filter.mpr ⟨hr, hc⟩
      unfold commitCount at h
      rw [List.length_eq_zero] at h
      rw [h] at this
      cases this
    rw [if_neg hany]
    exact committedData_nil_of_no_commit rs h
  | .commit :: rs, h => by
    rw [commitCount_commit] at h
    omega

theorem any_isCommit_eq_false_of_count :
    ∀ recs : List Rec, commitCount recs = 0 → recs.any Rec.isCommit = false
  | [], _ => rfl
  | .data p :: rs, h => by
    rw [commitCount_data] at h
    simp only [List.any_cons, Rec.isCommit, Bool.false_or]
    exact any_isCommit_eq_false_of_count rs h
  | .commit :: rs, h => by
    rw [commitCount_commit] at h
    omega

theorem committedData_append_tail (tail : List Rec) (ht : commitCount tail = 0) :
    ∀ pre : List Rec, committedData (pre ++ tail) = committedData pre
  | [] => committedData_nil_of_no_commit tail ht
  | .data p :: rs => by
    rw [List.cons_append]
    unfold committedData
    rw [committedData_append_tail tail ht rs, List.any_append,
      any_isCommit_eq_false_of_count tail ht, Bool.or_false]
  | .commit :: rs => by
    rw [List.cons_append]
    unfold committedData
    exact committedData_append_tail tail ht rs

theorem blockWrite_not_covers {jm : Buf} {p : PendingWrite} {b k : Nat}
    (hne : p.target_block ≠ b) (hk : k < BLOCK_SIZE) :
    ¬ ((blockWrite jm p).off ≤ b * BLOCK_SIZE + k ∧
      b * BLOCK_SIZE + k < (blockWrite jm p).off + (blockWrite jm p).count) := by
  show ¬ (p.target_block * BLOCK_SIZE ≤ b * BLOCK_SIZE + k ∧
    b * BLOCK_SIZE + k < p.target_block * BLOCK_SIZE + BLOCK_SIZE)
  simp only [BLOCK_SIZE] at *
  omega

/-! ## C6: replay applies exactly the committed transactions -/

/-- C6 (as amended): for every image that holds the whole journal region, with valid journal
magic, `nbytes_used ≤ 65536` and a well-framed record stream `recs` in `[8, nbytes_used)`
(every DATA record of size 4104, every COMMIT record of size 4) whose DATA targets are all
below `2 ^ 20`, `cmd_install` (given more iterations than there are records) completes, and
the blocks outside the journal region afterwards equal the result of writing, in stream
order, the 4096-byte payload of each DATA record that is followed by a later COMMIT record
to its target block; DATA records after the last COMMIT cause no write (the writes
performed are those of the stream before them), blocks outside the journal region targeted
by no committed DATA record are unchanged, and the reported transaction count equals the
number of COMMIT records (nothing is replayed and no count is reported when the journal is
empty). -/
theorem replay_applies_committed (img : Image) (recs : List Rec) (fuel : Nat)
    (hsz : JOURNAL_BLOCK_IDX * BLOCK_SIZE + JOURNAL_SIZE ≤ img.size)
    (hm : jhMagic img = JOURNAL_MAGIC) (hnb : jhUsed img ≤ 65536)
    (hfr : framed (journalMem img) (jhUsed img) JH_SIZE recs = true)
    (htgt : ∀ t ∈ dataTargets recs, t < 1048576)
    (hfuel : recs.length < fuel) :
    ∃ img' r, cmd_install fuel img = .done img' r ∧
      SameOutsideJournal img' (specReplay img recs) ∧
      (∀ pre tail, recs = pre ++ tail → commitCount tail = 0 →
        installTargetWrites fuel img = (committedData pre).map (blockWrite (journalMem img))) ∧
      (∀ b, ¬ inJournal (b * BLOCK_SIZE) → (∀ p ∈ committedData recs, p.target_block ≠ b) →
        ∀ k, k < BLOCK_SIZE → img'.data (b * BLOCK_SIZE + k) = img.data (b * BLOCK_SIZE + k)) ∧
      (r = .replayed (commitCount recs) ∨ (jhUsed img = JH_SIZE ∧ recs = [] ∧ r = .empty)) := by
  have hnb' : jhUsed img ≤ JOURNAL_SIZE := hnb
  have hW := map_pendingWrite_eq (journalMem img) htgt
  have htw := installTargetWrites_framed hsz hnb' hfr hfuel
  have htail : ∀ pre tail, recs = pre ++ tail → commitCount tail = 0 →
      installTargetWrites fuel img = (committedData pre).map (blockWrite (journalMem img)) := by
    intro pre tail he ht
    rw [htw, hW, he, committedData_append_tail tail ht pre]
  have hspec_size : JOURNAL_BLOCK_IDX * BLOCK_SIZE + JH_SIZE ≤ (specReplay img recs).size :=
    le_trans (jh_read_of_journal hsz) (applyWrites_size_le _ _)
  have hunch : ∀ b, (∀ p ∈ committedData recs, p.target_block ≠ b) →
      ∀ k, k < BLOCK_SIZE →
        (specReplay img recs).data (b * BLOCK_SIZE + k) = img.data (b * BLOCK_SIZE + k) := by
    intro b hb k hk
    apply applyWrites_data_of_not_covered
    intro w hw
    obtain ⟨p, hp, rfl⟩ := List.mem_map.mp hw
    exact blockWrite_not_covers (hb p hp) hk
  rcases cmd_install_framed hsz hm hnb' hfr hfuel with ⟨hu, hi⟩ | ⟨hu, hr, hi⟩
  · rw [hW, applyWrites_append] at hi
    have hso := reset_sameOutside (specReplay img recs) hspec_size
    refine ⟨_, _, hi, hso, htail, ?_, Or.inl rfl⟩
    intro b hbj hb k hk
    rw [← hunch b hb k hk]
    exact hso.2 _ (by
      unfold inJournal at *
      simp only [BLOCK_SIZE, JOURNAL_BLOCK_IDX, JOURNAL_BLOCKS] at *
      omega)
  · refine ⟨_, _, hi, ?_, htail, fun _ _ _ _ _ => rfl, Or.inr ⟨hu, hr, rfl⟩⟩
    rw [hr]
    exact sameOutside_refl _

/-- C6, witness: the image left by `cmd_create "hello"` on the freshly formatted image
carries the well-framed stream DATA 17, DATA 19, DATA 21, COMMIT, and `cmd_install`
replays it as one transaction. -/
theorem replay_applies_committed_witness :
    framed (journalMem helloStagedImage) (jhUsed helloStagedImage) JH_SIZE helloRecs = true ∧
    ∃ img', cmd_install 5 helloStagedImage = .done img' (.replayed 1) ∧
      SameOutsideJournal img' (specReplay helloStagedImage helloRecs) := by
  obtain ⟨img', r, h1, h2, -, -, h5⟩ :=
    replay_applies_committed helloStagedImage helloRecs 5 (by decide) (by decide) (by decide)
      (by decide) (by decide) (by decide)
  refine ⟨by decide, img', ?_, h2⟩
  rcases h5 with h5 | ⟨-, h5, -⟩
  · rw [h1, h5]; rfl
  · cases h5

/-- C6, counterexample to the claim as written: a well-framed journal whose one committed
DATA record targets block `2 ^ 20 + 21` (outside the journal region).  `cmd_install`
completes and block 21, which no DATA record targets, is changed (its byte 0 becomes 0xAB),
whereas writing the payload to the record's target block leaves block 21 alone. -/
theorem replay_wraps_far_target :
    jhMagic farTargetImage = JOURNAL_MAGIC ∧
    framed (journalMem farTargetImage) (jhUsed farTargetImage) JH_SIZE
      [.data ⟨1048597, 16⟩, .commit] = true ∧
    (cmd_install 5 farTargetImage).val? = some (.replayed 1) ∧
    (cmd_install 5 farTargetImage).image.data (21 * 4096) = 171 ∧
    farTargetImage.data (21 * 4096) = 0 ∧
    (specReplay farTargetImage [.data ⟨1048597, 16⟩, .commit]).data (21 * 4096) = 0 := by
  decide

/-! ## C7: replay after a partial replay -/

theorem journal_congr {a b : Image} (h : ∀ p, inJournal p → a.data p = b.data p) :
    journalMem a = journalMem b ∧ jhMagic a = jhMagic b ∧ jhUsed a = jhUsed b := by
  have hj : journalMem a = journalMem b := by
    funext k
    unfold journalMem bufAt
    by_cases hk : k < JOURNAL_SIZE
    · rw [if_pos hk, if_pos hk]
      apply h
      unfold inJournal
      simp only [JOURNAL_SIZE, JOURNAL_BLOCKS, BLOCK_SIZE, JOURNAL_BLOCK_IDX] at *
      omega
    · rw [if_neg hk, if_neg hk]
  have hh : bufAt a JH_SIZE (JOURNAL_BLOCK_IDX * BLOCK_SIZE)
      = bufAt b JH_SIZE (JOURNAL_BLOCK_IDX * BLOCK_SIZE) := by
    funext k
    unfold bufAt
    by_cases hk : k < JH_SIZE
    · rw [if_pos hk, if_pos hk]
      apply h
      unfold inJournal
      simp only [JH_SIZE, JOURNAL_BLOCKS, BLOCK_SIZE, JOURNAL_BLOCK_IDX] at *
      omega
    · rw [if_neg hk, if_neg hk]
  refine ⟨hj, ?_, ?_⟩
  · unfold jhMagic; rw [hh]
  · unfold jhUsed; rw [hh]

theorem pendingWrite_outside {jm : Buf} {p : PendingWrite}
    (h : p.target_block < 1048576 ∧
      ¬ (JOURNAL_BLOCK_IDX ≤ p.target_block ∧ p.target_block < JOURNAL_BLOCK_IDX + JOURNAL_BLOCKS))
    {q : Nat} (hq : inJournal q) :
    ¬ ((pendingWrite jm p).off ≤ q ∧ q < (pendingWrite jm p).off + (pendingWrite jm p).count) := by
  show ¬ (blockOff p.target_block ≤ q ∧ q < blockOff p.target_block + BLOCK_SIZE)
  rw [blockOff_small h.1]
  unfold inJournal at hq
  simp only [BLOCK_SIZE, JOURNAL_BLOCK_IDX, JOURNAL_BLOCKS] at *
  omega

/-- Replaying a well-framed journal again after any part of its target-block writes has
already been done ends in the same image as replaying it once. -/
theorem cmd_install_after_partial {img : Image} {recs : List Rec} {fuel : Nat} (k : Nat)
    (hsz : JOURNAL_BLOCK_IDX * BLOCK_SIZE + JOURNAL_SIZE ≤ img.size)
    (hm : jhMagic img = JOURNAL_MAGIC) (hnb : jhUsed img ≤ JOURNAL_SIZE)
    (hfr : framed (journalMem img) (jhUsed img) JH_SIZE recs = true)
    (htgt : ∀ t ∈ dataTargets recs, t < 1048576 ∧
      ¬ (JOURNAL_BLOCK_IDX ≤ t ∧ t < JOURNAL_BLOCK_IDX + JOURNAL_BLOCKS))
    (hfuel : recs.length < fuel) :
    ∃ img' r, cmd_install fuel img = .done img' r ∧
      cmd_install fuel (applyWrites img ((installTargetWrites fuel img).take k))
        = .done img' r := by
  rw [installTargetWrites_framed hsz hnb hfr hfuel]
  have hin : ∀ q, inJournal q →
      (applyWrites img (((committedData recs).map (pendingWrite (journalMem img))).take k)).data q
        = img.data q := by
    intro q hq
    apply applyWrites_data_of_not_covered
    intro w hw
    obtain ⟨p, hp, rfl⟩ := List.mem_map.mp (List.mem_of_mem_take hw)
    exact pendingWrite_outside (htgt _ (committedData_targets recs p hp)) hq
  obtain ⟨hj, hm', hu'⟩ := journal_congr hin
  have hsz' : JOURNAL_BLOCK_IDX * BLOCK_SIZE + JOURNAL_SIZE ≤
      (applyWrites img
        (((committedData recs).map (pendingWrite (journalMem img))).take k)).size :=
    le_trans hsz (applyWrites_size_le _ _)
  have hfr' := hfr
  rw [← hj, ← hu'] at hfr'
  rcases cmd_install_framed hsz hm hnb hfr hfuel with ⟨hu, hi⟩ | ⟨hu, hr, hi⟩
  · rcases cmd_install_framed hsz' (hm'.trans hm) (by rw [hu']; exact hnb) hfr' hfuel with
      ⟨-, hi'⟩ | ⟨hu2, -, -⟩
    · refine ⟨_, _, hi, ?_⟩
      rw [hi', hj, applyWrites_redo]
      intro v hv
      exact List.mem_append_left _ (List.mem_of_mem_take hv)
    · rw [hu'] at hu2
      exact absurd hu2 hu
  · subst hr
    refine ⟨_, _, hi, ?_⟩
    simp only [committedData, List.map_nil, List.take_nil, applyWrites_nil]
    exact hi

/-- C7 (as amended): for every image that holds the whole journal region, whose journal has
valid magic and a well-framed record stream within the region whose DATA records all target
blocks below `2 ^ 20` outside the journal region, and for every prefix of the sequence of
target-block writes that `cmd_install` performs before its header reset, applying only that
prefix and then running `cmd_install` to completion yields an image byte-identical to
running `cmd_install` once on the original image (and the same report). -/
theorem replay_partial_rerun (img : Image) (recs : List Rec) (fuel k : Nat)
    (hsz : JOURNAL_BLOCK_IDX * BLOCK_SIZE + JOURNAL_SIZE ≤ img.size)
    (hm : jhMagic img = JOURNAL_MAGIC) (hnb : jhUsed img ≤ 65536)
    (hfr : framed (journalMem img) (jhUsed img) JH_SIZE recs = true)
    (htgt : ∀ t ∈ dataTargets recs, t < 1048576 ∧
      ¬ (JOURNAL_BLOCK_IDX ≤ t ∧ t < JOURNAL_BLOCK_IDX + JOURNAL_BLOCKS))
    (hfuel : recs.length < fuel) :
    ∃ img' r, cmd_install fuel img = .done img' r ∧
      cmd_install fuel (applyWrites img ((installTargetWrites fuel img).take k))
        = .done img' r :=
  cmd_install_after_partial k hsz hm hnb hfr htgt hfuel

/-- C7, witness: on the image left by `cmd_create "hello"` on the freshly formatted image,
replaying after two of the three target-block writes have been done gives the image of a
single replay. -/
theorem replay_partial_rerun_witness :
    framed (journalMem helloStagedImage) (jhUsed helloStagedImage) JH_SIZE helloRecs = true ∧
    ∃ img' r, cmd_install 5 helloStagedImage = .done img' r ∧
      cmd_install 5 (applyWrites helloStagedImage
        ((installTargetWrites 5 helloStagedImage).take 2)) = .done img' r :=
  ⟨by decide,
    replay_partial_rerun helloStagedImage helloRecs 5 2 (by decide) (by decide) (by decide)
      (by decide) (by decide) (by decide)⟩

/-- C7, counterexample to the claim as written: a well-framed journal with two committed
transactions whose DATA records target blocks `2 ^ 20 + 1` and 21, both outside the journal
region.  The first target-block write lands on block 1 and wipes the journal header, so a
rerun after it reports "not initialized" and never writes block 21, whereas a single replay
does (byte 0 of block 21 becomes 0xAB). -/
theorem replay_rerun_differs_on_wrapped_target :
    jhMagic wrapIntoJournalImage = JOURNAL_MAGIC ∧
    framed (journalMem wrapIntoJournalImage) (jhUsed wrapIntoJournalImage) JH_SIZE
      [.data ⟨1048577, 16⟩, .commit, .data ⟨21, 4124⟩, .commit] = true ∧
    (cmd_install 9 wrapIntoJournalImage).val? = some (.replayed 2) ∧
    (cmd_install 9 wrapIntoJournalImage).image.data (21 * 4096) = 171 ∧
    (cmd_install 9 (applyWrites wrapIntoJournalImage
      ((installTargetWrites 9 wrapIntoJournalImage).take 1))).val? = some .notInitialized ∧
    (cmd_install 9 (applyWrites wrapIntoJournalImage
      ((installTargetWrites 9 wrapIntoJournalImage).take 1))).image.data (21 * 4096) = 0 := by
  decide

/-! ## The journal after a stage -/

theorem journalMem_apply {img : Image} {k : Nat} (hk : k < JOURNAL_SIZE) :
    journalMem img k = img.data (4096 + k) := by
  unfold journalMem bufAt
  rw [if_pos hk]
  rfl

/-- After a successful stage on a journal with `nbytes_used = u ≥ 8`, the journal bytes
`[u, u + 12316)` hold the transaction and the bytes `[8, u)` are as before. -/
theorem journal_after_stage {img : Image} {filename : List Byte} {i sl : Nat} (ctime mtime : Nat)
    (hc : StageCond img filename i sl) (hu : JH_SIZE ≤ effUsed img) :
    (∀ k, k < txn_size →
      journalMem (applyWrites img (txnWrites (stagedOf img filename ctime mtime i sl)))
          (effUsed img + k)
        = txnBytes (stagedOf img filename ctime mtime i sl) k) ∧
    (∀ j, JH_SIZE ≤ j → j < effUsed img →
      journalMem (applyWrites img (txnWrites (stagedOf img filename ctime mtime i sl))) j
        = journalMem img j) := by
  have hroom := hc.room
  simp only [txn_size, journal_capacity, data_rec_size, commit_rec_size, RH_SIZE, BLOCK_SIZE,
    JOURNAL_BLOCKS, JH_SIZE] at hroom hu
  have hsu : (stagedOf img filename ctime mtime i sl).nbytes_used = effUsed img := rfl
  have hmod : (4096 + effUsed img) % U32 = 4096 + effUsed img := by
    simp only [U32]; omega
  constructor
  · intro k hk
    simp only [txn_size, data_rec_size, commit_rec_size, RH_SIZE, BLOCK_SIZE] at hk
    rw [journalMem_apply (by simp only [JOURNAL_SIZE, JOURNAL_BLOCKS, BLOCK_SIZE]; omega),
      txn_data, hsu, hmod]
    simp only [txnBytes, data_rec_size, RH_SIZE, BLOCK_SIZE]
    rw [if_neg (by omega)]
    by_cases h1 : k < 4104
    · rw [if_neg (by omega), if_neg (by omega), if_neg (by omega), if_pos (by omega),
        if_pos (by omega)]
      refine congrArg _ ?_
      omega
    by_cases h2 : k < 8208
    · rw [if_neg (by omega), if_neg (by omega), if_pos (by omega),
        if_neg (by omega), if_pos (by omega)]
      refine congrArg _ ?_
      omega
    by_cases h3 : k < 12312
    · rw [if_neg (by omega), if_pos (by omega),
        if_neg (by omega), if_neg (by omega), if_pos (by omega)]
      refine congrArg _ ?_
      omega
    · rw [if_pos (by omega), if_neg (by omega), if_neg (by omega), if_neg (by omega)]
      refine congrArg _ ?_
      omega
  · intro j hj1 hj2
    simp only [JH_SIZE] at hj1
    rw [journalMem_apply (by simp only [JOURNAL_SIZE, JOURNAL_BLOCKS, BLOCK_SIZE]; omega),
      journalMem_apply (by simp only [JOURNAL_SIZE, JOURNAL_BLOCKS, BLOCK_SIZE]; omega),
      txn_data, hsu, hmod]
    rw [if_neg (by omega), if_neg (by omega), if_neg (by omega), if_neg (by omega),
      if_neg (by omega)]

theorem dataRecord_fields {jm : Buf} {off t : Nat} {d : Buf}
    (h : ∀ k, k < data_rec_size → jm (off + k) = dataRecord t d k) :
    rd16 jm off = REC_DATA ∧ rd16 jm (off + 2) = data_rec_size ∧
    rd32 jm (off + RH_SIZE) = t % U32 ∧
    ∀ k, k < BLOCK_SIZE → jm (off + RH_SIZE + 4 + k) = d k := by
  simp only [data_rec_size, RH_SIZE, BLOCK_SIZE] at *
  refine ⟨?_, ?_, ?_, ?_⟩
  · have e : rd16 jm off = REC_DATA % 65536 := by
      apply rd16_of_bytes
      intro k hk
      rw [h k (by omega)]
      unfold dataRecord
      rw [if_pos hk]
    rw [e]; decide
  · have e : rd16 jm (off + 2) = data_rec_size % 65536 := by
      apply rd16_of_bytes
      intro k hk
      rw [Nat.add_assoc, h (2 + k) (by omega)]
      unfold dataRecord
      rw [if_neg (by omega), if_pos (by omega)]
      refine congrArg _ ?_
      omega
    rw [e]; decide
  · apply rd32_of_bytes
    intro k hk
    rw [Nat.add_assoc, h (4 + k) (by omega)]
    unfold dataRecord
    rw [if_neg (by omega), if_neg (by omega), if_pos (by omega)]
    refine congrArg _ ?_
    omega
  · intro k hk
    rw [Nat.add_assoc, Nat.add_assoc, h (4 + (4 + k)) (by omega)]
    unfold dataRecord
    simp only [BLOCK_SIZE]
    rw [if_neg (by omega), if_neg (by omega), if_neg (by omega), if_pos (by omega)]
    refine congrArg _ ?_
    omega

theorem commitRecord_fields {jm : Buf} {off : Nat}
    (h : ∀ k, k < RH_SIZE → jm (off + k) = commitRecord k) :
    rd16 jm off = REC_COMMIT ∧ rd16 jm (off + 2) = RH_SIZE := by
  simp only [RH_SIZE] at *
  constructor
  · have e : rd16 jm off = REC_COMMIT % 65536 := by
      apply rd16_of_bytes
      intro k hk
      rw [h k (by omega)]
      unfold commitRecord
      rw [if_pos hk]
    rw [e]; decide
  · have e : rd16 jm (off + 2) = RH_SIZE % 65536 := by
      apply rd16_of_bytes
      intro k hk
      rw [Nat.add_assoc, h (2 + k) (by omega)]
      unfold commitRecord
      rw [if_neg (by omega), if_pos (by omega)]
      refine congrArg _ ?_
      omega
    rw [e]; decide

/-- The records of a staged transaction, once in the journal at offset `u`, form a
well-framed stream from `u` to `u + txn_size`. -/
theorem txn_framed {jm : Buf} {s : Staged} {u : Nat}
    (h : ∀ k, k < txn_size → jm (u + k) = txnBytes s k)
    (ht : s.target_inode_blk_idx < U32) (hr : s.root_data_blk_idx < U32) :
    framed jm (u + txn_size) u (txnRecs s u) = true := by
  have h1 : ∀ k, k < data_rec_size → jm (u + k) = dataRecord INODE_BMAP_IDX s.inode_bitmap k := by
    intro k hk
    rw [h k (by simp only [txn_size, data_rec_size, commit_rec_size, RH_SIZE, BLOCK_SIZE] at *
                omega)]
    unfold txnBytes
    rw [if_pos hk]
  have h2 : ∀ k, k < data_rec_size → jm (u + data_rec_size + k) =
      dataRecord s.target_inode_blk_idx s.target_inode_block k := by
    intro k hk
    rw [Nat.add_assoc, h (data_rec_size + k)
      (by simp only [txn_size, data_rec_size, commit_rec_size, RH_SIZE, BLOCK_SIZE] at *
          omega)]
    unfold txnBytes
    rw [if_neg (by omega), if_pos (by omega)]
    refine congrArg _ ?_
    omega
  have h3 : ∀ k, k < data_rec_size → jm (u + data_rec_size + data_rec_size + k) =
      dataRecord s.root_data_blk_idx s.root_data_block k := by
    intro k hk
    rw [Nat.add_assoc, Nat.add_assoc, h (data_rec_size + (data_rec_size + k))
      (by simp only [txn_size, data_rec_size, commit_rec_size, RH_SIZE, BLOCK_SIZE] at *
          omega)]
    unfold txnBytes
    rw [if_neg (by omega), if_neg (by omega), if_pos (by omega)]
    refine congrArg _ ?_
    omega
  have h4 : ∀ k, k < RH_SIZE → jm (u + data_rec_size + data_rec_size + data_rec_size + k) =
      commitRecord k := by
    intro k hk
    rw [Nat.add_assoc, Nat.add_assoc, Nat.add_assoc,
      h (data_rec_size + (data_rec_size + (data_rec_size + k)))
      (by simp only [txn_size, data_rec_size, commit_rec_size, RH_SIZE, BLOCK_SIZE] at *
          omega)]
    unfold txnBytes
    rw [if_neg (by omega), if_neg (by omega), if_neg (by omega)]
    refine congrArg _ ?_
    omega
  obtain ⟨a1, a2, a3, -⟩ := dataRecord_fields h1
  obtain ⟨b1, b2, b3, -⟩ := dataRecord_fields h2
  obtain ⟨c1, c2, c3, -⟩ := dataRecord_fields h3
  obtain ⟨d1, d2⟩ := commitRecord_fields h4
  rw [Nat.mod_eq_of_lt ht] at b3
  rw [Nat.mod_eq_of_lt hr] at c3
  rw [show INODE_BMAP_IDX % U32 = INODE_BMAP_IDX from by decide] at a3
  simp only [txnRecs, framed, Bool.and_eq_true, decide_eq_true_eq]
  refine ⟨⟨a1, a2, a3.symm, ?_⟩, ⟨b1, b2, b3.symm, ?_⟩, ⟨c1, c2, c3.symm, ?_⟩, ⟨d1, d2⟩, ?_⟩
  all_goals
    simp only [txn_size, data_rec_size, commit_rec_size, RH_SIZE, BLOCK_SIZE]

/-- The byte at `p` after a sequence of writes is the one put there by a write covering
`p` that no later write covers. -/
theorem applyWrites_data_last {p : Nat} {w : Write} (ws₁ ws₂ : List Write) (img : Image)
    (hcov : w.off ≤ p ∧ p < w.off + w.count)
    (hlater : ∀ v ∈ ws₂, ¬ (v.off ≤ p ∧ p < v.off + v.count)) :
    (applyWrites img (ws₁ ++ w :: ws₂)).data p = w.src (p - w.off) := by
  rw [applyWrites_append, applyWrites_cons, applyWrites_data_of_not_covered ws₂ _ hlater]
  unfold applyWrite
  rw [pwrite_data, if_pos hcov]

theorem stagedOf_bounds (img : Image) (filename : List Byte) (ctime mtime i sl : Nat) :
    (stagedOf img filename ctime mtime i sl).target_inode_blk_idx = inodeBlk i ∧
    (stagedOf img filename ctime mtime i sl).root_data_blk_idx = rootBlk img ∧
    inodeBlk i < U32 ∧ rootBlk img < U32 :=
  ⟨rfl, rfl, Nat.mod_lt _ (by decide), rd32_lt _ _⟩

/-! ## One stage followed by a replay -/

theorem resetWrite_off : resetWrite.off = 4096 := rfl

theorem resetWrite_count : resetWrite.count = 8 := rfl

theorem resetWrite_src : resetWrite.src = headerBytes JOURNAL_MAGIC JH_SIZE := rfl

theorem pendingWrite_off (jm : Buf) (t d : Nat) :
    (pendingWrite jm ⟨t, d⟩).off = blockOff t := rfl

theorem pendingWrite_count (jm : Buf) (p : PendingWrite) : (pendingWrite jm p).count = 4096 := rfl

theorem pendingWrite_src (jm : Buf) (t d : Nat) :
    (pendingWrite jm ⟨t, d⟩).src = payloadAt jm d := rfl

theorem stage_size {img : Image} {filename : List Byte} {i sl : Nat} (hc : StageCond img filename i sl) :
    JOURNAL_BLOCK_IDX * BLOCK_SIZE + JOURNAL_SIZE ≤ img.size := by
  have h := hc.bm_read
  rw [blockOff_small (by simp only [INODE_BMAP_IDX]; omega)] at h
  simp only [INODE_BMAP_IDX, BLOCK_SIZE, JOURNAL_BLOCK_IDX, JOURNAL_SIZE, JOURNAL_BLOCKS] at *
  omega

/-- The payloads of the three DATA records of a transaction staged at journal offset `u`
are the three new block images. -/
theorem txn_payloads {jm : Buf} {s : Staged} {u : Nat}
    (h : ∀ k, k < txn_size → jm (u + k) = txnBytes s k) :
    (∀ k, k < BLOCK_SIZE → payloadAt jm (u + 8) k = s.inode_bitmap k) ∧
    (∀ k, k < BLOCK_SIZE → payloadAt jm (u + data_rec_size + 8) k = s.target_inode_block k) ∧
    (∀ k, k < BLOCK_SIZE → payloadAt jm (u + 2 * data_rec_size + 8) k = s.root_data_block k) := by
  simp only [txn_size, data_rec_size, commit_rec_size, RH_SIZE, BLOCK_SIZE] at *
  refine ⟨?_, ?_, ?_⟩
  · intro k hk
    unfold payloadAt
    simp only [BLOCK_SIZE]
    rw [if_pos hk, Nat.add_assoc, h (8 + k) (by omega)]
    simp only [txnBytes, dataRecord, data_rec_size, RH_SIZE, BLOCK_SIZE]
    rw [if_pos (by omega), if_neg (by omega), if_neg (by omega), if_neg (by omega),
      if_pos (by omega)]
    refine congrArg _ ?_
    omega
  · intro k hk
    unfold payloadAt
    simp only [BLOCK_SIZE]
    rw [if_pos hk, Nat.add_assoc, Nat.add_assoc, h (4 + 4 + 4096 + (8 + k)) (by omega)]
    simp only [txnBytes, dataRecord, data_rec_size, RH_SIZE, BLOCK_SIZE]
    rw [if_neg (by omega), if_pos (by omega), if_neg (by omega), if_neg (by omega),
      if_neg (by omega), if_pos (by omega)]
    refine congrArg _ ?_
    omega
  · intro k hk
    unfold payloadAt
    simp only [BLOCK_SIZE]
    rw [if_pos hk, Nat.add_assoc, Nat.add_assoc, h (2 * (4 + 4 + 4096) + (8 + k)) (by omega)]
    simp only [txnBytes, dataRecord, data_rec_size, RH_SIZE, BLOCK_SIZE]
    rw [if_neg (by omega), if_neg (by omega), if_pos (by omega), if_neg (by omega),
      if_neg (by omega), if_neg (by omega), if_pos (by omega)]
    refine congrArg _ ?_
    omega

theorem applyWrites4_data (img : Image) (w1 w2 w3 w4 : Write) (p : Nat) :
    (applyWrites img [w1, w2, w3, w4]).data p =
      if w4.off ≤ p ∧ p < w4.off + w4.count then w4.src (p - w4.off)
      else if w3.off ≤ p ∧ p < w3.off + w3.count then w3.src (p - w3.off)
      else if w2.off ≤ p ∧ p < w2.off + w2.count then w2.src (p - w2.off)
      else if w1.off ≤ p ∧ p < w1.off + w1.count then w1.src (p - w1.off)
      else img.data p := by
  simp only [applyWrites, List.foldl, applyWrite, pwrite_data]

/-- One stage on an absent or empty journal followed by a replay: the replay completes
with one transaction, and the resulting image is the staged image overlaid, in this order,
with the new inode bitmap at block 17, the new inode-table block, the new root directory
block and the reset journal header. -/
theorem stage_then_install {img : Image} {filename : List Byte} {i sl : Nat}
    (ctime mtime : Nat) {fuel : Nat}
    (hc : StageCond img filename i sl) (hu : effUsed img = JH_SIZE) (hfuel : 4 < fuel) :
    ∃ img2,
      cmd_install fuel (applyWrites img (txnWrites (stagedOf img filename ctime mtime i sl)))
        = .done img2 (.replayed 1) ∧
      ∀ p, img2.data p =
        if 4096 ≤ p ∧ p < 4096 + 8 then headerBytes JOURNAL_MAGIC JH_SIZE (p - 4096)
        else if blockOff (rootBlk img) ≤ p ∧ p < blockOff (rootBlk img) + 4096 then
          (stagedOf img filename ctime mtime i sl).root_data_block (p - blockOff (rootBlk img))
        else if blockOff (inodeBlk i) ≤ p ∧ p < blockOff (inodeBlk i) + 4096 then
          (stagedOf img filename ctime mtime i sl).target_inode_block (p - blockOff (inodeBlk i))
        else if 69632 ≤ p ∧ p < 69632 + 4096 then
          (stagedOf img filename ctime mtime i sl).inode_bitmap (p - 69632)
        else (applyWrites img (txnWrites (stagedOf img filename ctime mtime i sl))).data p := by
  have hd := cmd_create_of_cond ctime mtime hc
  have hj := jh_after_create hd
  have hso := stage_sameOutside ctime mtime hc
  have hjs := journal_after_stage ctime mtime hc (le_of_eq hu.symm)
  obtain ⟨-, -, hb1, hb2⟩ := stagedOf_bounds img filename ctime mtime i sl
  rw [hu] at hj hjs
  have hfr := txn_framed hjs.1 hb1 hb2
  have hpay := txn_payloads hjs.1
  have hsz : JOURNAL_BLOCK_IDX * BLOCK_SIZE + JOURNAL_SIZE ≤
      (applyWrites img (txnWrites (stagedOf img filename ctime mtime i sl))).size := by
    rw [hso.1]; exact stage_size hc
  have hfr' : framed
      (journalMem (applyWrites img (txnWrites (stagedOf img filename ctime mtime i sl))))
      (jhUsed (applyWrites img (txnWrites (stagedOf img filename ctime mtime i sl)))) JH_SIZE
      (txnRecs (stagedOf img filename ctime mtime i sl) JH_SIZE) = true := by
    rw [hj.2]; exact hfr
  rcases cmd_install_framed hsz hj.1 (by rw [hj.2]; decide) hfr' hfuel with
    ⟨-, hi⟩ | ⟨hu2, -, -⟩
  swap
  · rw [hj.2] at hu2
    exact absurd hu2 (by decide)
  refine ⟨_, hi, ?_⟩
  intro p
  have hcd : committedData (txnRecs (stagedOf img filename ctime mtime i sl) JH_SIZE) =
      [⟨INODE_BMAP_IDX, JH_SIZE + 8⟩,
       ⟨(stagedOf img filename ctime mtime i sl).target_inode_blk_idx,
         JH_SIZE + data_rec_size + 8⟩,
       ⟨(stagedOf img filename ctime mtime i sl).root_data_blk_idx,
         JH_SIZE + 2 * data_rec_size + 8⟩] := by
    simp [txnRecs, committedData, Rec.isCommit]
  rw [hcd]
  simp only [List.map, List.cons_append, List.nil_append]
  rw [applyWrites4_data]
  rw [resetWrite_off, resetWrite_count, resetWrite_src]
  rw [pendingWrite_off, pendingWrite_off, pendingWrite_off, pendingWrite_count,
    pendingWrite_count, pendingWrite_count, pendingWrite_src, pendingWrite_src,
    pendingWrite_src]
  have e17 : blockOff INODE_BMAP_IDX = 69632 := by decide
  have er : (stagedOf img filename ctime mtime i sl).root_data_blk_idx = rootBlk img := rfl
  have et : (stagedOf img filename ctime mtime i sl).target_inode_blk_idx = inodeBlk i := rfl
  rw [er, et, e17]
  simp only [BLOCK_SIZE] at hpay
  by_cases h1 : 4096 ≤ p ∧ p < 4096 + 8
  · rw [if_pos h1, if_pos h1]
  rw [if_neg h1, if_neg h1]
  by_cases h2 : blockOff (rootBlk img) ≤ p ∧ p < blockOff (rootBlk img) + 4096
  · rw [if_pos h2, if_pos h2]
    exact hpay.2.2 _ (by omega)
  rw [if_neg h2, if_neg h2]
  by_cases h3 : blockOff (inodeBlk i) ≤ p ∧ p < blockOff (inodeBlk i) + 4096
  · rw [if_pos h3, if_pos h3]
    exact hpay.2.1 _ (by omega)
  rw [if_neg h3, if_neg h3]
  by_cases h4 : 69632 ≤ p ∧ p < 69632 + 4096
  · rw [if_pos h4, if_pos h4]
    exact hpay.1 _ (by omega)
  rw [if_neg h4, if_neg h4]

/-! ## Bits, inodes and directory entries -/

theorem scanDirents_found {entries : Buf} :
    ∀ (n j : Nat) {sl : Nat}, scanDirents entries n j = some sl →
      j ≤ sl ∧ sl < j + n ∧ entries (sl * DIRENT_SIZE + 4) = 0 ∧
      ∀ k, j ≤ k → k < sl → entries (k * DIRENT_SIZE + 4) ≠ 0
  | 0, _, _, h => by cases h
  | n + 1, j, sl, h => by
    unfold scanDirents at h
    by_cases h1 : entries (j * DIRENT_SIZE + 4) = 0
    · rw [if_pos h1] at h
      cases h
      exact ⟨le_refl _, by omega, h1, fun k hk1 hk2 => by omega⟩
    · rw [if_neg h1] at h
      obtain ⟨ha, hb, hc, hd⟩ := scanDirents_found n (j + 1) h
      refine ⟨by omega, by omega, hc, ?_⟩
      intro k hk1 hk2
      by_cases hkj : k = j
      · rw [hkj]; exact h1
      · exact hd k (by omega) hk2

theorem byteOf_zero (k : Nat) : byteOf 0 k = 0 := by
  apply Fin.ext
  simp [byteOf_val]

theorem memset0_at {blk : Buf} {o n k : Nat} (h : o ≤ k ∧ k < o + n) : memset0 blk o n k = 0 := by
  unfold memset0
  rw [if_pos h]

theorem wr32_at {blk : Buf} {o v k : Nat} (h : o ≤ k ∧ k < o + 4) :
    wr32 blk o v k = byteOf v (k - o) := by
  unfold wr32
  rw [if_pos h]

theorem wr16_at {blk : Buf} {o v k : Nat} (h : o ≤ k ∧ k < o + 2) :
    wr16 blk o v k = byteOf v (k - o) := by
  unfold wr16
  rw [if_pos h]

/-- The bytes of a freshly initialised inode: `type = 1`, `links = 1`, and zeros from the
`size` field up to `ctime`. -/
theorem initInode_bytes (blk : Buf) (o ctime mtime : Nat) :
    (∀ k, k < 2 → initInode blk o ctime mtime (o + k) = byteOf 1 k) ∧
    (∀ k, k < 2 → initInode blk o ctime mtime (o + 2 + k) = byteOf 1 k) ∧
    (∀ k, 4 ≤ k → k < 40 → initInode blk o ctime mtime (o + k) = 0) ∧
    (∀ k, ¬ (o ≤ k ∧ k < o + INODE_SIZE) → initInode blk o ctime mtime k = blk k) := by
  unfold initInode
  simp only [INODE_SIZE]
  refine ⟨?_, ?_, ?_, ?_⟩
  · intro k hk
    rw [wr32_of_not_covered (by omega), wr32_of_not_covered (by omega),
      wr32_of_not_covered (by omega), wr16_of_not_covered (by omega), wr16_at (by omega)]
    refine congrArg _ ?_
    omega
  · intro k hk
    rw [wr32_of_not_covered (by omega), wr32_of_not_covered (by omega),
      wr32_of_not_covered (by omega), wr16_at (by omega)]
    refine congrArg _ ?_
    omega
  · intro k hk1 hk2
    rw [wr32_of_not_covered (by omega), wr32_of_not_covered (by omega)]
    by_cases h8 : k < 8
    · rw [wr32_at (by omega), byteOf_zero]
    · rw [wr32_of_not_covered (by omega), wr16_of_not_covered (by omega),
        wr16_of_not_covered (by omega), memset0_at (by omega)]
  · intro k hk
    rw [wr32_of_not_covered (by omega), wr32_of_not_covered (by omega),
      wr32_of_not_covered (by omega), wr16_of_not_covered (by omega),
      wr16_of_not_covered (by omega)]
    unfold memset0
    rw [if_neg hk]

theorem growRoot_of_not_size (blk : Buf) (tgt sl : Nat) {k : Nat} (h : ¬ (4 ≤ k ∧ k < 4 + 4)) :
    growRoot blk tgt sl k = blk k := by
  unfold growRoot
  by_cases h1 : tgt = INODE_START_IDX
  · rw [if_pos h1]
    by_cases h2 : rd32 blk 4 < (sl + 1) * DIRENT_SIZE % U32
    · rw [if_pos h2, wr32_of_not_covered h]
    · rw [if_neg h2]
  · rw [if_neg h1]

theorem blockAt_apply (img : Image) {idx k : Nat} (hk : k < 4096) :
    blockAt img idx k = img.data (blockOff idx + k) := by
  unfold blockAt bufAt
  rw [if_pos (show k < BLOCK_SIZE from hk)]

theorem effUsed_of_absent_or_empty {img : Image}
    (hj : jhMagic img ≠ JOURNAL_MAGIC ∨ jhUsed img = JH_SIZE) : effUsed img = JH_SIZE := by
  unfold effUsed
  rcases hj with h | h
  · rw [if_pos h]
  · by_cases hm : jhMagic img ≠ JOURNAL_MAGIC
    · rw [if_pos hm]
    · rw [if_neg hm, h]

/-- The blocks of the image after one stage and a replay, for a 64-inode table and a root
directory block among the data blocks: block 17 is the new bitmap, the inode-table block of
the new inode and the root directory block are the staged ones, and the first inode-table
block is untouched when the new inode lives in the second. -/
theorem installed_blocks {img img2 : Image} {filename : List Byte} {i sl ctime mtime : Nat}
    (hc : StageCond img filename i sl) (hi : i < 64)
    (hroot : DATA_START_IDX ≤ rootBlk img ∧ rootBlk img < TOTAL_BLOCKS)
    (hdata : ∀ p, img2.data p =
        if 4096 ≤ p ∧ p < 4096 + 8 then headerBytes JOURNAL_MAGIC JH_SIZE (p - 4096)
        else if blockOff (rootBlk img) ≤ p ∧ p < blockOff (rootBlk img) + 4096 then
          (stagedOf img filename ctime mtime i sl).root_data_block (p - blockOff (rootBlk img))
        else if blockOff (inodeBlk i) ≤ p ∧ p < blockOff (inodeBlk i) + 4096 then
          (stagedOf img filename ctime mtime i sl).target_inode_block (p - blockOff (inodeBlk i))
        else if 69632 ≤ p ∧ p < 69632 + 4096 then
          (stagedOf img filename ctime mtime i sl).inode_bitmap (p - 69632)
        else (applyWrites img (txnWrites (stagedOf img filename ctime mtime i sl))).data p) :
    (∀ k, k < 4096 → blockAt img2 INODE_BMAP_IDX k
      = (stagedOf img filename ctime mtime i sl).inode_bitmap k) ∧
    (∀ k, k < 4096 → blockAt img2 (inodeBlk i) k
      = (stagedOf img filename ctime mtime i sl).target_inode_block k) ∧
    (∀ k, k < 4096 → blockAt img2 (rootBlk img) k
      = (stagedOf img filename ctime mtime i sl).root_data_block k) ∧
    (inodeBlk i ≠ INODE_START_IDX → ∀ k, k < 4096 →
      blockAt img2 INODE_START_IDX k = blockAt img INODE_START_IDX k) := by
  have hso := stage_sameOutside ctime mtime hc
  have e17 : blockOff INODE_BMAP_IDX = 69632 := by decide
  have e19 : blockOff INODE_START_IDX = 77824 := by decide
  have hib : inodeBlk i = 19 + i / 32 := by
    unfold inodeBlk
    simp only [INODE_START_IDX, BLOCK_SIZE, INODE_SIZE, U32]
    omega
  have hbt : blockOff (inodeBlk i) = (19 + i / 32) * 4096 := by
    rw [hib, blockOff_small (by omega)]
  have hbr : blockOff (rootBlk img) = rootBlk img * 4096 := by
    simp only [TOTAL_BLOCKS] at hroot
    rw [blockOff_small (by omega)]
  simp only [DATA_START_IDX, TOTAL_BLOCKS] at hroot
  refine ⟨?_, ?_, ?_, ?_⟩
  · intro k hk
    rw [blockAt_apply _ hk, hdata, e17, if_neg (by omega), if_neg (by omega),
      if_neg (by omega), if_pos (by omega)]
    refine congrArg _ ?_
    omega
  · intro k hk
    rw [blockAt_apply _ hk, hdata, if_neg (by omega), if_neg (by omega), if_pos (by omega)]
    refine congrArg _ ?_
    omega
  · intro k hk
    rw [blockAt_apply _ hk, hdata, if_neg (by omega), if_pos (by omega)]
    refine congrArg _ ?_
    omega
  · intro hne k hk
    have hi32 : 32 ≤ i := by
      by_contra hlt
      apply hne
      rw [hib]
      simp only [INODE_START_IDX]
      omega
    rw [blockAt_apply _ hk, blockAt_apply _ hk, hdata, e19, if_neg (by omega),
      if_neg (by omega), if_neg (by omega), if_neg (by omega)]
    apply hso.2
    unfold inJournal
    simp only [JOURNAL_BLOCK_IDX, BLOCK_SIZE, JOURNAL_BLOCKS]
    omega

/-- The root-size update touches nothing of a new inode that is not the root inode. -/
theorem growRoot_at_inode (blk : Buf) (sl : Nat) {i x : Nat} (hi1 : 1 ≤ i) (hi : i < 64)
    (hx : i % 32 * 128 ≤ x ∨ 8 ≤ x) : growRoot blk (inodeBlk i) sl x = blk x := by
  by_cases h19 : inodeBlk i = INODE_START_IDX
  · apply growRoot_of_not_size
    have : i < 32 := by
      unfold inodeBlk at h19
      simp only [INODE_START_IDX, BLOCK_SIZE, INODE_SIZE, U32] at h19
      omega
    omega
  · unfold growRoot
    rw [if_neg h19]

/-! ## C2: the header write is the commit point -/

theorem createWrites_of_cond {img : Image} {filename : List Byte} {i sl : Nat}
    (ctime mtime : Nat) (hc : StageCond img filename i sl) :
    createWrites img filename ctime mtime =
      txnWrites (stagedOf img filename ctime mtime i sl) := by
  unfold createWrites
  rw [stage_ok_iff.mpr ⟨i, sl, hc, rfl⟩]

/-- The record writes of a staged transaction (all but the header write) lie in the journal
bytes `[u, u + txn_size)`, where `u` is the `nbytes_used` the stage started from. -/
theorem txnWrites_records_range {s : Staged} (hroom : s.nbytes_used + txn_size ≤ journal_capacity)
    {k : Nat} (hk : k < 5) :
    ∀ w ∈ (txnWrites s).take k, 4096 + s.nbytes_used ≤ w.off ∧
      w.off + w.count ≤ 4096 + s.nbytes_used + txn_size := by
  intro w hw
  simp only [txn_size, journal_capacity, data_rec_size, commit_rec_size, RH_SIZE, BLOCK_SIZE,
    JOURNAL_BLOCKS] at hroom ⊢
  have hmod : (JOURNAL_BLOCK_IDX * BLOCK_SIZE + s.nbytes_used) % U32
      = 4096 + s.nbytes_used := by
    simp only [JOURNAL_BLOCK_IDX, BLOCK_SIZE, U32]
    omega
  have hsub : w ∈ (txnWrites s).take 4 := by
    have hkk : k ≤ 4 := by omega
    exact List.take_subset_take_left _ hkk hw
  simp only [txnWrites, hmod, List.take, List.mem_cons, List.mem_singleton, List.not_mem_nil,
    or_false] at hsub
  rcases hsub with h | h | h | h <;> subst h <;>
    simp only [data_rec_size, RH_SIZE, BLOCK_SIZE] <;> omega

/-- A well-framed stream stays well-framed when the journal bytes from its start up to
`nbytes_used` are the same. -/
theorem framed_congr {jm jm' : Buf} {nb : Nat} :
    ∀ (recs : List Rec) (off : Nat), framed jm nb off recs = true →
      (∀ j, off ≤ j → j < nb → jm' j = jm j) → framed jm' nb off recs = true
  | [], _, h, _ => h
  | .data p :: rs, off, h, hag => by
    unfold framed at h ⊢
    rw [Bool.and_eq_true] at h ⊢
    obtain ⟨h1, h2⟩ := h
    have hle := framed_le rs _ h2
    simp only [data_rec_size, RH_SIZE, BLOCK_SIZE] at hle
    refine ⟨?_, framed_congr rs _ h2 (fun j hj1 hj2 => hag j (by omega) hj2)⟩
    have e1 : rd16 jm' off = rd16 jm off :=
      rd16_congr (fun k hk => hag _ (by omega) (by omega))
    have e2 : rd16 jm' (off + 2) = rd16 jm (off + 2) :=
      rd16_congr (fun k hk => hag _ (by omega) (by omega))
    have e3 : rd32 jm' (off + RH_SIZE) = rd32 jm (off + RH_SIZE) :=
      rd32_congr (fun k hk => hag _ (by omega) (by simp only [RH_SIZE]; omega))
    rw [e1, e2, e3]
    exact h1
  | .commit :: rs, off, h, hag => by
    unfold framed at h ⊢
    rw [Bool.and_eq_true] at h ⊢
    obtain ⟨h1, h2⟩ := h
    have hle := framed_le rs _ h2
    simp only [RH_SIZE] at hle
    refine ⟨?_, framed_congr rs _ h2 (fun j hj1 hj2 => hag j (by omega) hj2)⟩
    have e1 : rd16 jm' off = rd16 jm off :=
      rd16_congr (fun k hk => hag _ (by omega) (by omega))
    have e2 : rd16 jm' (off + 2) = rd16 jm (off + 2) :=
      rd16_congr (fun k hk => hag _ (by omega) (by omega))
    rw [e1, e2]
    exact h1

/-- The payload of every committed DATA record of a well-framed stream lies between the
start of the stream and `nbytes_used`. -/
theorem committedData_range {jm : Buf} {nb : Nat} :
    ∀ (recs : List Rec) (off : Nat), framed jm nb off recs = true →
      ∀ p ∈ committedData recs, off ≤ p.data_off ∧ p.data_off + BLOCK_SIZE ≤ nb
  | [], _, _, p, hp => by cases hp
  | .data q :: rs, off, h, p, hp => by
    unfold framed at h
    rw [Bool.and_eq_true] at h
    obtain ⟨h1, h2⟩ := h
    obtain ⟨-, -, -, hq⟩ := of_decide_eq_true h1
    have hle := framed_le rs _ h2
    have ih := committedData_range rs _ h2
    simp only [data_rec_size, RH_SIZE, BLOCK_SIZE] at *
    unfold committedData at hp
    by_cases hc : rs.any Rec.isCommit = true
    · rw [if_pos hc] at hp
      rcases List.mem_cons.mp hp with hp | hp
      · subst hp
        omega
      · have := ih p hp
        omega
    · rw [if_neg hc] at hp
      have := ih p hp
      omega
  | .commit :: rs, off, h, p, hp => by
    unfold framed at h
    rw [Bool.and_eq_true] at h
    have ih := committedData_range rs _ h.2
    simp only [RH_SIZE, BLOCK_SIZE] at *
    unfold committedData at hp
    have := ih p hp
    omega

theorem payloadAt_congr {jm jm' : Buf} {d : Nat}
    (h : ∀ k, k < BLOCK_SIZE → jm' (d + k) = jm (d + k)) : payloadAt jm' d = payloadAt jm d := by
  funext k
  unfold payloadAt
  by_cases hk : k < BLOCK_SIZE
  · rw [if_pos hk, if_pos hk, h k hk]
  · rw [if_neg hk, if_neg hk]

/-- Replay does the same thing on two images that agree outside the journal region, on the
journal header and on the journal bytes `[8, nbytes_used)`, when the record stream there is
well-framed. -/
theorem cmd_install_congr {a b : Image} {recs : List Rec} {fuel : Nat}
    (hsz : JOURNAL_BLOCK_IDX * BLOCK_SIZE + JOURNAL_SIZE ≤ b.size)
    (hso : SameOutsideJournal a b)
    (hm : jhMagic a = jhMagic b) (hu : jhUsed a = jhUsed b)
    (hag : ∀ j, JH_SIZE ≤ j → j < jhUsed b → journalMem a j = journalMem b j)
    (hmb : jhMagic b = JOURNAL_MAGIC) (hnb : jhUsed b ≤ JOURNAL_SIZE)
    (hfr : framed (journalMem b) (jhUsed b) JH_SIZE recs = true)
    (hfuel : recs.length < fuel) :
    ∃ imgA imgB r, cmd_install fuel a = .done imgA r ∧ cmd_install fuel b = .done imgB r ∧
      SameOutsideJournal imgA imgB := by
  have hsza : JOURNAL_BLOCK_IDX * BLOCK_SIZE + JOURNAL_SIZE ≤ a.size := by rw [hso.1]; exact hsz
  have hfra : framed (journalMem a) (jhUsed a) JH_SIZE recs = true := by
    rw [hu]
    exact framed_congr recs _ hfr hag
  have hW : (committedData recs).map (pendingWrite (journalMem a)) =
      (committedData recs).map (pendingWrite (journalMem b)) := by
    apply List.map_congr_left
    intro p hp
    obtain ⟨h1, h2⟩ := committedData_range recs _ hfr p hp
    unfold pendingWrite
    rw [payloadAt_congr (fun k hk => hag _ (by omega) (by omega))]
  rcases cmd_install_framed hsz hmb hnb hfr hfuel with ⟨hne, hib⟩ | ⟨he, -, hib⟩
  · rcases cmd_install_framed hsza (hm.trans hmb) (by rw [hu]; exact hnb) hfra hfuel with
      ⟨-, hia⟩ | ⟨he, -, -⟩
    · rw [hW] at hia
      exact ⟨_, _, _, hia, hib, applyWrites_sameOutside _ hso⟩
    · rw [hu] at he
      exact absurd he hne
  · rcases cmd_install_framed hsza (hm.trans hmb) (by rw [hu]; exact hnb) hfra hfuel with
      ⟨hne, -⟩ | ⟨-, -, hia⟩
    · rw [hu] at hne
      exact absurd he hne
    · exact ⟨_, _, _, hia, hib, hso⟩

/-- The image after a proper prefix of the writes of a stage (the header write not yet
done): same length, same journal header, same journal bytes below `nbytes_used`, same
bytes outside the journal region. -/
theorem stage_prefix_image {img : Image} {filename : List Byte} {i sl : Nat}
    (ctime mtime : Nat) (hc : StageCond img filename i sl) (hu : JH_SIZE ≤ effUsed img)
    {k : Nat} (hk : k < 5) :
    SameOutsideJournal
      (applyWrites img ((txnWrites (stagedOf img filename ctime mtime i sl)).take k)) img ∧
    jhMagic (applyWrites img ((txnWrites (stagedOf img filename ctime mtime i sl)).take k))
      = jhMagic img ∧
    jhUsed (applyWrites img ((txnWrites (stagedOf img filename ctime mtime i sl)).take k))
      = jhUsed img ∧
    ∀ j, JH_SIZE ≤ j → j < effUsed img →
      journalMem (applyWrites img ((txnWrites (stagedOf img filename ctime mtime i sl)).take k)) j
        = journalMem img j := by
  have hroom : (stagedOf img filename ctime mtime i sl).nbytes_used + txn_size ≤
      journal_capacity := hc.room
  have hr := txnWrites_records_range hroom hk
  have hsu : (stagedOf img filename ctime mtime i sl).nbytes_used = effUsed img := rfl
  rw [hsu] at hr hroom
  have hsz := stage_size hc
  simp only [txn_size, journal_capacity, data_rec_size, commit_rec_size, RH_SIZE, BLOCK_SIZE,
    JOURNAL_BLOCKS, JH_SIZE, JOURNAL_BLOCK_IDX, JOURNAL_SIZE] at hroom hu hr hsz
  have hdata : ∀ q, (q < 4096 + effUsed img ∨ 4096 + effUsed img + 12316 ≤ q) →
      (applyWrites img ((txnWrites (stagedOf img filename ctime mtime i sl)).take k)).data q
        = img.data q := by
    intro q hq
    apply applyWrites_data_of_not_covered
    intro w hw
    have := hr w hw
    omega
  have hsize : (applyWrites img
      ((txnWrites (stagedOf img filename ctime mtime i sl)).take k)).size = img.size := by
    apply applyWrites_size_of_within
    intro w hw
    have := hr w hw
    omega
  have hhdr : bufAt (applyWrites img
        ((txnWrites (stagedOf img filename ctime mtime i sl)).take k)) JH_SIZE
        (JOURNAL_BLOCK_IDX * BLOCK_SIZE)
      = bufAt img JH_SIZE (JOURNAL_BLOCK_IDX * BLOCK_SIZE) := by
    funext x
    unfold bufAt
    by_cases hx : x < JH_SIZE
    · rw [if_pos hx, if_pos hx]
      apply hdata
      simp only [JH_SIZE, JOURNAL_BLOCK_IDX, BLOCK_SIZE] at *
      omega
    · rw [if_neg hx, if_neg hx]
  refine ⟨⟨hsize, ?_⟩, ?_, ?_, ?_⟩
  · intro q hq
    apply hdata
    unfold inJournal at hq
    simp only [JOURNAL_BLOCK_IDX, BLOCK_SIZE, JOURNAL_BLOCKS] at hq
    omega
  · unfold jhMagic; rw [hhdr]
  · unfold jhUsed; rw [hhdr]
  · intro j hj1 hj2
    simp only [JH_SIZE] at hj1
    rw [journalMem_apply (by simp only [JOURNAL_SIZE, JOURNAL_BLOCKS, BLOCK_SIZE]; omega),
      journalMem_apply (by simp only [JOURNAL_SIZE, JOURNAL_BLOCKS, BLOCK_SIZE]; omega)]
    apply hdata
    omega

/-- C2, counterexample to the claim as written: a journal with valid magic and
`nbytes_used = 20 ≥ 8` whose DATA record declares size 8 (target block 30), followed by a
COMMIT record.  Replay takes the record's payload from journal bytes 16..4111, which lie
past `nbytes_used`; the first DATA record write of `cmd_create "hello"` lands there, so
replay after that one write puts different bytes into block 30 than replay of the pre-stage
image does. -/
theorem stage_prefix_changes_replay_of_short_record :
    jhMagic shortRecordImage = JOURNAL_MAGIC ∧ jhUsed shortRecordImage = 20 ∧
    (cmd_create shortRecordImage fileHello 0 0).isDone = true ∧
    (cmd_install 5 shortRecordImage).val? = some (.replayed 1) ∧
    (cmd_install 5 (applyWrites shortRecordImage
      ((createWrites shortRecordImage fileHello 0 0).take 1))).val? = some (.replayed 1) ∧
    ¬ inJournal (30 * 4096 + 4) ∧
    (cmd_install 5 shortRecordImage).image.data (30 * 4096 + 4) = 0 ∧
    (cmd_install 5 (applyWrites shortRecordImage
      ((createWrites shortRecordImage fileHello 0 0).take 1))).image.data (30 * 4096 + 4)
      = 1 := by
  decide

/-! ## C4: two stages followed by a replay -/

/-- C4, the code at the scenario's input: on the freshly formatted image, `cmd_create "a"`
succeeds with inode 1 and slot 0, `cmd_create "b"` succeeds with inode 1 and slot 0 again
(the bitmap and directory on disk are still the formatted ones), and `cmd_install` replays
both transactions; afterwards the inode bitmap has bits 0 and 1 set and bit 2 clear, root
directory entry 0 is (inode 1, name "b"), entry 1 is empty, and the root inode size is
32. -/
theorem two_stages_then_install_result :
    (cmd_create freshImage fileA 0 0).val? = some (1, 0) ∧
    (cmd_create (cmd_create freshImage fileA 0 0).image fileB 0 0).val? = some (1, 0) ∧
    (cmd_install 9 twoStagedImage).val? = some (.replayed 2) ∧
    is_bit_set (blockAt twoInstalledImage INODE_BMAP_IDX) 0 = 1 ∧
    is_bit_set (blockAt twoInstalledImage INODE_BMAP_IDX) 1 = 1 ∧
    is_bit_set (blockAt twoInstalledImage INODE_BMAP_IDX) 2 = 0 ∧
    rd32 (blockAt twoInstalledImage DATA_START_IDX) 0 = 1 ∧
    blockAt twoInstalledImage DATA_START_IDX 4 = 98 ∧
    blockAt twoInstalledImage DATA_START_IDX 5 = 0 ∧
    blockAt twoInstalledImage DATA_START_IDX (DIRENT_SIZE + 4) = 0 ∧
    rootSize twoInstalledImage = 32 := by
  decide

/-! ## C11: the journal header after a replay -/

theorem cmd_install_image_of_absent_or_empty (fuel : Nat) (img : Image)
    (h : jhMagic img ≠ JOURNAL_MAGIC ∨ jhUsed img = JH_SIZE) :
    (cmd_install fuel img).image = img := by
  unfold cmd_install
  by_cases hsz : JOURNAL_BLOCK_IDX * BLOCK_SIZE + JH_SIZE ≤ img.size
  swap
  · rw [pread_none hsz]
    rfl
  rw [pread_some hsz]
  simp only []
  rw [show rd32 (bufAt img JH_SIZE (JOURNAL_BLOCK_IDX * BLOCK_SIZE)) 0 = jhMagic img from rfl,
    show rd32 (bufAt img JH_SIZE (JOURNAL_BLOCK_IDX * BLOCK_SIZE)) 4 = jhUsed img from rfl]
  by_cases hm : jhMagic img ≠ JOURNAL_MAGIC
  · rw [if_pos hm]
    rfl
  · rw [if_neg hm]
    rcases h with h | h
    · exact absurd h hm
    · rw [if_pos h]
      rfl

/-- C11: for every image, if the journal magic is absent or `nbytes_used = 8` then
`cmd_install` leaves the image byte-identical; otherwise, whenever `cmd_install` completes
(whatever the record stream holds), the journal header on disk afterwards holds magic
0x4A524E4C and `nbytes_used = 8`. -/
theorem journal_state_after_replay (fuel : Nat) (img : Image) :
    ((jhMagic img ≠ JOURNAL_MAGIC ∨ jhUsed img = JH_SIZE) →
      (cmd_install fuel img).image = img) ∧
    (¬ (jhMagic img ≠ JOURNAL_MAGIC ∨ jhUsed img = JH_SIZE) →
      ∀ img' r, cmd_install fuel img = .done img' r →
        jhMagic img' = 0x4A524E4C ∧ jhUsed img' = 8) := by
  refine ⟨cmd_install_image_of_absent_or_empty fuel img, ?_⟩
  intro hne img' r h
  obtain ⟨-, hcase⟩ := cmd_install_done h
  rcases hcase with ⟨-, -, hm⟩ | ⟨-, -, -, hu⟩ | ⟨s, -, -, -, -, himg⟩
  · exact absurd (Or.inl hm) hne
  · exact absurd (Or.inr hu) hne
  · rw [himg]
    exact jh_after_reset img s.writes

/-- C11, witness: the freshly formatted image has no journal magic and `cmd_install` leaves
it as it is; the image left by `cmd_create "hello"` has a non-empty journal, `cmd_install`
completes on it and the header then reads (0x4A524E4C, 8). -/
theorem journal_state_after_replay_witness :
    jhMagic freshImage ≠ JOURNAL_MAGIC ∧ (cmd_install 5 freshImage).image = freshImage ∧
    ¬ (jhMagic helloStagedImage ≠ JOURNAL_MAGIC ∨ jhUsed helloStagedImage = JH_SIZE) ∧
    jhMagic (cmd_install 5 helloStagedImage).image = 0x4A524E4C ∧
    jhUsed (cmd_install 5 helloStagedImage).image = 8 :=
  ⟨by decide,
    (journal_state_after_replay 5 freshImage).1 (Or.inl (by decide)),
    by decide,
    (journal_state_after_replay 5 helloStagedImage).2 (by decide) _ (.replayed 1)
      (Outcome.eq_done_of_val (by decide))⟩

/-! ## C12: the targets of the staged DATA records -/

theorem rd32_dataRecord (t : Nat) (d : Buf) : rd32 (dataRecord t d) RH_SIZE = t % U32 := by
  have h := (@dataRecord_fields (dataRecord t d) 0 t d
    (fun k _ => by rw [Nat.zero_add])).2.2.1
  rw [Nat.zero_add] at h
  exact h

theorem inodeBlk_eq {i : Nat} (h : i / 8 < BLOCK_SIZE) : inodeBlk i = INODE_START_IDX + i / 32 := by
  unfold inodeBlk
  simp only [INODE_START_IDX, BLOCK_SIZE, INODE_SIZE, U32] at *
  omega

/-- The block numbers recorded in the three DATA records of a stage. -/
theorem createWrites_targets {img : Image} {filename : List Byte} {i sl : Nat}
    (ctime mtime : Nat) (hc : StageCond img filename i sl) :
    ((createWrites img filename ctime mtime).take 3).map (fun w => rd32 w.src RH_SIZE)
      = [INODE_BMAP_IDX, INODE_START_IDX + i / 32, rootBlk img] := by
  obtain ⟨-, -, hi, -, -⟩ := scanInodes_found _ _ hc.inode_found
  rw [createWrites_of_cond ctime mtime hc]
  show [rd32 (dataRecord INODE_BMAP_IDX _) RH_SIZE,
      rd32 (dataRecord (inodeBlk i) _) RH_SIZE,
      rd32 (dataRecord (rootBlk img) _) RH_SIZE] = _
  rw [rd32_dataRecord, rd32_dataRecord, rd32_dataRecord,
    Nat.mod_eq_of_lt (show rootBlk img < U32 from rd32_lt _ _), inodeBlk_eq hi,
    Nat.mod_eq_of_lt (show INODE_BMAP_IDX < U32 from by decide),
    Nat.mod_eq_of_lt (show INODE_START_IDX + i / 32 < U32 from by
      simp only [INODE_START_IDX, BLOCK_SIZE, U32] at *
      omega)]

/-- C12, counterexample to the claim as written: on a formatted image whose root inode has
`direct[0] = 1`, `cmd_create "hello"` succeeds and its third DATA record targets block 1,
inside the journal region. -/
theorem staged_target_inside_journal :
    (cmd_create rootInJournalImage fileHello 0 0).isDone = true ∧
    ((createWrites rootInJournalImage fileHello 0 0).take 3).map (fun w => rd32 w.src RH_SIZE)
      = [17, 19, 1] := by
  decide

/-! ## C13: record framing round-trip -/

theorem rd32_wr32 (b : Buf) (o v : Nat) : rd32 (wr32 b o v) o = v % U32 := by
  apply rd32_of_bytes
  intro k hk
  rw [wr32_at (by omega)]
  refine congrArg _ ?_
  omega

/-- When the target block is the first inode-table block, the size at offset 4 becomes the
larger of the old size and `(slot + 1) * 32`. -/
theorem growRoot_size_first (blk : Buf) (sl : Nat) :
    rd32 (growRoot blk INODE_START_IDX sl) 4
      = max (rd32 blk 4) ((sl + 1) * DIRENT_SIZE % U32) := by
  unfold growRoot
  rw [if_pos rfl]
  by_cases h : rd32 blk 4 < (sl + 1) * DIRENT_SIZE % U32
  · rw [if_pos h, rd32_wr32, Nat.mod_mod, max_eq_right (le_of_lt h)]
  · rw [if_neg h, max_eq_left (by omega)]

theorem growRoot_size_ge (blk : Buf) (tgt sl : Nat) :
    rd32 blk 4 ≤ rd32 (growRoot blk tgt sl) 4 := by
  by_cases h : tgt = INODE_START_IDX
  · rw [h, growRoot_size_first]
    exact le_max_left _ _
  · unfold growRoot
    rw [if_neg h]

/-- The inode allocated by a successful stage lies in the first inode-table block exactly
when its index is below 32. -/
theorem inodeBlk_first_iff {i : Nat} (hi : i / 8 < BLOCK_SIZE) :
    inodeBlk i = INODE_START_IDX ↔ i < 32 := by
  rw [inodeBlk_eq hi]
  simp only [INODE_START_IDX]
  omega

/-- The root size carried by the staged inode-table block when the new inode lives in the
first table block. -/
theorem staged_root_size (img : Image) (filename : List Byte) (ctime mtime : Nat) {i : Nat}
    (sl : Nat) (hi1 : 1 ≤ i) (hi : i < 32) :
    rd32 (stagedOf img filename ctime mtime i sl).target_inode_block 4
      = max (rootSize img) ((sl + 1) * DIRENT_SIZE % U32) := by
  have hblk : inodeBlk i = INODE_START_IDX :=
    (inodeBlk_first_iff (by simp only [BLOCK_SIZE]; omega)).mpr hi
  show rd32 (growRoot (initInode (blockAt img (inodeBlk i))
      (i % (BLOCK_SIZE / INODE_SIZE) * INODE_SIZE) ctime mtime) (inodeBlk i) sl) 4 = _
  rw [hblk, growRoot_size_first]
  refine congrArg (fun x => max x _) ?_
  unfold rootSize
  apply rd32_congr
  intro k hk
  apply (initInode_bytes _ _ ctime mtime).2.2.2
  simp only [BLOCK_SIZE, INODE_SIZE]
  have : i % (4096 / 128) = i := Nat.mod_eq_of_lt (by omega)
  rw [this]
  omega

/-! ## C18: the root size update -/

/-- C18, counterexample to the claim as stated: with `inode_count = 64` and inodes 0..31 in
use, `cmd_create` succeeds with inode 32 and slot 0; the target inode block is block 20,
not block 19, the staged block carries size 0 at the place of the root size, and after the
replay the root inode's size is still 0, below `(0 + 1) * 32`. -/
theorem root_size_update_skipped :
    inodeCount firstBlockFullImage = 64 ∧
    (cmd_create firstBlockFullImage fileHello 0 0).val? = some (32, 0) ∧
    (stagedOf firstBlockFullImage fileHello 0 0 32 0).target_inode_blk_idx = 20 ∧
    rd32 (stagedOf firstBlockFullImage fileHello 0 0 32 0).target_inode_block 4 = 0 ∧
    (cmd_install 5 (cmd_create firstBlockFullImage fileHello 0 0).image).val?
      = some (.replayed 1) ∧
    rootSize (cmd_install 5 (cmd_create firstBlockFullImage fileHello 0 0).image).image
      = 0 := by
  decide

/-! ## C17: inode allocation -/

theorem stage_noFreeInodes_iff {img : Image} {filename : List Byte} {ctime mtime : Nat} :
    stage img filename ctime mtime = .error .noFreeInodes ↔
      strlen filename < NAME_LEN ∧ blockOff SUPERBLOCK_IDX + BLOCK_SIZE ≤ img.size ∧
      rd32 (blockAt img SUPERBLOCK_IDX) 0 = FS_MAGIC ∧
      JOURNAL_BLOCK_IDX * BLOCK_SIZE + JH_SIZE ≤ img.size ∧
      effUsed img + txn_size ≤ journal_capacity ∧
      blockOff INODE_BMAP_IDX + BLOCK_SIZE ≤ img.size ∧
      scanInodes (blockAt img INODE_BMAP_IDX) (inodeCount img - 1) 1 = .notFound := by
  unfold stage
  by_cases h1 : NAME_LEN ≤ strlen filename
  · rw [if_pos h1]
    constructor
    · intro h; cases h
    · rintro ⟨h, -⟩; omega
  rw [if_neg h1]
  by_cases h2 : blockOff SUPERBLOCK_IDX + BLOCK_SIZE ≤ img.size
  swap
  · rw [read_block_none h2]
    constructor
    · intro h; cases h
    · rintro ⟨-, h, -⟩; exact absurd h h2
  rw [read_block_some h2]
  simp only []
  by_cases h3 : rd32 (blockAt img SUPERBLOCK_IDX) 0 ≠ FS_MAGIC
  · rw [if_pos h3]
    constructor
    · intro h; cases h
    · rintro ⟨-, -, h, -⟩; exact absurd h h3
  rw [if_neg h3]
  by_cases h4 : JOURNAL_BLOCK_IDX * BLOCK_SIZE + JH_SIZE ≤ img.size
  swap
  · rw [pread_none h4]
    constructor
    · intro h; cases h
    · rintro ⟨-, -, -, h, -⟩; exact absurd h h4
  rw [pread_some h4]
  simp only []
  rw [show (if rd32 (bufAt img JH_SIZE (JOURNAL_BLOCK_IDX * BLOCK_SIZE)) 0 ≠ JOURNAL_MAGIC
        then JH_SIZE else rd32 (bufAt img JH_SIZE (JOURNAL_BLOCK_IDX * BLOCK_SIZE)) 4)
      = effUsed img from rfl]
  by_cases h5 : journal_capacity < effUsed img + txn_size
  · rw [if_pos h5]
    constructor
    · intro h; cases h
    · rintro ⟨-, -, -, -, h, -⟩; omega
  rw [if_neg h5]
  by_cases h6 : blockOff INODE_BMAP_IDX + BLOCK_SIZE ≤ img.size
  swap
  · rw [read_block_none h6]
    constructor
    · intro h; cases h
    · rintro ⟨-, -, -, -, -, h, -⟩; exact absurd h h6
  rw [read_block_some h6]
  simp only []
  rw [show rd32 (blockAt img SUPERBLOCK_IDX) 12 = inodeCount img from rfl]
  cases hs : scanInodes (blockAt img INODE_BMAP_IDX) (inodeCount img - 1) 1 with
  | overrun =>
    constructor
    · intro h; cases h
    · rintro ⟨-, -, -, -, -, -, h⟩; cases h
  | notFound =>
    exact ⟨fun _ => ⟨by omega, h2, not_not.mp h3, h4, by omega, h6, rfl⟩, fun _ => rfl⟩
  | found i =>
    constructor
    · intro h
      exfalso
      revert h
      simp only []
      repeat' split
      all_goals (intro h; cases h)
    · rintro ⟨-, -, -, -, -, -, h⟩; cases h

/-! ## C15: termination of the replay scan -/

theorem cmd_install_of_scan_err {fuel : Nat} {img : Image} {s : Scan} {e : Err}
    (hsz : JOURNAL_BLOCK_IDX * BLOCK_SIZE + JH_SIZE ≤ img.size)
    (hm : jhMagic img = JOURNAL_MAGIC) (hu : jhUsed img ≠ JH_SIZE)
    (hs : replayScan fuel img (jhUsed img) = some (s, some e)) :
    cmd_install fuel img = .failed (applyWrites img s.writes) e := by
  unfold cmd_install
  rw [pread_some hsz]
  simp only []
  rw [show rd32 (bufAt img JH_SIZE (JOURNAL_BLOCK_IDX * BLOCK_SIZE)) 0 = jhMagic img from rfl,
    show rd32 (bufAt img JH_SIZE (JOURNAL_BLOCK_IDX * BLOCK_SIZE)) 4 = jhUsed img from rfl,
    if_neg (not_not.mpr hm), if_neg hu, hs]

/-- On a COMMIT record that declares size 0, every iteration of the scan counts one more
transaction and leaves the cursor where it was. -/
theorem scanLoop_zero_size_commit {jm : Buf} {nb off : Nat}
    (hoff : off + RH_SIZE ≤ nb) (hnb : nb ≤ JOURNAL_SIZE)
    (ht : rd16 jm off = REC_COMMIT) (hs : rd16 jm (off + 2) = 0) :
    ∀ (fuel c : Nat) (ws : List Write),
      scanLoop jm nb fuel ⟨off, [], c, ws⟩ = (⟨off, [], c + fuel, ws⟩, some .outOfFuel)
  | 0, c, ws => rfl
  | fuel + 1, c, ws => by
    have ih := scanLoop_zero_size_commit hoff hnb ht hs fuel (c + 1) ws
    simp only [RH_SIZE, JOURNAL_SIZE, JOURNAL_BLOCKS, BLOCK_SIZE] at hoff hnb
    rw [scanLoop]
    simp only [RH_SIZE, JOURNAL_SIZE, JOURNAL_BLOCKS, BLOCK_SIZE, ht, hs, Nat.add_zero]
    rw [if_neg (by omega), if_neg (by omega), if_neg (by omega), if_neg (by omega),
      if_neg (by decide), if_pos trivial]
    show scanLoop jm nb fuel ⟨off, [], c + 1, ws ++ []⟩ = _
    rw [List.append_nil, ih]
    refine congrArg (fun x => ((⟨off, [], x, ws⟩ : Scan), some Err.outOfFuel)) ?_
    omega

/-- C15, failure shown on the code: on the journal whose header has `nbytes_used = 12` and
whose only record is a COMMIT record of declared size 0, the scan of `cmd_install` never
stops by itself: after any number `fuel` of iterations the cursor is still at offset 8,
below `nbytes_used = 12`, with `fuel` transactions counted, so no iteration budget lets
`cmd_install` return. -/
theorem replay_scan_stuck_on_zero_size (fuel : Nat) :
    jhMagic zeroSizeCommitImage = JOURNAL_MAGIC ∧ jhUsed zeroSizeCommitImage = 12 ∧
    rd16 (journalMem zeroSizeCommitImage) 8 = REC_COMMIT ∧
    rd16 (journalMem zeroSizeCommitImage) (8 + 2) = 0 ∧
    scanLoop (journalMem zeroSizeCommitImage) 12 fuel ⟨JH_SIZE, [], 0, []⟩
      = (⟨JH_SIZE, [], fuel, []⟩, some .outOfFuel) ∧
    cmd_install fuel zeroSizeCommitImage = .failed zeroSizeCommitImage .outOfFuel := by
  have hm : jhMagic zeroSizeCommitImage = JOURNAL_MAGIC := by decide
  have hu : jhUsed zeroSizeCommitImage = 12 := by decide
  have ht : rd16 (journalMem zeroSizeCommitImage) 8 = REC_COMMIT := by decide
  have hs : rd16 (journalMem zeroSizeCommitImage) (8 + 2) = 0 := by decide
  have hsz : JOURNAL_BLOCK_IDX * BLOCK_SIZE + JOURNAL_SIZE ≤ zeroSizeCommitImage.size := by
    decide
  have hscan : scanLoop (journalMem zeroSizeCommitImage) 12 fuel ⟨JH_SIZE, [], 0, []⟩
      = (⟨JH_SIZE, [], fuel, []⟩, some .outOfFuel) := by
    have h := @scanLoop_zero_size_commit (journalMem zeroSizeCommitImage) 12 8 (by decide)
      (by decide) ht hs fuel 0 []
    rw [Nat.zero_add] at h
    exact h
  refine ⟨hm, hu, ht, hs, hscan, ?_⟩
  have hrs : replayScan fuel zeroSizeCommitImage (jhUsed zeroSizeCommitImage)
      = some (⟨JH_SIZE, [], fuel, []⟩, some .outOfFuel) := by
    rw [replayScan_eq hsz, hu, hscan]
  rw [cmd_install_of_scan_err (jh_read_of_journal hsz) hm (by rw [hu]; decide) hrs]
  rfl

/-! ## C20: a created file and its directory slot -/

/-- C20, the code at a failing input: on the freshly formatted image `cmd_create` accepts
the empty filename (length 0 < 28) and succeeds with inode 1 and slot 0, and `cmd_install`
replays the transaction; afterwards root directory entry 0 has `inode = 1` but
`name[0] = 0`, so the slot still counts as free, and the next `cmd_create "b"` chooses
slot 0 again (with inode 2). -/
theorem empty_name_leaves_slot_free :
    strlen ([] : List Byte) < NAME_LEN ∧
    (cmd_create freshImage [] 0 0).val? = some (1, 0) ∧
    (cmd_install 5 (cmd_create freshImage [] 0 0).image).val? = some (.replayed 1) ∧
    rd32 (blockAt emptyNameInstalledImage DATA_START_IDX) 0 = 1 ∧
    blockAt emptyNameInstalledImage DATA_START_IDX 4 = 0 ∧
    (cmd_create emptyNameInstalledImage fileB 0 0).val? = some (2, 0) := by
  decide

/-! ## C19: the pending list of the replay scan -/

/-- One iteration of the scan on a DATA record that fits. -/
theorem scanLoop_step_data {jm : Buf} {nb : Nat} (s : Scan) (fuel : Nat)
    (c2 : s.scan_offset + RH_SIZE ≤ nb)
    (c3 : s.scan_offset + RH_SIZE + 4 ≤ JOURNAL_SIZE)
    (c4 : s.scan_offset + rd16 jm (s.scan_offset + 2) ≤ nb)
    (ht : rd16 jm s.scan_offset = REC_DATA) (c5 : s.pending.length < PENDING_CAP) :
    scanLoop jm nb (fuel + 1) s =
      scanLoop jm nb fuel
        { s with
          pending := s.pending ++
            [⟨rd32 jm (s.scan_offset + RH_SIZE), s.scan_offset + RH_SIZE + 4⟩]
          scan_offset := s.scan_offset + rd16 jm (s.scan_offset + 2) } := by
  simp only [JOURNAL_SIZE, JOURNAL_BLOCKS, BLOCK_SIZE, RH_SIZE, PENDING_CAP] at *
  rw [scanLoop]
  simp only [JOURNAL_SIZE, JOURNAL_BLOCKS, BLOCK_SIZE, RH_SIZE, PENDING_CAP, ht]
  rw [if_neg (by omega), if_neg (by omega), if_neg (by omega), if_neg (by omega),
    if_pos trivial, if_neg (by omega), if_neg (by omega)]

/-- One iteration of the scan on a COMMIT record that fits. -/
theorem scanLoop_step_commit {jm : Buf} {nb : Nat} (s : Scan) (fuel : Nat)
    (c2 : s.scan_offset + RH_SIZE ≤ nb) (hnb : nb ≤ JOURNAL_SIZE)
    (c4 : s.scan_offset + rd16 jm (s.scan_offset + 2) ≤ nb)
    (ht : rd16 jm s.scan_offset = REC_COMMIT)
    (hp : ∀ p ∈ s.pending, p.data_off + BLOCK_SIZE ≤ JOURNAL_SIZE) :
    scanLoop jm nb (fuel + 1) s =
      scanLoop jm nb fuel
        ⟨s.scan_offset + rd16 jm (s.scan_offset + 2), [], s.committed_txns + 1,
          s.writes ++ s.pending.map (pendingWrite jm)⟩ := by
  have hfl := flushPending_ok jm s.pending hp
  simp only [JOURNAL_SIZE, JOURNAL_BLOCKS, BLOCK_SIZE, RH_SIZE, PENDING_CAP] at *
  rw [scanLoop]
  simp only [JOURNAL_SIZE, JOURNAL_BLOCKS, BLOCK_SIZE, RH_SIZE, PENDING_CAP, ht, hfl]
  rw [if_neg (by omega), if_neg (by omega), if_neg (by omega), if_neg (by omega),
    if_neg (by decide), if_pos trivial]

/-- The bound on the pending list, from any state of the scan in which the pending entries
are backed by full DATA records behind the cursor. -/
theorem scanLoop_pending_bound {jm : Buf} {nb : Nat} (hnb : nb ≤ JOURNAL_SIZE) :
    ∀ (fuel : Nat) (s : Scan),
      JH_SIZE + s.pending.length * data_rec_size ≤ s.scan_offset →
      (0 < s.pending.length → s.scan_offset ≤ nb) →
      (∀ p ∈ s.pending, p.data_off + BLOCK_SIZE ≤ JOURNAL_SIZE) →
      (∀ n, (scanLoop jm nb n s).2 = some .outOfFuel →
        (scanLoop jm nb n s).1.scan_offset + RH_SIZE ≤ nb →
        rd16 jm (scanLoop jm nb n s).1.scan_offset = REC_DATA →
        rd16 jm ((scanLoop jm nb n s).1.scan_offset + 2) = data_rec_size) →
      (scanLoop jm nb fuel s).1.pending.length ≤ 15 ∧
      (∀ p ∈ (scanLoop jm nb fuel s).1.pending, p.data_off + BLOCK_SIZE ≤ JOURNAL_SIZE) ∧
      (scanLoop jm nb fuel s).2 ≠ some .outOfBounds
  | 0, s, h1, h2, h3, _ => by
    refine ⟨?_, h3, by intro h; cases h⟩
    show s.pending.length ≤ 15
    simp only [JOURNAL_SIZE, JOURNAL_BLOCKS, BLOCK_SIZE, JH_SIZE, data_rec_size, RH_SIZE] at *
    omega
  | fuel + 1, s, h1, h2, h3, H => by
    have hlen : s.pending.length ≤ 15 := by
      simp only [JOURNAL_SIZE, JOURNAL_BLOCKS, BLOCK_SIZE, JH_SIZE, data_rec_size, RH_SIZE]
        at *
      omega
    have hstop : scanLoop jm nb (fuel + 1) s = (s, none) →
        (scanLoop jm nb (fuel + 1) s).1.pending.length ≤ 15 ∧
        (∀ p ∈ (scanLoop jm nb (fuel + 1) s).1.pending,
          p.data_off + BLOCK_SIZE ≤ JOURNAL_SIZE) ∧
        (scanLoop jm nb (fuel + 1) s).2 ≠ some .outOfBounds := by
      intro e
      rw [e]
      exact ⟨hlen, h3, by intro h; cases h⟩
    by_cases c1 : ¬ s.scan_offset < nb
    · exact hstop (by rw [scanLoop, if_pos c1])
    by_cases c2 : nb < s.scan_offset + RH_SIZE
    · exact hstop (by rw [scanLoop, if_neg c1, if_pos c2])
    have c3 : ¬ JOURNAL_SIZE < s.scan_offset + RH_SIZE := by omega
    by_cases c4 : nb < s.scan_offset + rd16 jm (s.scan_offset + 2)
    · exact hstop (by rw [scanLoop, if_neg c1, if_neg c2, if_neg c3, if_pos c4])
    by_cases c5 : rd16 jm s.scan_offset = REC_DATA
    · have hsize : rd16 jm (s.scan_offset + 2) = data_rec_size :=
        H 0 rfl (show s.scan_offset + RH_SIZE ≤ nb by omega) c5
      have e : ∀ f, scanLoop jm nb (f + 1) s = scanLoop jm nb f
          { s with
            pending := s.pending ++
              [⟨rd32 jm (s.scan_offset + RH_SIZE), s.scan_offset + RH_SIZE + 4⟩]
            scan_offset := s.scan_offset + rd16 jm (s.scan_offset + 2) } := by
        intro f
        apply scanLoop_step_data s f (by omega) ?_ (by omega) c5 ?_
        · rw [hsize] at c4
          simp only [JOURNAL_SIZE, JOURNAL_BLOCKS, BLOCK_SIZE, data_rec_size, RH_SIZE] at *
          omega
        · simp only [PENDING_CAP]
          omega
      have hfit : s.scan_offset + data_rec_size ≤ nb := by
        rw [← hsize]
        omega
      have A : JH_SIZE + (s.pending ++ [(⟨rd32 jm (s.scan_offset + RH_SIZE),
            s.scan_offset + RH_SIZE + 4⟩ : PendingWrite)]).length * data_rec_size
          ≤ s.scan_offset + rd16 jm (s.scan_offset + 2) := by
        rw [hsize, List.length_append, List.length_singleton, Nat.add_mul, Nat.one_mul]
        omega
      have B : 0 < (s.pending ++ [(⟨rd32 jm (s.scan_offset + RH_SIZE),
            s.scan_offset + RH_SIZE + 4⟩ : PendingWrite)]).length →
          s.scan_offset + rd16 jm (s.scan_offset + 2) ≤ nb := fun _ => by omega
      have C : ∀ p ∈ s.pending ++ [(⟨rd32 jm (s.scan_offset + RH_SIZE),
            s.scan_offset + RH_SIZE + 4⟩ : PendingWrite)],
          p.data_off + BLOCK_SIZE ≤ JOURNAL_SIZE := by
        intro q hq
        rw [List.mem_append, List.mem_singleton] at hq
        rcases hq with hq | hq
        · exact h3 q hq
        · rw [hq]
          show s.scan_offset + RH_SIZE + 4 + BLOCK_SIZE ≤ JOURNAL_SIZE
          have e4 : RH_SIZE + 4 + BLOCK_SIZE = data_rec_size := rfl
          omega
      rw [e fuel]
      refine scanLoop_pending_bound hnb fuel _ A B C ?_
      intro n
      have := H (n + 1)
      rw [e n] at this
      exact this
    by_cases c6 : rd16 jm s.scan_offset = REC_COMMIT
    · have e : ∀ f, scanLoop jm nb (f + 1) s = scanLoop jm nb f
          ⟨s.scan_offset + rd16 jm (s.scan_offset + 2), [], s.committed_txns + 1,
            s.writes ++ s.pending.map (pendingWrite jm)⟩ :=
        fun f => scanLoop_step_commit s f (by omega) hnb (by omega) c6 h3
      have A : JH_SIZE + ([] : List PendingWrite).length * data_rec_size
          ≤ s.scan_offset + rd16 jm (s.scan_offset + 2) := by
        rw [List.length_nil, Nat.zero_mul]
        omega
      have B : 0 < ([] : List PendingWrite).length →
          s.scan_offset + rd16 jm (s.scan_offset + 2) ≤ nb := fun _ => by omega
      have C : ∀ p ∈ ([] : List PendingWrite), p.data_off + BLOCK_SIZE ≤ JOURNAL_SIZE :=
        fun q hq => by cases hq
      rw [e fuel]
      refine scanLoop_pending_bound hnb fuel _ A B C ?_
      intro n
      have := H (n + 1)
      rw [e n] at this
      exact this
    · exact hstop (by
        rw [scanLoop, if_neg c1, if_neg c2, if_neg c3, if_neg c4, if_neg c5, if_neg c6])

/-- The ways `cmd_install` stops early: a short read of the header or of the journal
region, or the reason the scan stopped with. -/
theorem cmd_install_err_cases {fuel : Nat} {img : Image} {e : Err}
    (h : (cmd_install fuel img).err = some e) :
    e = .readJournalHeader ∨ e = .readFullJournal ∨
      (scanAfter (journalMem img) (jhUsed img) fuel).2 = some e := by
  unfold cmd_install at h
  by_cases hsz : JOURNAL_BLOCK_IDX * BLOCK_SIZE + JH_SIZE ≤ img.size
  swap
  · rw [pread_none hsz] at h
    cases h
    exact Or.inl rfl
  rw [pread_some hsz] at h
  simp only [] at h
  rw [show rd32 (bufAt img JH_SIZE (JOURNAL_BLOCK_IDX * BLOCK_SIZE)) 0 = jhMagic img from rfl,
    show rd32 (bufAt img JH_SIZE (JOURNAL_BLOCK_IDX * BLOCK_SIZE)) 4 = jhUsed img from rfl] at h
  by_cases hm : jhMagic img ≠ JOURNAL_MAGIC
  · rw [if_pos hm] at h
    cases h
  rw [if_neg hm] at h
  by_cases hu : jhUsed img = JH_SIZE
  · rw [if_pos hu] at h
    cases h
  rw [if_neg hu] at h
  by_cases hsz2 : JOURNAL_BLOCK_IDX * BLOCK_SIZE + JOURNAL_SIZE ≤ img.size
  swap
  · have hn : replayScan fuel img (jhUsed img) = none := by
      unfold replayScan
      rw [pread_none hsz2]
    rw [hn] at h
    cases h
    exact Or.inr (Or.inl rfl)
  rw [replayScan_eq hsz2] at h
  right
  right
  show (scanLoop (journalMem img) (jhUsed img) fuel ⟨JH_SIZE, [], 0, []⟩).2 = some e
  revert h
  cases scanLoop (journalMem img) (jhUsed img) fuel ⟨JH_SIZE, [], 0, []⟩ with
  | mk s r =>
    cases r with
    | none => intro h; cases h
    | some e' => intro h; cases h; rfl

/-- C19: pending-list bound.  For every image whose journal header has
`nbytes_used ≤ 65536` and in whose journal every DATA record the scan comes to (a record
header of type 1 that lies below `nbytes_used`, in any state the scan reaches while still
running) has the stated size `4 + 4 + 4096`: after any number of iterations of the scan of
`cmd_install` the pending list holds at most 15 entries (so the index into the 200-entry
array is in bounds), every recorded payload range lies inside the 65536-byte journal
buffer, the scan never stops on an out-of-bounds access, and neither does `cmd_install`. -/
theorem pending_list_bound (img : Image) (hnb : jhUsed img ≤ 65536)
    (hdata : ∀ n, (scanAfter (journalMem img) (jhUsed img) n).2 = some .outOfFuel →
      (scanAfter (journalMem img) (jhUsed img) n).1.scan_offset + RH_SIZE ≤ jhUsed img →
      rd16 (journalMem img) (scanAfter (journalMem img) (jhUsed img) n).1.scan_offset
        = REC_DATA →
      rd16 (journalMem img) ((scanAfter (journalMem img) (jhUsed img) n).1.scan_offset + 2)
        = 4 + 4 + 4096)
    (fuel : Nat) :
    (scanAfter (journalMem img) (jhUsed img) fuel).1.pending.length ≤ 15 ∧
    (scanAfter (journalMem img) (jhUsed img) fuel).1.pending.length < PENDING_CAP ∧
    (∀ p ∈ (scanAfter (journalMem img) (jhUsed img) fuel).1.pending,
      p.data_off + BLOCK_SIZE ≤ 65536) ∧
    (scanAfter (journalMem img) (jhUsed img) fuel).2 ≠ some .outOfBounds ∧
    (cmd_install fuel img).err ≠ some .outOfBounds := by
  have key : ∀ f, (scanAfter (journalMem img) (jhUsed img) f).1.pending.length ≤ 15 ∧
      (∀ p ∈ (scanAfter (journalMem img) (jhUsed img) f).1.pending,
        p.data_off + BLOCK_SIZE ≤ JOURNAL_SIZE) ∧
      (scanAfter (journalMem img) (jhUsed img) f).2 ≠ some .outOfBounds := fun f =>
    @scanLoop_pending_bound (journalMem img) (jhUsed img) hnb f ⟨JH_SIZE, [], 0, []⟩
      (Nat.le_refl _) (fun h => by cases h) (fun q hq => by cases hq) hdata
  obtain ⟨k1, k2, k3⟩ := key fuel
  refine ⟨k1, ?_, k2, k3, ?_⟩
  · simp only [PENDING_CAP]
    omega
  · intro h
    rcases cmd_install_err_cases h with h1 | h1 | h1
    · cases h1
    · cases h1
    · exact k3 h1

/-- C19, witness: the journal left by `cmd_create "hello"` on the freshly formatted image
has `nbytes_used = 12324` and three DATA records of size 4104; during its replay the
pending list never holds more than 15 entries. -/
theorem pending_list_bound_witness :
    jhUsed helloStagedImage ≤ 65536 ∧
    (scanAfter (journalMem helloStagedImage) (jhUsed helloStagedImage) 3).1.pending.length
      = 3 ∧
    (scanAfter (journalMem helloStagedImage) (jhUsed helloStagedImage) 3).1.pending.length
      ≤ 15 :=
  have hnb : jhUsed helloStagedImage ≤ 65536 := by decide
  have hfr : framed (journalMem helloStagedImage) (jhUsed helloStagedImage) JH_SIZE helloRecs
      = true := by decide
  have hdata : ∀ n,
      (scanAfter (journalMem helloStagedImage) (jhUsed helloStagedImage) n).2
        = some .outOfFuel →
      (scanAfter (journalMem helloStagedImage) (jhUsed helloStagedImage) n).1.scan_offset
        + RH_SIZE ≤ jhUsed helloStagedImage →
      rd16 (journalMem helloStagedImage)
        (scanAfter (journalMem helloStagedImage) (jhUsed helloStagedImage) n).1.scan_offset
        = REC_DATA →
      rd16 (journalMem helloStagedImage)
        ((scanAfter (journalMem helloStagedImage) (jhUsed helloStagedImage) n).1.scan_offset
          + 2) = 4 + 4 + 4096 := by
    intro n
    by_cases hn : n < 5
    · interval_cases n <;> decide
    · intro h
      exfalso
      have e := @scanLoop_framed (journalMem helloStagedImage) (jhUsed helloStagedImage) hnb
        helloRecs n ⟨JH_SIZE, [], 0, []⟩ hfr
        (by show helloRecs.length < n; simp only [helloRecs, List.length_cons,
              List.length_nil]; omega)
        (fun q hq => by cases hq) (Nat.le_refl _)
      unfold scanAfter at h
      rw [e] at h
      cases h
  ⟨hnb, by decide, (pending_list_bound helloStagedImage hnb hdata 3).1⟩

/-! ## Streams of several transactions -/

theorem dataRecs_append : ∀ r1 r2 : List Rec, dataRecs (r1 ++ r2) = dataRecs r1 ++ dataRecs r2
  | [], _ => rfl
  | .data p :: rs, r2 => by
    show p :: dataRecs (rs ++ r2) = (p :: dataRecs rs) ++ dataRecs r2
    rw [dataRecs_append rs r2, List.cons_append]
  | .commit :: rs, r2 => by
    show dataRecs (rs ++ r2) = dataRecs rs ++ dataRecs r2
    exact dataRecs_append rs r2

theorem committedData_sub : ∀ (recs : List Rec) (p : PendingWrite),
    p ∈ committedData recs → p ∈ dataRecs recs
  | [], _, h => by cases h
  | .data q :: rs, p, h => by
    unfold committedData at h
    unfold dataRecs
    by_cases hc : rs.any Rec.isCommit = true
    · rw [if_pos hc] at h
      rcases List.mem_cons.mp h with h | h
      · subst h; exact List.mem_cons_self _ _
      · exact List.mem_cons_of_mem _ (committedData_sub rs p h)
    · rw [if_neg hc] at h
      exact List.mem_cons_of_mem _ (committedData_sub rs p h)
  | .commit :: rs, p, h => by
    unfold committedData at h
    unfold dataRecs
    exact committedData_sub rs p h

/-- Two well-framed streams, the second starting where the first ends, form one. -/
theorem framed_append {jm : Buf} {nb mid : Nat} (r2 : List Rec)
    (h2 : framed jm nb mid r2 = true) :
    ∀ (r1 : List Rec) (off : Nat), framed jm mid off r1 = true →
      framed jm nb off (r1 ++ r2) = true
  | [], off, h1 => by
    unfold framed at h1
    have e : off = mid := of_decide_eq_true h1
    rw [e]
    exact h2
  | .data p :: rs, off, h1 => by
    rw [List.cons_append]
    unfold framed at h1 ⊢
    rw [Bool.and_eq_true] at h1 ⊢
    exact ⟨h1.1, framed_append r2 h2 rs _ h1.2⟩
  | .commit :: rs, off, h1 => by
    rw [List.cons_append]
    unfold framed at h1 ⊢
    rw [Bool.and_eq_true] at h1 ⊢
    exact ⟨h1.1, framed_append r2 h2 rs _ h1.2⟩

/-- The payload of every DATA record of a well-framed stream lies between the start of the
stream and `nbytes_used`. -/
theorem dataRecs_range {jm : Buf} {nb : Nat} :
    ∀ (recs : List Rec) (off : Nat), framed jm nb off recs = true →
      ∀ p ∈ dataRecs recs, off ≤ p.data_off ∧ p.data_off + BLOCK_SIZE ≤ nb
  | [], _, _, p, hp => by cases hp
  | .data q :: rs, off, h, p, hp => by
    unfold framed at h
    rw [Bool.and_eq_true] at h
    obtain ⟨h1, h2⟩ := h
    obtain ⟨-, -, -, hq⟩ := of_decide_eq_true h1
    have hle := framed_le rs _ h2
    unfold dataRecs at hp
    rcases List.mem_cons.mp hp with hp | hp
    · rw [hp, hq]
      simp only [data_rec_size, RH_SIZE, BLOCK_SIZE] at *
      omega
    · have := dataRecs_range rs _ h2 p hp
      simp only [data_rec_size, RH_SIZE, BLOCK_SIZE] at *
      omega
  | .commit :: rs, off, h, p, hp => by
    unfold framed at h
    rw [Bool.and_eq_true] at h
    unfold dataRecs at hp
    have := dataRecs_range rs _ h.2 p hp
    simp only [RH_SIZE] at *
    omega

/-! ## The root inode's size under a sequence of writes -/

theorem rootSize_eq (img : Image) : rootSize img = rd32 img.data (77824 + 4) := by
  unfold rootSize
  apply rd32_congr
  intro k hk
  rw [blockAt_apply img (by omega), show blockOff INODE_START_IDX = 77824 from by decide]
  refine congrArg _ ?_
  omega

/-- The root inode's size stays at least `R` under writes each of which either misses the
size field or replaces the first inode-table block by one whose root size is at least `R`. -/
theorem rootSize_applyWrites_ge {R : Nat} :
    ∀ (ws : List Write) (img : Image), R ≤ rootSize img →
      (∀ w ∈ ws,
        (∀ k, k < 4 → ¬ (w.off ≤ 77828 + k ∧ 77828 + k < w.off + w.count)) ∨
        (w.off = 77824 ∧ w.count = 4096 ∧ R ≤ rd32 w.src 4)) →
      R ≤ rootSize (applyWrites img ws)
  | [], _, h, _ => h
  | w :: ws, img, h, hw => by
    rw [applyWrites_cons]
    apply rootSize_applyWrites_ge ws _ ?_ (fun v hv => hw v (List.mem_cons_of_mem _ hv))
    rcases hw w (List.mem_cons_self _ _) with hmiss | ⟨ho, hc, hge⟩
    · have e : rootSize (applyWrite img w) = rootSize img := by
        rw [rootSize_eq, rootSize_eq]
        apply rd32_congr
        intro k hk
        unfold applyWrite
        rw [pwrite_data, if_neg (hmiss k hk)]
      rw [e]
      exact h
    · have e : rootSize (applyWrite img w) = rd32 w.src 4 := by
        rw [rootSize_eq]
        apply rd32_congr
        intro k hk
        unfold applyWrite
        rw [pwrite_data, if_pos (by omega)]
        refine congrArg _ ?_
        omega
      rw [e]
      exact hge

/-! ## The journal after any series of stages -/

theorem rootSize_of_sameOutside {a b : Image} (h : SameOutsideJournal a b) :
    rootSize a = rootSize b ∧ rootBlk a = rootBlk b := by
  have e : blockAt a INODE_START_IDX = blockAt b INODE_START_IDX :=
    blockAt_eq_of_sameOutside h (by decide)
  unfold rootSize rootBlk
  rw [e]
  exact ⟨rfl, rfl⟩

theorem dataRecs_txnRecs (s : Staged) (u : Nat) :
    dataRecs (txnRecs s u) =
      [⟨INODE_BMAP_IDX, u + 8⟩, ⟨s.target_inode_blk_idx, u + data_rec_size + 8⟩,
        ⟨s.root_data_blk_idx, u + 2 * data_rec_size + 8⟩] := rfl

/-- One more successful stage on a journal that holds a well-framed stream: the stream is
extended by the new transaction, and every DATA record for the first inode-table block
carries a root size that is at least the root size of the image the series started from. -/
theorem stage_journal_step {img0 img img1 : Image} {filename : List Byte}
    {ctime mtime i sl : Nat} {recs : List Rec}
    (hroot : DATA_START_IDX ≤ rootBlk img0 ∧ rootBlk img0 < TOTAL_BLOCKS)
    (hs : SameOutsideJournal img img0) (hlo : JH_SIZE ≤ effUsed img)
    (hfr : framed (journalMem img) (effUsed img) JH_SIZE recs = true)
    (hQ : ∀ p ∈ dataRecs recs, p.target_block < 1048576 ∧
      (p.target_block = INODE_START_IDX →
        rootSize img0 ≤ rd32 (payloadAt (journalMem img) p.data_off) 4))
    (h : cmd_create img filename ctime mtime = .done img1 (i, sl)) :
    SameOutsideJournal img1 img0 ∧ JH_SIZE ≤ effUsed img1 ∧ effUsed img1 ≤ JOURNAL_SIZE ∧
    framed (journalMem img1) (effUsed img1) JH_SIZE
      (recs ++ txnRecs (stagedOf img filename ctime mtime i sl) (effUsed img)) = true ∧
    ∀ p ∈ dataRecs (recs ++ txnRecs (stagedOf img filename ctime mtime i sl) (effUsed img)),
      p.target_block < 1048576 ∧
      (p.target_block = INODE_START_IDX →
        rootSize img0 ≤ rd32 (payloadAt (journalMem img1) p.data_off) 4) := by
  obtain ⟨hc, himg⟩ := cmd_create_done_iff.mp h
  obtain ⟨hm1, hu1⟩ := jh_after_create h
  have he1 : effUsed img1 = effUsed img + txn_size := by rw [effUsed_eq hm1, hu1]
  have hroom := hc.room
  obtain ⟨hnew, hold⟩ := journal_after_stage ctime mtime hc hlo
  rw [← himg] at hnew hold
  obtain ⟨hb1, hb2, hb3, hb4⟩ := stagedOf_bounds img filename ctime mtime i sl
  obtain ⟨hi1, -, hi3, -, -⟩ := scanInodes_found _ _ hc.inode_found
  obtain ⟨hrs, hrb⟩ := rootSize_of_sameOutside hs
  have hfr_new := @txn_framed (journalMem img1) (stagedOf img filename ctime mtime i sl)
    (effUsed img) hnew (by rw [hb1]; exact hb3) (by rw [hb2]; exact hb4)
  have hfr_old : framed (journalMem img1) (effUsed img) JH_SIZE recs = true :=
    framed_congr recs _ hfr (fun j h1 h2 => hold j h1 h2)
  have hpay := txn_payloads hnew
  refine ⟨?_, ?_, ?_, ?_, ?_⟩
  · rw [himg]
    exact sameOutside_trans (stage_sameOutside ctime mtime hc) hs
  · rw [he1]
    omega
  · rw [he1]
    exact hroom
  · rw [he1]
    exact framed_append _ hfr_new recs _ hfr_old
  · intro p hp
    rw [dataRecs_append, List.mem_append] at hp
    rcases hp with hp | hp
    · obtain ⟨hq1, hq2⟩ := hQ p hp
      obtain ⟨hr1, hr2⟩ := dataRecs_range recs _ hfr p hp
      refine ⟨hq1, fun h19 => ?_⟩
      have e : rd32 (payloadAt (journalMem img1) p.data_off) 4
          = rd32 (payloadAt (journalMem img) p.data_off) 4 := by
        apply rd32_congr
        intro k hk
        unfold payloadAt
        rw [if_pos (by simp only [BLOCK_SIZE]; omega),
          if_pos (by simp only [BLOCK_SIZE]; omega)]
        apply hold
        · omega
        · simp only [BLOCK_SIZE] at hr2
          omega
      rw [e]
      exact hq2 h19
    · rw [dataRecs_txnRecs] at hp
      rcases List.mem_cons.mp hp with hp | hp
      · rw [hp]
        exact ⟨show INODE_BMAP_IDX < 1048576 by decide,
          fun h19 => absurd (show INODE_BMAP_IDX = INODE_START_IDX from h19) (by decide)⟩
      rcases List.mem_cons.mp hp with hp | hp
      · rw [hp]
        show (stagedOf img filename ctime mtime i sl).target_inode_blk_idx < 1048576 ∧
          ((stagedOf img filename ctime mtime i sl).target_inode_blk_idx = INODE_START_IDX →
            rootSize img0 ≤ rd32 (payloadAt (journalMem img1)
              (effUsed img + data_rec_size + 8)) 4)
        rw [hb1]
        constructor
        · rw [inodeBlk_eq hi3]
          simp only [INODE_START_IDX, BLOCK_SIZE] at *
          omega
        · intro h19
          have hlt : i < 32 := (inodeBlk_first_iff hi3).mp h19
          have e : rd32 (payloadAt (journalMem img1) (effUsed img + data_rec_size + 8)) 4
              = rd32 (stagedOf img filename ctime mtime i sl).target_inode_block 4 := by
            apply rd32_congr
            intro k hk
            exact hpay.2.1 _ (by simp only [BLOCK_SIZE]; omega)
          rw [e, staged_root_size img filename ctime mtime sl hi1 hlt, hrs]
          exact le_max_left _ _
      · rw [List.mem_singleton] at hp
        rw [hp]
        show (stagedOf img filename ctime mtime i sl).root_data_blk_idx < 1048576 ∧
          ((stagedOf img filename ctime mtime i sl).root_data_blk_idx = INODE_START_IDX → _)
        rw [hb2, hrb]
        simp only [DATA_START_IDX, TOTAL_BLOCKS, INODE_START_IDX] at *
        constructor
        · omega
        · intro h19
          omega

/-- The journal after the first `n` of any series of `create` invocations run back to back
from an image whose journal is absent or empty and whose root directory block is a data
block: it holds a well-framed stream of at most `4 * n` records, and every DATA record for
the first inode-table block carries a root size at least that of the initial image. -/
theorem stageN_journal {img : Image} (calls : Nat → Call)
    (hroot : DATA_START_IDX ≤ rootBlk img ∧ rootBlk img < TOTAL_BLOCKS)
    (hu : effUsed img = JH_SIZE) :
    ∀ n, SameOutsideJournal (stageN calls n img) img ∧
      JH_SIZE ≤ effUsed (stageN calls n img) ∧
      effUsed (stageN calls n img) ≤ JOURNAL_SIZE ∧
      ∃ recs : List Rec, recs.length ≤ 4 * n ∧
        framed (journalMem (stageN calls n img)) (effUsed (stageN calls n img)) JH_SIZE recs
          = true ∧
        ∀ p ∈ dataRecs recs, p.target_block < 1048576 ∧
          (p.target_block = INODE_START_IDX →
            rootSize img ≤ rd32 (payloadAt (journalMem (stageN calls n img)) p.data_off) 4)
  | 0 => by
    refine ⟨sameOutside_refl _, le_of_eq hu.symm, ?_, [], Nat.le_refl _, ?_,
      fun p hp => by cases hp⟩
    · show effUsed img ≤ JOURNAL_SIZE
      rw [hu]
      decide
    · show framed (journalMem img) (effUsed img) JH_SIZE [] = true
      rw [hu]
      rfl
  | n + 1 => by
    obtain ⟨hs, hlo, hhi, recs, hlen, hfr, hQ⟩ := stageN_journal calls hroot hu n
    cases hcr : cmd_create (stageN calls n img) (calls n).filename (calls n).ctime
        (calls n).mtime with
    | failed img' e =>
      have e1 : stageN calls (n + 1) img = stageN calls n img := by
        show (cmd_create (stageN calls n img) (calls n).filename (calls n).ctime
          (calls n).mtime).image = _
        rw [hcr]
        exact cmd_create_failed hcr
      rw [e1]
      exact ⟨hs, hlo, hhi, recs, by omega, hfr, hQ⟩
    | done img1 v =>
      obtain ⟨i, sl⟩ := v
      have e1 : stageN calls (n + 1) img = img1 := by
        show (cmd_create (stageN calls n img) (calls n).filename (calls n).ctime
          (calls n).mtime).image = _
        rw [hcr]
        rfl
      rw [e1]
      obtain ⟨g1, g2, g3, g4, g5⟩ := stage_journal_step hroot hs hlo hfr hQ hcr
      refine ⟨g1, g2, g3, _, ?_, g4, g5⟩
      rw [List.length_append]
      show recs.length + 4 ≤ 4 * (n + 1)
      omega

/-! ## The two ways a stage ends, and the checked read of the superblock -/

/-- A call of `cmd_create` either stops early, leaving the image as it is, or passes every
check with some inode `i` and slot `sl` and performs the five writes. -/
theorem cmd_create_cases (img : Image) (filename : List Byte) (ctime mtime : Nat) :
    (∃ e, cmd_create img filename ctime mtime = .failed img e) ∨
    ∃ i sl, StageCond img filename i sl ∧
      cmd_create img filename ctime mtime
        = .done (applyWrites img (txnWrites (stagedOf img filename ctime mtime i sl))) (i, sl) := by
  cases h : cmd_create img filename ctime mtime with
  | failed img' e =>
    left
    have e1 := cmd_create_failed h
    rw [e1]
    exact ⟨e, rfl⟩
  | done img' v =>
    right
    obtain ⟨i, sl⟩ := v
    obtain ⟨hc, himg⟩ := cmd_create_done_iff.mp h
    rw [himg]
    exact ⟨i, sl, hc, rfl⟩

theorem createWrites_of_failed {img : Image} {filename : List Byte} {ctime mtime : Nat}
    {img' : Image} {e : Err} (h : cmd_create img filename ctime mtime = .failed img' e) :
    createWrites img filename ctime mtime = [] := by
  unfold cmd_create at h
  unfold createWrites
  cases hs : stage img filename ctime mtime with
  | error e' => rfl
  | ok s => rw [hs] at h; cases h

/-- C2 (as amended): commit-barrier atomicity.  For every image that holds the journal
region and whose journal header is absent, or has `8 ≤ nbytes_used ≤ 65536` and a
well-framed record stream in `[8, nbytes_used)` (every DATA record of size 4104, every
COMMIT record of size 4), every filename, and every prefix (the first `k` writes) of the
write sequence of `cmd_create` (three DATA record writes, the COMMIT record write, the
header write; no write at all when the call stops early): when the prefix excludes the
header write (`k < 5`), `cmd_install` on the image with only that prefix applied and
`cmd_install` on the pre-stage image both complete, with the same report and with images
that agree on every block outside the journal region; when it includes the header write
(`k ≥ 5`), the image is the one `cmd_create` leaves, so `cmd_install` does on it what it
does on that image. -/
theorem stage_prefix_then_install (img : Image) (filename : List Byte)
    (ctime mtime : Nat) (recs : List Rec) (fuel k : Nat)
    (hsz : JOURNAL_BLOCK_IDX * BLOCK_SIZE + JOURNAL_SIZE ≤ img.size)
    (hj : jhMagic img ≠ JOURNAL_MAGIC ∨
      (JH_SIZE ≤ jhUsed img ∧ jhUsed img ≤ JOURNAL_SIZE ∧
        framed (journalMem img) (jhUsed img) JH_SIZE recs = true))
    (hfuel : recs.length < fuel) :
    (k < 5 → ∃ imgA imgB r,
      cmd_install fuel (applyWrites img ((createWrites img filename ctime mtime).take k))
        = .done imgA r ∧
      cmd_install fuel img = .done imgB r ∧ SameOutsideJournal imgA imgB) ∧
    (5 ≤ k →
      applyWrites img ((createWrites img filename ctime mtime).take k)
        = (cmd_create img filename ctime mtime).image ∧
      cmd_install fuel (applyWrites img ((createWrites img filename ctime mtime).take k))
        = cmd_install fuel (cmd_create img filename ctime mtime).image) := by
  rcases cmd_create_cases img filename ctime mtime with ⟨e, he⟩ | ⟨i, sl, hc, hd⟩
  · rw [createWrites_of_failed he, he, List.take_nil, applyWrites_nil]
    refine ⟨fun _ => ?_, fun _ => ⟨rfl, rfl⟩⟩
    by_cases hmag : jhMagic img ≠ JOURNAL_MAGIC
    · exact ⟨_, _, _, cmd_install_of_absent (jh_read_of_journal hsz) hmag,
        cmd_install_of_absent (jh_read_of_journal hsz) hmag, sameOutside_refl _⟩
    · rcases hj with h | ⟨-, hnb, hfr⟩
      · exact absurd h hmag
      · exact cmd_install_congr hsz (sameOutside_refl _) rfl rfl (fun _ _ _ => rfl)
          (not_not.mp hmag) hnb hfr hfuel
  · rw [createWrites_of_cond ctime mtime hc, hd]
    constructor
    · intro hk
      have hu8 : JH_SIZE ≤ effUsed img := by
        unfold effUsed
        by_cases hm : jhMagic img ≠ JOURNAL_MAGIC
        · rw [if_pos hm]
        · rw [if_neg hm]
          rcases hj with h | h
          · exact absurd h hm
          · exact h.1
      obtain ⟨hso, hm, hu, hag⟩ := stage_prefix_image ctime mtime hc hu8 hk
      by_cases hmag : jhMagic img ≠ JOURNAL_MAGIC
      · refine ⟨_, _, _, cmd_install_of_absent ?_ (by rw [hm]; exact hmag),
          cmd_install_of_absent (jh_read_of_journal hsz) hmag, hso⟩
        rw [hso.1]
        exact jh_read_of_journal hsz
      · have hmag' : jhMagic img = JOURNAL_MAGIC := not_not.mp hmag
        rcases hj with h | ⟨-, hnb, hfr⟩
        · exact absurd h hmag
        · have he : effUsed img = jhUsed img := effUsed_eq hmag'
          rw [he] at hag
          exact cmd_install_congr hsz hso hm hu hag hmag' hnb hfr hfuel
    · intro hk
      have e : (txnWrites (stagedOf img filename ctime mtime i sl)).take k =
          txnWrites (stagedOf img filename ctime mtime i sl) := by
        apply List.take_of_length_le
        show 5 ≤ k
        exact hk
      rw [e]
      exact ⟨rfl, rfl⟩

/-- C2, witness: on the freshly formatted image (journal absent), applying only the first
three writes of `cmd_create "hello"` and then running `cmd_install` leaves the blocks
outside the journal region as `cmd_install` on the pre-stage image does. -/
theorem stage_prefix_then_install_witness :
    JOURNAL_BLOCK_IDX * BLOCK_SIZE + JOURNAL_SIZE ≤ freshImage.size ∧
    jhMagic freshImage ≠ JOURNAL_MAGIC ∧
    ∃ imgA imgB r,
      cmd_install 1 (applyWrites freshImage ((createWrites freshImage fileHello 0 0).take 3))
        = .done imgA r ∧
      cmd_install 1 freshImage = .done imgB r ∧ SameOutsideJournal imgA imgB :=
  ⟨by decide, by decide,
    (stage_prefix_then_install freshImage fileHello 0 0 [] 1 3 (by decide)
      (Or.inl (by decide)) (by decide)).1 (by decide)⟩

/-! ## C16: transaction layout (amended statement) -/

/-- C12 (as amended): for every image and every call of `cmd_create`, the DATA records the
call writes are none (when it stops early) or three, whose target block indices are, in
order, block 17, block `19 + i/32` for the allocated inode `i`, and the root inode's
`direct[0]` as read from the image.  Blocks 17 and `19 + i/32` are never inside the journal
region (blocks 1..16), and the third target is inside it exactly when `direct[0]` is: no
record the call writes targets the journal region provided the root inode's `direct[0]`
does not lie in it. -/
theorem staged_targets (img : Image) (filename : List Byte) (ctime mtime : Nat) :
    (((createWrites img filename ctime mtime).take 3).map (fun w => rd32 w.src RH_SIZE) = [] ∨
      ∃ i, 1 ≤ i ∧ i / 8 < BLOCK_SIZE ∧
        ((createWrites img filename ctime mtime).take 3).map (fun w => rd32 w.src RH_SIZE)
          = [INODE_BMAP_IDX, INODE_START_IDX + i / 32, rootBlk img]) ∧
    ¬ (JOURNAL_BLOCK_IDX ≤ INODE_BMAP_IDX ∧ INODE_BMAP_IDX < JOURNAL_BLOCK_IDX + JOURNAL_BLOCKS) ∧
    (∀ i, ¬ (JOURNAL_BLOCK_IDX ≤ INODE_START_IDX + i / 32 ∧
      INODE_START_IDX + i / 32 < JOURNAL_BLOCK_IDX + JOURNAL_BLOCKS)) ∧
    (¬ (JOURNAL_BLOCK_IDX ≤ rootBlk img ∧ rootBlk img < JOURNAL_BLOCK_IDX + JOURNAL_BLOCKS) →
      ∀ t ∈ ((createWrites img filename ctime mtime).take 3).map (fun w => rd32 w.src RH_SIZE),
        ¬ (JOURNAL_BLOCK_IDX ≤ t ∧ t < JOURNAL_BLOCK_IDX + JOURNAL_BLOCKS)) := by
  have h19 : ∀ i, ¬ (JOURNAL_BLOCK_IDX ≤ INODE_START_IDX + i / 32 ∧
      INODE_START_IDX + i / 32 < JOURNAL_BLOCK_IDX + JOURNAL_BLOCKS) := by
    intro i
    simp only [JOURNAL_BLOCK_IDX, INODE_START_IDX, JOURNAL_BLOCKS]
    omega
  refine ⟨?_, by decide, h19, ?_⟩
  · rcases cmd_create_cases img filename ctime mtime with ⟨e, he⟩ | ⟨i, sl, hc, -⟩
    · left
      rw [createWrites_of_failed he]
      rfl
    · right
      obtain ⟨hi1, -, hi3, -, -⟩ := scanInodes_found _ _ hc.inode_found
      exact ⟨i, hi1, hi3, createWrites_targets ctime mtime hc⟩
  · intro hroot t ht
    rcases cmd_create_cases img filename ctime mtime with ⟨e, he⟩ | ⟨i, sl, hc, -⟩
    · rw [createWrites_of_failed he] at ht
      cases ht
    · rw [createWrites_targets ctime mtime hc] at ht
      rcases List.mem_cons.mp ht with h | ht
      · rw [h]
        decide
      rcases List.mem_cons.mp ht with h | ht
      · rw [h]
        exact h19 i
      · rw [List.mem_singleton] at ht
        rw [ht]
        exact hroot

/-- C12, witness: on the freshly formatted image the root inode points at block 21, outside
the journal region, and no DATA record that `cmd_create "hello"` writes targets a block in
1..16. -/
theorem staged_targets_witness :
    ¬ (JOURNAL_BLOCK_IDX ≤ rootBlk freshImage ∧
      rootBlk freshImage < JOURNAL_BLOCK_IDX + JOURNAL_BLOCKS) ∧
    ∀ t ∈ ((createWrites freshImage fileHello 0 0).take 3).map (fun w => rd32 w.src RH_SIZE),
      ¬ (JOURNAL_BLOCK_IDX ≤ t ∧ t < JOURNAL_BLOCK_IDX + JOURNAL_BLOCKS) :=
  ⟨by decide, (staged_targets freshImage fileHello 0 0).2.2.2 (by decide)⟩

/-! ## C18: the root size update (amended statement) -/

/-- C18 (as amended): with `inode_count = 64` the inode scan of `cmd_create` delivers an
index `i` with `1 ≤ i < 64` and the directory scan a slot `sl < 128`.  For every image and
every such `i` and `sl`, in the block images `cmd_create` builds at lines 179-208: when
`i < 32` the target inode block `19 + i/32` is block 19, which contains the root inode, and
the staged inode-table block carries a root size equal to the larger of the old root size
and `(sl + 1) * 32`, hence at least `(sl + 1) * 32`; when `i ≥ 32` the target inode block is
block 20, the root size update is skipped, and the staged block is block 20 as read,
changed only inside the slot of inode `i`. -/
theorem root_size_update (img : Image) (filename : List Byte) (ctime mtime i sl : Nat)
    (hi1 : 1 ≤ i) (hi : i < 64) (hsl : sl < 128) :
    (∀ bitmap j, scanInodes bitmap (64 - 1) 1 = .found j → 1 ≤ j ∧ j < 64) ∧
    (∀ entries s, scanDirents entries (BLOCK_SIZE / DIRENT_SIZE) 0 = some s → s < 128) ∧
    (i < 32 →
      (stagedOf img filename ctime mtime i sl).target_inode_blk_idx = INODE_START_IDX ∧
      rd32 (stagedOf img filename ctime mtime i sl).target_inode_block 4
        = max (rootSize img) ((sl + 1) * 32) ∧
      (sl + 1) * 32 ≤ rd32 (stagedOf img filename ctime mtime i sl).target_inode_block 4) ∧
    (32 ≤ i →
      (stagedOf img filename ctime mtime i sl).target_inode_blk_idx = INODE_START_IDX + 1 ∧
      ∀ k, ¬ (i % 32 * 128 ≤ k ∧ k < i % 32 * 128 + 128) →
        (stagedOf img filename ctime mtime i sl).target_inode_block k
          = blockAt img (INODE_START_IDX + 1) k) := by
  have hi3 : i / 8 < BLOCK_SIZE := by
    simp only [BLOCK_SIZE]
    omega
  have hmod : (sl + 1) * DIRENT_SIZE % U32 = (sl + 1) * 32 := by
    simp only [DIRENT_SIZE, U32]
    omega
  refine ⟨?_, ?_, ?_, ?_⟩
  · intro bitmap j hj
    obtain ⟨h1, h2, -, -, -⟩ := scanInodes_found _ _ hj
    exact ⟨h1, by omega⟩
  · intro entries s hs
    obtain ⟨-, h2, -, -⟩ := scanDirents_found _ _ hs
    simp only [BLOCK_SIZE, DIRENT_SIZE] at h2
    omega
  · intro hlt
    have e := staged_root_size img filename ctime mtime sl hi1 hlt
    rw [hmod] at e
    refine ⟨?_, e, ?_⟩
    · exact (inodeBlk_first_iff hi3).mpr hlt
    · rw [e]
      exact le_max_right _ _
  · intro hge
    have hblk : inodeBlk i = INODE_START_IDX + 1 := by
      rw [inodeBlk_eq hi3]
      simp only [INODE_START_IDX]
      omega
    refine ⟨hblk, ?_⟩
    intro k hk
    show growRoot (initInode (blockAt img (inodeBlk i))
      (i % (BLOCK_SIZE / INODE_SIZE) * INODE_SIZE) ctime mtime) (inodeBlk i) sl k = _
    rw [hblk]
    unfold growRoot
    rw [if_neg (by decide)]
    apply (initInode_bytes _ _ ctime mtime).2.2.2
    simp only [BLOCK_SIZE, INODE_SIZE]
    exact hk

/-- C18, witness: on the freshly formatted image, for inode 1 and slot 0 the staged copy of
block 19 carries root size 32; for inode 40 the target is block 20. -/
theorem root_size_update_witness :
    rd32 (stagedOf freshImage fileHello 0 0 1 0).target_inode_block 4
      = max (rootSize freshImage) ((0 + 1) * 32) ∧
    rd32 (stagedOf freshImage fileHello 0 0 1 0).target_inode_block 4 = 32 ∧
    (stagedOf freshImage fileHello 0 0 40 0).target_inode_blk_idx = INODE_START_IDX + 1 :=
  ⟨((root_size_update freshImage fileHello 0 0 1 0 (by decide) (by decide)
      (by decide)).2.2.1 (by decide)).2.1,
    by decide,
    ((root_size_update freshImage fileHello 0 0 40 0 (by decide) (by decide)
      (by decide)).2.2.2 (by decide)).1⟩

/-! ## C17: inode allocation (the scan and the bit) -/

/-- C14: directory size monotonicity.  Take an image that holds the whole journal region,
with an absent or empty journal and root `direct[0]` a data block in 21..84, and any series
of `create` invocations run back to back on it.  The root inode size on disk after any
number of these stages is the root size of the initial image; the staged copy of the block
holding the root inode (block 19, the target block of an allocated inode `1 ≤ i < 32`)
built from the image at any point of the series carries a root size greater than or equal
to it; and after any number `n` of these stages `cmd_install` (given more than `4 * n`
iterations) completes and leaves a root inode size greater than or equal to the root size
of the initial image; `n = 1` is a single stage followed by its install. -/
theorem root_size_monotone (img : Image) (calls : Nat → Call) (n fuel : Nat)
    (hsz : JOURNAL_BLOCK_IDX * BLOCK_SIZE + JOURNAL_SIZE ≤ img.size)
    (hroot : DATA_START_IDX ≤ rootBlk img ∧ rootBlk img < TOTAL_BLOCKS)
    (hj : jhMagic img ≠ JOURNAL_MAGIC ∨ jhUsed img = JH_SIZE)
    (hfuel : 4 * n < fuel) :
    (∀ m, rootSize (stageN calls m img) = rootSize img) ∧
    (∀ m name ctime mtime i sl, 1 ≤ i → i < 32 →
      (stagedOf (stageN calls m img) name ctime mtime i sl).target_inode_blk_idx
        = INODE_START_IDX ∧
      rootSize img ≤
        rd32 (stagedOf (stageN calls m img) name ctime mtime i sl).target_inode_block 4) ∧
    ∃ img2 r, cmd_install fuel (stageN calls n img) = .done img2 r ∧
      rootSize img ≤ rootSize img2 := by
  have hu := effUsed_of_absent_or_empty hj
  have hsame : ∀ m, rootSize (stageN calls m img) = rootSize img := fun m =>
    (rootSize_of_sameOutside (stageN_journal calls hroot hu m).1).1
  refine ⟨hsame, ?_, ?_⟩
  · intro m name ctime mtime i sl hi1 hlt
    refine ⟨(inodeBlk_first_iff (by simp only [BLOCK_SIZE]; omega)).mpr hlt, ?_⟩
    rw [staged_root_size _ name ctime mtime sl hi1 hlt, hsame m]
    exact le_max_left _ _
  · obtain ⟨hs, hlo, hhi, recs, hlen, hfr, hQ⟩ := stageN_journal calls hroot hu n
    have hszX : JOURNAL_BLOCK_IDX * BLOCK_SIZE + JOURNAL_SIZE ≤ (stageN calls n img).size := by
      rw [hs.1]
      exact hsz
    have hrs := (rootSize_of_sameOutside hs).1
    by_cases hm : jhMagic (stageN calls n img) = JOURNAL_MAGIC
    · rw [effUsed_eq hm] at hfr hhi
      rcases cmd_install_framed hszX hm hhi hfr (show recs.length < fuel by omega) with
        ⟨-, hinst⟩ | ⟨-, -, hinst⟩
      · refine ⟨_, _, hinst, ?_⟩
        apply rootSize_applyWrites_ge
        · rw [hrs]
        · intro w hw
          rw [List.mem_append] at hw
          rcases hw with hw | hw
          · obtain ⟨p, hp, hpw⟩ := List.mem_map.mp hw
            obtain ⟨q1, q2⟩ := hQ p (committedData_sub recs p hp)
            rw [← hpw]
            by_cases h19 : p.target_block = INODE_START_IDX
            · right
              refine ⟨?_, rfl, q2 h19⟩
              show blockOff p.target_block = 77824
              rw [h19]
              decide
            · left
              intro k hk
              show ¬ (blockOff p.target_block ≤ 77828 + k ∧
                77828 + k < blockOff p.target_block + BLOCK_SIZE)
              rw [blockOff_small q1]
              simp only [BLOCK_SIZE, INODE_START_IDX] at *
              omega
          · rw [List.mem_singleton] at hw
            rw [hw]
            left
            intro k hk
            rw [resetWrite_off, resetWrite_count]
            omega
      · exact ⟨_, _, hinst, le_of_eq hrs.symm⟩
    · exact ⟨_, _, cmd_install_of_absent (jh_read_of_journal hszX) hm, le_of_eq hrs.symm⟩

/-- C14, witness: a formatted image whose root inode records size 96.  The staged copy of
block 19 for inode 1 and slot 0 still carries a root size of at least 96, and after two
`create "hello"` stages and one install the root size is at least 96. -/
theorem root_size_monotone_witness :
    JOURNAL_BLOCK_IDX * BLOCK_SIZE + JOURNAL_SIZE ≤ rootSizedImage.size ∧
    rootBlk rootSizedImage = 21 ∧ jhMagic rootSizedImage ≠ JOURNAL_MAGIC ∧
    rootSize rootSizedImage = 96 ∧
    rootSize rootSizedImage
      ≤ rd32 (stagedOf (stageN helloCalls 0 rootSizedImage) fileHello 0 0 1 0).target_inode_block
          4 ∧
    ∃ img2 r, cmd_install 9 (stageN helloCalls 2 rootSizedImage) = .done img2 r ∧
      rootSize rootSizedImage ≤ rootSize img2 :=
  have h := root_size_monotone rootSizedImage helloCalls 2 9 (by decide) (by decide)
    (Or.inl (by decide)) (by decide)
  ⟨by decide, by decide, by decide, by decide,
    (h.2.1 0 fileHello 0 0 1 0 (by decide) (by decide)).2, h.2.2⟩

end VSFS
